import Mathlib

/-!
# posix_translation: the virtual file system

A shallow embedding of `src/posix_translation/virtual_file_system.cc`,
`src/posix_translation/redirect.cc`, `src/posix_translation/logd_socket_namespace.cc` and the
function `GetMedian` of `src/common/arc_strace.cc`.

* `std::string` is a list of characters (`Str`).
* `int` values (descriptors, return values) are `Int`; `errno` values, UIDs, flag words and
  handler pointers are `Nat`.
* A call can end in four ways (`Result`): it returns, it recurses without end (the embedding
  runs out of fuel), it aborts the process (`LOG_ALWAYS_FATAL`, an uncaught library error), or
  it blocks on the condition variable.
* File system handlers are external collaborators: their answers are oracle functions
  collected in `Env`, and the calls that reach them are recorded in a log kept in the state.
-/

namespace posix_translation

/-! ## Basic types -/

/-- The type of `std::string` values. -/
abbrev Str := List Char

/-- Ways a call can end. -/
inductive Result (α : Type) where
  | ok : α → Result α
  | diverges : Result α
  | fatal : Result α
  | blocked : Result α
  deriving Repr, DecidableEq

/-- Sequencing of calls: anything but a normal return is propagated. -/
def Result.bind {α β : Type} (r : Result α) (f : α → Result β) : Result β :=
  match r with
  | .ok a => f a
  | .diverges => .diverges
  | .fatal => .fatal
  | .blocked => .blocked

/-! ## Strings and `path_util` -/

/-- The text `std::string::rfind(c)`: index of the last occurrence of `c`, `none` for `npos`. -/
def rfind (c : Char) : Str → Option Nat
  | [] => none
  | x :: xs =>
    match rfind c xs with
    | some i => some (i + 1)
    | none => if x = c then some 0 else none

/-- Pieces of a non-empty string between separators. -/
def SplitString.go (sep : Char) : Str → List Str
  | [] => [[]]
  | c :: cs =>
    if c = sep then [] :: SplitString.go sep cs
    else
      match SplitString.go sep cs with
      | [] => [[c]]
      | h :: t => (c :: h) :: t

/-- Modelled from the spec: `base::SplitString(str, c, &r)` (Chromium `base`, not under src/).
Spec 4.2 step 5, "Split on `/`"; the source comment in `GetNormalizedPathLocked` fixes the
shape: splitting "/" and "/foo" gives ["", ""] and ["", "foo"]. The pieces are taken as
they stand, and an empty string gives an empty vector. -/
def SplitString (s : Str) (sep : Char) : List Str :=
  if s = [] then [] else SplitString.go sep s

/-- Modelled from the spec: `util::EndsWithSlash` (path_util.h is not under src/). -/
def EndsWithSlash (s : Str) : Bool :=
  s.getLast? = some '/'

/-- The Chromium `base` function `EndsWith(str, search, true)`, case-sensitive. -/
def EndsWith (s search : Str) : Bool :=
  decide (search <:+ s)

/-- Modelled from the spec: `util::RemoveTrailingSlashes` (path_util.h is not under src/).
Spec 4.2 step 1, "Strip trailing slashes"; a path made of slashes only stays the root "/"
(the source asserts `*in_out_path == "/" || !EndsWithSlash(*in_out_path)` after it). -/
def RemoveTrailingSlashes (s : Str) : Str :=
  let t := s.rdropWhile (fun c => c == '/')
  if t = [] ∧ s ≠ [] then ['/'] else t

/-- Concatenation of "/" ++ c over the components: the absolute path with these components. -/
def joinAbs (cs : List Str) : Str :=
  (cs.map (fun c => '/' :: c)).flatten

/-- Modelled from the spec: `util::RemoveSingleDotsAndRedundantSlashes` (path_util.h is not
under src/). Spec 4.2 step 2, "Collapse `.` and consecutive `/`": the `.` components and the
empty components are dropped; an absolute path stays absolute, a relative path that has no
component left is ".", and the empty string stays empty (step 3). -/
def RemoveSingleDotsAndRedundantSlashes (s : Str) : Str :=
  if s = [] then []
  else
    let comps := (SplitString.go '/' s).filter (fun c => decide (c ≠ [] ∧ c ≠ ['.']))
    if s.head? = some '/' then
      (if comps = [] then ['/'] else joinAbs comps)
    else
      (if comps = [] then ['.'] else (joinAbs comps).tail)

/-- Modelled from the spec: `util::GetDirNameInPlace` (path_util.h is not under src/): the
path is replaced by its parent directory; the parent of a top-level entry is "/", and a path
without a slash has the parent ".". -/
def GetDirNameInPlace (s : Str) : Str :=
  match rfind '/' s with
  | none => ['.']
  | some 0 => ['/']
  | some (n + 1) => s.take (n + 1)

/-- Modelled from the spec: `util::GetDirName` (path_util.h is not under src/), the value
form of `GetDirNameInPlace`. -/
def GetDirName (s : Str) : Str := GetDirNameInPlace s

/-- Modelled from the spec: `arc::GetBaseName` (common/file_util.h is not under src/): the
text after the last slash. -/
def GetBaseName (s : Str) : Str :=
  match rfind '/' s with
  | none => s
  | some n => s.drop (n + 1)

/-! ## Path normalization (`GetNormalizedPathLocked`, `ResolveSymlinks`) -/

/-- The two normalization modes. -/
inductive NormalizeOption where
  | kResolveSymlinks
  | kResolveParentSymlinks
  deriving Repr, DecidableEq

/-- The answers of the collaborators a call depends on.

`GetFileSystemHandler` is `MountPointManager::GetFileSystemHandler(path, &uid)`
(mount_point_manager.h is not under src/): the handler, as a pointer value, and the owner UID
of the mount point serving `path`. The fields from `readlink` to `rename` are virtual methods
of the handler with that pointer value; a failing method gives the errno value it sets, and
`stat` gives `st_mode`. `IsMainThread` is `pp::Module::Get()->core()->IsMainThread()`,
`GetUid` is `arc::ProcessEmulator::GetUid()` and `IsAppUid` is `arc::IsAppUid`
(process_emulator.h is not under src/). -/
structure Env where
  GetFileSystemHandler : Str → Option (Nat × Nat)
  readlink : Nat → Str → Option Str
  stat : Nat → Str → Except Nat Nat
  IsWorldWritable : Nat → Str → Bool
  IsInitialized : Nat → Bool
  handlerOpen : Nat → Int → Str → Nat → Nat → Except Nat Nat
  unlink : Nat → Str → Except Nat Int
  remove : Nat → Str → Except Nat Int
  rmdir : Nat → Str → Except Nat Int
  truncate : Nat → Str → Int → Except Nat Int
  utimes : Nat → Str → Except Nat Int
  rename : Nat → Str → Str → Except Nat Int
  IsMainThread : Bool
  GetUid : Nat
  IsAppUid : Nat → Bool

/-- The method `VirtualFileSystem::ResolveSymlinks`: while the handler of the path reports a
link, the whole path is replaced by the link target and resolution starts again. The source
has no bound on the number of hops; `fuel` is the number of calls the embedding may make. -/
def ResolveSymlinks (env : Env) : Nat → Str → Result Str
  | 0, _ => .diverges
  | fuel + 1, in_out_path =>
    match env.GetFileSystemHandler in_out_path with
    | none => .ok in_out_path
    | some (handler, _) =>
      match env.readlink handler in_out_path with
      | some resolved => ResolveSymlinks env fuel resolved
      | none => .ok in_out_path

/-- The loop over `directories` in `GetNormalizedPathLocked`; `acc` is `*in_out_path`.
`rest = []` is the test `i == directories.size() - 1`. A `resize(npos)` ends the process. -/
def normalizeLoop (env : Env) (option : NormalizeOption) (fuel : Nat) :
    List Str → Str → Result Str
  | [], acc => .ok acc
  | dir :: rest, acc =>
    if dir = [] then normalizeLoop env option fuel rest acc
    else if dir = ['.', '.'] then
      if acc ≠ [] then
        match rfind '/' acc with
        | some pos => normalizeLoop env option fuel rest (acc.take pos)
        | none => .fatal
      else normalizeLoop env option fuel rest acc
    else
      let appended := acc ++ '/' :: dir
      if option = .kResolveSymlinks ∨ (option = .kResolveParentSymlinks ∧ rest ≠ []) then
        (ResolveSymlinks env fuel appended).bind (fun r => normalizeLoop env option fuel rest r)
      else normalizeLoop env option fuel rest appended

/-- The method `VirtualFileSystem::GetNormalizedPathLocked`; `cwd` is
`process_environment_->GetCurrentDirectory()`. -/
def GetNormalizedPathLocked (env : Env) (cwd : Str) (fuel : Nat) (path : Str)
    (option : NormalizeOption) : Result Str :=
  let p1 := RemoveTrailingSlashes path
  let option1 :=
    if option = .kResolveParentSymlinks ∧ EndsWith p1 ['/', '.'] = true then
      NormalizeOption.kResolveSymlinks
    else option
  let p2 := RemoveSingleDotsAndRedundantSlashes p1
  if p2 = [] then .ok []
  else
    let p3 :=
      if p2 = ['.'] then RemoveTrailingSlashes cwd
      else if p2.head? ≠ some '/' then cwd ++ p2
      else p2
    (normalizeLoop env option1 fuel (SplitString p3 '/') []).bind
      (fun r => .ok (if r = [] then ['/'] else r))

/-- The method `VirtualFileSystem::IsNormalizedPathLocked`. -/
def IsNormalizedPathLocked (env : Env) (cwd : Str) (fuel : Nat) (path : Str) : Result Bool :=
  (GetNormalizedPathLocked env cwd fuel path .kResolveSymlinks).bind (fun resolved =>
    let resolved1 :=
      if path ≠ ['/'] ∧ EndsWithSlash path = true then resolved ++ ['/'] else resolved
    .ok (decide (path = resolved1)))

/-- A component that is neither empty, nor `.`, nor `..`, and holds no slash. -/
def PlainComponent (c : Str) : Prop :=
  c ≠ [] ∧ c ≠ ['.'] ∧ c ≠ ['.', '.'] ∧ '/' ∉ c

instance (c : Str) : Decidable (PlainComponent c) := by
  unfold PlainComponent; infer_instance

/-- The spec's normalized path (section 3): absolute, no `.`, `..` or empty component, and no
trailing slash unless it is the root "/". -/
def IsNormalizedPath (p : Str) : Prop :=
  p = ['/'] ∨
    (p.head? = some '/' ∧
      ∀ c ∈ (SplitString.go '/' p).tail, c ≠ [] ∧ c ≠ ['.'] ∧ c ≠ ['.', '.'])

instance (p : Str) : Decidable (IsNormalizedPath p) := by
  unfold IsNormalizedPath; infer_instance

/-- An environment in which no handler is mounted; used to build concrete environments. -/
def Env.empty : Env where
  GetFileSystemHandler := fun _ => none
  readlink := fun _ _ => none
  stat := fun _ _ => .error 2
  IsWorldWritable := fun _ _ => false
  IsInitialized := fun _ => true
  handlerOpen := fun _ _ _ _ _ => .error 2
  unlink := fun _ _ => .error 2
  remove := fun _ _ => .error 2
  rmdir := fun _ _ => .error 2
  truncate := fun _ _ _ => .error 2
  utimes := fun _ _ => .error 2
  rename := fun _ _ _ => .error 2
  IsMainThread := false
  GetUid := 0
  IsAppUid := fun uid => decide (10000 ≤ uid)

/-! ## Predicates on paths and links -/

/-- What the handler serving `p` reports for `p`: the link target, if `p` is a link. -/
def linkTarget (env : Env) (p : Str) : Option Str :=
  match env.GetFileSystemHandler p with
  | none => none
  | some (handler, _) => env.readlink handler p

/-- The paths accumulated while walking a normalized path: "/a", "/a/b", ... -/
def pathPrefixes (p : Str) : List Str :=
  let cs := (SplitString.go '/' p).tail
  (List.range cs.length).map (fun k => joinAbs (cs.take (k + 1)))

/-- The working directories `chdir` stores: the root "/", or a normalized path followed by
a slash. -/
def IsWorkingDirectory (cwd : Str) : Prop :=
  cwd = ['/'] ∨ ∃ q, IsNormalizedPath q ∧ cwd = q ++ ['/']

/-- No component of the split path is ".". -/
def NoDotComponent (s : Str) : Prop := ∀ d ∈ SplitString.go '/' s, d ≠ ['.']

/-! ## Error numbers (Linux values) -/

def EPERM : Nat := 1
def ENOENT : Nat := 2
def EBADF : Nat := 9
def EACCES : Nat := 13
def EFAULT : Nat := 14
def EEXIST : Nat := 17
def EXDEV : Nat := 18
def ENOTDIR : Nat := 20
def EISDIR : Nat := 21
def EINVAL : Nat := 22
def EMFILE : Nat := 24
def EOPNOTSUPP : Nat := 95
def EAFNOSUPPORT : Nat := 97

/-! ## The redirect handler (`redirect.cc`) -/

/-- The answers of the handler a `RedirectHandler` wraps (`underlying_`). -/
structure Underlying where
  stat : Str → Except Nat Nat
  unlink : Str → Except Nat Int
  remove : Str → Except Nat Int

/-- The members of `RedirectHandler`: `symlinks_` maps a link path to its target,
`dir_to_symlinks_` maps a directory to the names of the links in it. Both `base::hash_map`s
are association lists in which `find` takes the first entry of a key. -/
structure RedirectHandler where
  symlinks_ : List (Str × Str)
  dir_to_symlinks_ : List (Str × List Str)
  mount_point_ : Str

/-- The method `RedirectHandler::GetSymlinkTarget`: the target, or the empty string. -/
def RedirectHandler.GetSymlinkTarget (h : RedirectHandler) (src : Str) : Str :=
  match h.symlinks_.lookup src with
  | none => []
  | some target => target

/-- The statement `dir_to_symlinks_[dir_name].push_back(link_name)`. -/
def pushBackAt (m : List (Str × List Str)) (dir_name link_name : Str) : List (Str × List Str) :=
  match m with
  | [] => [(dir_name, [link_name])]
  | (d, names) :: rest =>
    if d = dir_name then (d, names ++ [link_name]) :: rest
    else (d, names) :: pushBackAt rest dir_name link_name

/-- The method `RedirectHandler::AddSymlink` (release build: the `ALOG_ASSERT`s are compiled
out). `hash_map::insert` leaves the map alone when the key is present. -/
def RedirectHandler.AddSymlink (h : RedirectHandler) (dest src : Str) : RedirectHandler :=
  let symlinks1 :=
    if (h.symlinks_.lookup src).isSome then h.symlinks_ else (src, dest) :: h.symlinks_
  let dir_name := GetDirName src
  let link_name := GetBaseName src
  { h with symlinks_ := symlinks1
           dir_to_symlinks_ := pushBackAt h.dir_to_symlinks_ dir_name link_name }

/-- The method `RedirectHandler::RemoveSymlinkTarget`: the result and the handler after it. -/
def RedirectHandler.RemoveSymlinkTarget (h : RedirectHandler) (src : Str) :
    Bool × RedirectHandler :=
  match h.symlinks_.lookup src with
  | none => (false, h)
  | some _ => (true, { h with symlinks_ := h.symlinks_.filter (fun kv => kv.1 ≠ src) })

/-- The method `RedirectHandler::readlink`: the return value, `*resolved` and `errno` after
the call. -/
def RedirectHandler.readlink (h : RedirectHandler) (pathname resolved : Str) (errno : Nat) :
    Int × Str × Nat :=
  let rewritten := h.GetSymlinkTarget pathname
  if rewritten = [] then (-1, resolved, EINVAL)
  else (rewritten.length, rewritten, errno)

/-- The method `RedirectHandler::symlink`: the return value, the handler and `errno` after
the call. -/
def RedirectHandler.symlink (h : RedirectHandler) (u : Underlying) (oldpath newpath : Str)
    (errno : Nat) : Int × RedirectHandler × Nat :=
  let old_errno := errno
  if h.GetSymlinkTarget newpath ≠ [] ∨
      (newpath ≠ h.mount_point_ ∧ (u.stat newpath).toBool = true) then
    (-1, h, EEXIST)
  else
    (0, h.AddSymlink oldpath newpath, old_errno)

/-- The method `RedirectHandler::unlink`. -/
def RedirectHandler.unlink (h : RedirectHandler) (u : Underlying) (pathname : Str)
    (errno : Nat) : Int × RedirectHandler × Nat :=
  let r := h.RemoveSymlinkTarget pathname
  if r.1 = true then (0, r.2, errno)
  else
    match u.unlink pathname with
    | .ok v => (v, r.2, errno)
    | .error e => (-1, r.2, e)

/-- The method `RedirectHandler::remove`. -/
def RedirectHandler.remove (h : RedirectHandler) (u : Underlying) (pathname : Str)
    (errno : Nat) : Int × RedirectHandler × Nat :=
  let r := h.RemoveSymlinkTarget pathname
  if r.1 = true then (0, r.2, errno)
  else
    match u.remove pathname with
    | .ok v => (v, r.2, errno)
    | .error e => (-1, r.2, e)

/-- The method `RedirectHandler::OnDirectoryContentsNeeded`: the names added with the type
`Dir::SYMLINK` to the listing of the wrapped handler, in order. -/
def RedirectHandler.OnDirectoryContentsNeeded (h : RedirectHandler) (name : Str) : List Str :=
  match h.dir_to_symlinks_.lookup name with
  | none => []
  | some names => names

/-- An underlying handler in which no file exists. -/
def Underlying.empty : Underlying where
  stat := fun _ => .error ENOENT
  unlink := fun _ => .error ENOENT
  remove := fun _ => .error ENOENT

/-- The environment of a VFS whose single handler, mounted at the root and owned by
`owner`, is the redirect handler `h` over `u`. -/
def redirectEnv (h : RedirectHandler) (u : Underlying) (owner : Nat) : Env :=
  { Env.empty with
    GetFileSystemHandler := fun _ => some (1, owner)
    readlink := fun _ p =>
      let r := h.readlink p [] 0
      if 0 ≤ r.1 then some r.2.1 else none
    stat := fun _ p => u.stat p }

/-- The redirect handler after `symlink("/b", "/a")` and `symlink("/a", "/b")` on an empty
one: "/a" points to "/b" and "/b" points to "/a". -/
def cyclicHandler : RedirectHandler :=
  let h0 : RedirectHandler := ⟨[], [], []⟩
  let h1 := (h0.symlink Underlying.empty "/b".toList "/a".toList 0).2.1
  (h1.symlink Underlying.empty "/a".toList "/b".toList 0).2.1

/-- The redirect handler with the single link "/lib" -> "/system/lib". -/
def libHandler : RedirectHandler :=
  ((⟨[], [], []⟩ : RedirectHandler).symlink Underlying.empty
    "/system/lib".toList "/lib".toList 0).2.1

/-- The paths accumulated before the last component of a normalized path. -/
def parentPrefixes (p : Str) : List Str :=
  let cs := (SplitString.go '/' p).tail
  (List.range (cs.length - 1)).map (fun k => joinAbs (cs.take (k + 1)))

/-- Every chain of links starting at `p` ends after at most `n` hops. -/
def LinkChainWithin (env : Env) : Nat → Str → Prop
  | 0, p => linkTarget env p = none
  | n + 1, p =>
    match linkTarget env p with
    | none => True
    | some t => LinkChainWithin env n t

/-! ## Flag words and modes (Linux values of `<fcntl.h>` and `<sys/stat.h>`) -/

def O_RDONLY : Nat := 0
def O_WRONLY : Nat := 1
def O_RDWR : Nat := 2
def O_ACCMODE : Nat := 3
def O_CREAT : Nat := 0o100
def O_EXCL : Nat := 0o200
def O_TRUNC : Nat := 0o1000
def O_LARGEFILE : Nat := 0o100000
def O_CLOEXEC : Nat := 0o2000000
def S_IFMT : Nat := 0o170000
def S_IFDIR : Nat := 0o040000
def S_IFREG : Nat := 0o100000

/-- The macro `S_ISDIR`. -/
def S_ISDIR (mode : Nat) : Bool := (mode &&& S_IFMT) == S_IFDIR

def STDOUT_FILENO : Int := 1
def STDERR_FILENO : Int := 2

/-- The constant `kPreopenPendingFd`. -/
def kPreopenPendingFd : Int := -2

/-- Modelled from the spec: `kInvalidFileNo` (virtual_file_system.h is not under src/), the
value of a debug descriptor that has not been opened yet. -/
def kInvalidFileNo : Int := -1

/-- The function `IsEligibleForPreopen`; `~` is taken on 32-bit words. -/
def IsEligibleForPreopen (oflag : Nat) : Bool :=
  (oflag &&& (0xFFFFFFFF ^^^ (O_LARGEFILE ||| O_CLOEXEC))) == 0

/-! ## Streams and the descriptor table -/

/-- Modelled from the spec: the class `PermissionInfo` (its header is not under src/). Spec
glossary: the (owner UID, writable?) pair derived from the owner of the mount point and the
UID of the caller. -/
structure PermissionInfo where
  file_uid : Nat
  is_writable : Bool
  deriving Repr, DecidableEq

/-- The stream classes the VFS creates itself, and the streams handlers return. -/
inductive StreamKind where
  | handler
  | epoll
  | udp
  | tcp
  | local_read_write
  | local_read_only
  | local_write_only
  deriving Repr, DecidableEq

/-- Modelled from the spec: a `FileStream` object (file_stream.h is not under src/), as far
as the descriptor table needs it: `ident` stands for the object (its address), `kind` for its
class, and `permission` is unset until `set_permission` is called. -/
structure FileStream where
  kind : StreamKind
  ident : Nat
  permission : Option PermissionInfo
  deriving Repr, DecidableEq

/-- State of one descriptor in the table. -/
inductive FdEntry where
  | unused
  | reserved
  | bound (stream : FileStream)
  deriving Repr, DecidableEq

/-- Modelled from the spec: the class `FdToFileStreamMap` (fd_to_file_stream_map.h is not
under src/). Spec section 3: a contiguous range `[min_fd, max_fd]` with a mapping from
descriptors to streams; section 4.3 names a reserved-but-not-yet-stream entry, which is what
`GetFirstUnusedDescriptor` leaves behind (the callers in virtual_file_system.cc undo it with
`RemoveFileStream` or complete it with `AddFileStream`). -/
structure FdToFileStreamMap where
  min_file_id : Int
  max_file_id : Int
  entries : Int → FdEntry

/-- Modelled from the spec: `get(fd) -> stream | none`. -/
def FdToFileStreamMap.GetStream (m : FdToFileStreamMap) (fd : Int) : Option FileStream :=
  match m.entries fd with
  | .bound s => some s
  | _ => none

/-- Modelled from the spec: `is_known(fd)`, true for bound and for reserved descriptors. -/
def FdToFileStreamMap.IsKnownDescriptor (m : FdToFileStreamMap) (fd : Int) : Bool :=
  match m.entries fd with
  | .unused => false
  | _ => true

/-- Modelled from the spec: binding a stream to a descriptor. -/
def FdToFileStreamMap.AddFileStream (m : FdToFileStreamMap) (fd : Int) (stream : FileStream) :
    FdToFileStreamMap :=
  { m with entries := fun x => if x = fd then .bound stream else m.entries x }

/-- Modelled from the spec: `remove(fd)`; the descriptor becomes unused. -/
def FdToFileStreamMap.RemoveFileStream (m : FdToFileStreamMap) (fd : Int) : FdToFileStreamMap :=
  { m with entries := fun x => if x = fd then .unused else m.entries x }

/-- Modelled from the spec: the search behind `GetFirstUnusedDescriptor`, the first unused
descriptor among `fd, fd + 1, ...` (`count` of them). -/
def firstUnusedFrom (entries : Int → FdEntry) (fd : Int) : Nat → Option Int
  | 0 => none
  | count + 1 =>
    if entries fd = .unused then some fd else firstUnusedFrom entries (fd + 1) count

/-- Modelled from the spec: "the lowest unused fd in range is returned; exhaustion signals
out-of-descriptors" (-1). The descriptor returned is reserved. -/
def FdToFileStreamMap.GetFirstUnusedDescriptor (m : FdToFileStreamMap) :
    Int × FdToFileStreamMap :=
  match firstUnusedFrom m.entries m.min_file_id (m.max_file_id + 1 - m.min_file_id).toNat with
  | some fd => (fd, { m with entries := fun x => if x = fd then .reserved else m.entries x })
  | none => (-1, m)

/-! ## The state of the virtual file system -/

/-- A call of a handler method that the log records: `open` and the methods that modify the
file system. The queries `stat`, `readlink` and `IsWorldWritable` are not recorded. -/
inductive HandlerCall where
  | open (handler : Nat) (fd : Int) (path : Str) (oflag cmode : Nat)
  | unlink (handler : Nat) (path : Str)
  | remove (handler : Nat) (path : Str)
  | rmdir (handler : Nat) (path : Str)
  | truncate (handler : Nat) (path : Str) (length : Int)
  | utimes (handler : Nat) (path : Str)
  | rename (handler : Nat) (oldpath newpath : Str)
  deriving Repr, DecidableEq

/-- The members of `VirtualFileSystem` the embedded methods use, with the `errno` of the
calling thread, the working directory kept by `process_environment_`, the handlers on which
`Initialize` has been called, the log of handler calls, and a counter standing for the
allocation of new stream objects. `preopened_fds_` is a multimap: entries of equal keys are
in insertion order. `inodes_` is the map from paths to inode numbers, as a lookup function. -/
structure VirtualFileSystem where
  fd_to_stream_ : FdToFileStreamMap
  preopened_fds_ : List (Str × Int)
  scheduled_preopens_ : List Str
  browser_ready_ : Bool
  preopen_started_ : Bool
  debug_fds_ : List (Int × (Int × Str))
  inodes_ : Str → Option Nat
  next_inode_ : Nat
  cwd : Str
  errno : Nat
  initialized : List Nat
  handler_calls : List HandlerCall
  next_object : Nat

/-- The constructor `VirtualFileSystem::VirtualFileSystem`; `save_logs_to_file` is the
option of that name. -/
def VirtualFileSystem.new (min_fd max_fd : Int) (save_logs_to_file : Bool) :
    VirtualFileSystem where
  fd_to_stream_ := ⟨min_fd, max_fd, fun _ => .unused⟩
  preopened_fds_ := []
  scheduled_preopens_ := []
  browser_ready_ := false
  preopen_started_ := false
  debug_fds_ :=
    if save_logs_to_file then
      [(STDOUT_FILENO, (kInvalidFileNo, "/data/arc_stdout.txt".toList)),
       (STDERR_FILENO, (kInvalidFileNo, "/data/arc_stderr.txt".toList))]
    else []
  inodes_ := fun _ => none
  next_inode_ := 128
  cwd := ['/']
  errno := 0
  initialized := []
  handler_calls := []
  next_object := 0

/-- The method `VirtualFileSystem::GetFirstUnusedDescriptorLocked`. -/
def GetFirstUnusedDescriptorLocked (s : VirtualFileSystem) : Int × VirtualFileSystem :=
  let r := s.fd_to_stream_.GetFirstUnusedDescriptor
  (r.1, { s with fd_to_stream_ := r.2 })

/-- The lazy initialization in `GetFileSystemHandlerLocked`: `handler->Initialize()` is
called when the handler is not initialized yet. -/
def initializeHandler (env : Env) (s : VirtualFileSystem) (handler : Nat) :
    VirtualFileSystem :=
  if env.IsInitialized handler = true ∨ handler ∈ s.initialized then s
  else { s with initialized := handler :: s.initialized }

/-- The method `VirtualFileSystem::GetFileSystemHandlerLocked` with a non-null
`out_permission`: the handler and the permission, `none` for a null handler. -/
def GetFileSystemHandlerLocked (env : Env) (s : VirtualFileSystem) (path : Str) :
    Result (Option (Nat × PermissionInfo) × VirtualFileSystem) :=
  match env.GetFileSystemHandler path with
  | none => .ok (none, s)
  | some (handler, file_uid) =>
    let s1 := initializeHandler env s handler
    let uid := env.GetUid
    let is_writable :=
      !env.IsAppUid uid || decide (file_uid = uid) || env.IsWorldWritable handler path
    if env.IsMainThread = true then .fatal
    else .ok (some (handler, ⟨file_uid, is_writable⟩), s1)

/-- The method `VirtualFileSystem::CloseLocked`. -/
def CloseLocked (s : VirtualFileSystem) (fd : Int) : Bool × VirtualFileSystem :=
  match s.fd_to_stream_.GetStream fd with
  | none => (false, s)
  | some _ => (true, { s with fd_to_stream_ := s.fd_to_stream_.RemoveFileStream fd })

/-- The method `VirtualFileSystem::close`. -/
def close (s : VirtualFileSystem) (fd : Int) : Int × VirtualFileSystem :=
  let r := CloseLocked s fd
  if r.1 = false then (-1, { r.2 with errno := EBADF }) else (0, r.2)

/-- The method `VirtualFileSystem::DenyAccessForModifyLocked`: `errno` is `EACCES` when the
handler's `stat` succeeds, and is left as `stat` set it otherwise. -/
def DenyAccessForModifyLocked (env : Env) (s : VirtualFileSystem) (path : Str)
    (handler : Nat) : Int × VirtualFileSystem :=
  match env.stat handler path with
  | .ok _ => (-1, { s with errno := EACCES })
  | .error e => (-1, { s with errno := e })

/-- The method `VirtualFileSystem::DenyAccessForCreateLocked`. -/
def DenyAccessForCreateLocked (env : Env) (s : VirtualFileSystem) (path : Str)
    (handler : Nat) : Int × VirtualFileSystem :=
  DenyAccessForModifyLocked env s (GetDirNameInPlace path) handler

/-- The loop of `ClosePreopenedFilesWithResolvedPathLocked` over the entries of the path. -/
def closePreopened (s : VirtualFileSystem) : List (Str × Int) → VirtualFileSystem
  | [] => s
  | (_, fd) :: rest =>
    if 0 ≤ fd then closePreopened (CloseLocked s fd).2 rest else closePreopened s rest

/-- The method `VirtualFileSystem::ClosePreopenedFilesWithResolvedPathLocked`. -/
def ClosePreopenedFilesWithResolvedPathLocked (s : VirtualFileSystem) (resolved_path : Str) :
    VirtualFileSystem :=
  let range := s.preopened_fds_.filter (fun kv => kv.1 = resolved_path)
  let s1 := closePreopened s range
  { s1 with preopened_fds_ := s1.preopened_fds_.filter (fun kv => kv.1 ≠ resolved_path) }

/-- Removal of the first entry of a key from the multimap (`erase(it)` at `lower_bound`). -/
def eraseFirst (resolved : Str) : List (Str × Int) → List (Str × Int)
  | [] => []
  | kv :: rest => if kv.1 = resolved then rest else kv :: eraseFirst resolved rest

/-- The method `VirtualFileSystem::OpenLocked`. A pending preopen entry makes the caller
wait on the condition variable (`blocked`). -/
def OpenLocked (env : Env) (fuel : Nat) (s : VirtualFileSystem) (pathname : Str)
    (oflag cmode : Nat) (use_preopened : Bool) : Result (Int × VirtualFileSystem) :=
  if env.IsMainThread = true then .fatal
  else
    (GetNormalizedPathLocked env s.cwd fuel pathname .kResolveSymlinks).bind fun resolved =>
    let cached :=
      if use_preopened = true ∧ IsEligibleForPreopen oflag = true then
        s.preopened_fds_.find? (fun kv => kv.1 = resolved)
      else none
    match cached with
    | some (_, fd) =>
      if fd ≠ kPreopenPendingFd then
        .ok (fd, { s with preopened_fds_ := eraseFirst resolved s.preopened_fds_ })
      else .blocked
    | none =>
      (GetFileSystemHandlerLocked env s resolved).bind fun hp =>
      match hp.1 with
      | none => .ok (-1, { hp.2 with errno := ENOENT })
      | some (handler, permission) =>
        let s1 := hp.2
        if ((oflag &&& O_ACCMODE) ≠ O_RDONLY ∨ (oflag &&& (O_CREAT ||| O_TRUNC)) ≠ 0) ∧
            permission.is_writable = false then
          if (oflag &&& O_CREAT) ≠ 0 then
            match env.stat handler resolved with
            | .ok st_mode =>
              if S_ISDIR st_mode = true then .ok (-1, { s1 with errno := EISDIR })
              else if (oflag &&& O_EXCL) ≠ 0 then .ok (-1, { s1 with errno := EEXIST })
              else .ok (DenyAccessForCreateLocked env s1 resolved handler)
            | .error e =>
              .ok (DenyAccessForCreateLocked env { s1 with errno := e } resolved handler)
          else .ok (DenyAccessForModifyLocked env s1 resolved handler)
        else
          let r := GetFirstUnusedDescriptorLocked s1
          let fd := r.1
          if fd < 0 then .ok (-1, { r.2 with errno := EMFILE })
          else
            let s2 := { r.2 with
              handler_calls :=
                r.2.handler_calls ++ [HandlerCall.open handler fd resolved oflag cmode] }
            match env.handlerOpen handler fd resolved oflag cmode with
            | .error e =>
              .ok (-1, { s2 with
                fd_to_stream_ := s2.fd_to_stream_.RemoveFileStream fd
                errno := e })
            | .ok ident =>
              let stream : FileStream := ⟨.handler, ident, some permission⟩
              let s3 := { s2 with fd_to_stream_ := s2.fd_to_stream_.AddFileStream fd stream }
              let s4 :=
                if IsEligibleForPreopen oflag = false then
                  ClosePreopenedFilesWithResolvedPathLocked s3 resolved
                else s3
              .ok (fd, s4)

/-- The method `VirtualFileSystem::open`; named `vfs_open` because `open` is a keyword. -/
def vfs_open (env : Env) (fuel : Nat) (s : VirtualFileSystem) (pathname : Str)
    (oflag cmode : Nat) : Result (Int × VirtualFileSystem) :=
  OpenLocked env fuel s pathname oflag cmode true

/-- The method `VirtualFileSystem::SchedulePreopen`: a multimap `insert` puts the entry
after the entries of the same key. -/
def SchedulePreopen (env : Env) (fuel : Nat) (s : VirtualFileSystem) (path : Str) :
    Result VirtualFileSystem :=
  if s.preopen_started_ = true then .fatal
  else
    (GetNormalizedPathLocked env s.cwd fuel path .kResolveSymlinks).bind fun resolved =>
    .ok { s with
      scheduled_preopens_ := s.scheduled_preopens_ ++ [resolved]
      preopened_fds_ := s.preopened_fds_ ++ [(resolved, kPreopenPendingFd)] }

/-- The assignment `it->second = value` at the first pending entry of the path. -/
def setFirstPending (resolved : Str) (value : Int) : List (Str × Int) → List (Str × Int)
  | [] => []
  | kv :: rest =>
    if kv.1 = resolved ∧ kv.2 = kPreopenPendingFd then (kv.1, value) :: rest
    else kv :: setFirstPending resolved value rest

/-- The body of the loop of `PerformPreopens` for one scheduled path: `OpenLocked` is called
only when an entry of the path is still pending. -/
def performPreopen (env : Env) (fuel : Nat) (s : VirtualFileSystem) (resolved : Str) :
    Result VirtualFileSystem :=
  if (s.preopened_fds_.any fun kv => decide (kv.1 = resolved ∧ kv.2 = kPreopenPendingFd))
      = true then
    (OpenLocked env fuel s resolved 0 0 false).bind fun r =>
    .ok { r.2 with preopened_fds_ := setFirstPending resolved r.1 r.2.preopened_fds_ }
  else .ok s

/-- The loop of `PerformPreopens` over the scheduled paths. -/
def performPreopensLoop (env : Env) (fuel : Nat) :
    List Str → VirtualFileSystem → Result VirtualFileSystem
  | [], s => .ok s
  | resolved :: rest, s =>
    (performPreopen env fuel s resolved).bind fun s1 => performPreopensLoop env fuel rest s1

/-- The method `VirtualFileSystem::PerformPreopens`, run by the preopen thread. -/
def PerformPreopens (env : Env) (fuel : Nat) (s : VirtualFileSystem) :
    Result VirtualFileSystem :=
  performPreopensLoop env fuel s.scheduled_preopens_ s

/-! ## Socket constants (Linux values of `<sys/socket.h>`) -/

def AF_UNIX : Nat := 1
def AF_INET : Nat := 2
def AF_INET6 : Nat := 10
def SOCK_STREAM : Nat := 1
def SOCK_DGRAM : Nat := 2
def SOCK_SEQPACKET : Nat := 5

/-! ## The dup family, sockets, pipes and epoll -/

/-- The method `VirtualFileSystem::DupLocked`. -/
def DupLocked (s : VirtualFileSystem) (fd newfd : Int) : Int × VirtualFileSystem :=
  match s.fd_to_stream_.GetStream fd with
  | none => (-1, { s with errno := EBADF })
  | some stream =>
    let r := if newfd < 0 then GetFirstUnusedDescriptorLocked s else (newfd, s)
    let newfd1 := r.1
    if newfd1 < 0 then (-1, { r.2 with errno := EMFILE })
    else if fd = newfd1 then (newfd1, r.2)
    else
      let s1 := (CloseLocked r.2 newfd1).2
      (newfd1, { s1 with fd_to_stream_ := s1.fd_to_stream_.AddFileStream newfd1 stream })

/-- The method `VirtualFileSystem::dup`. -/
def dup (s : VirtualFileSystem) (fd : Int) : Int × VirtualFileSystem :=
  DupLocked s fd (-1)

/-- The method `VirtualFileSystem::dup2`. -/
def dup2 (s : VirtualFileSystem) (fd newfd : Int) : Int × VirtualFileSystem :=
  DupLocked s fd newfd

/-- A stream object the VFS creates itself: the next free object identity is used. -/
def newStream (s : VirtualFileSystem) (kind : StreamKind) : FileStream × VirtualFileSystem :=
  (⟨kind, s.next_object, none⟩, { s with next_object := s.next_object + 1 })

/-- The method `VirtualFileSystem::epoll_create1`. -/
def epoll_create1 (s : VirtualFileSystem) (_flags : Nat) : Int × VirtualFileSystem :=
  let r := GetFirstUnusedDescriptorLocked s
  let fd := r.1
  if fd < 0 then (-1, { r.2 with errno := EMFILE })
  else
    let n := newStream r.2 .epoll
    (fd, { n.2 with fd_to_stream_ := n.2.fd_to_stream_.AddFileStream fd n.1 })

/-- The method `VirtualFileSystem::socket`. -/
def socket (s : VirtualFileSystem) (socket_family socket_type _protocol : Nat) :
    Int × VirtualFileSystem :=
  let r := GetFirstUnusedDescriptorLocked s
  let fd := r.1
  if fd < 0 then (-1, { r.2 with errno := EMFILE })
  else
    let is_inet := decide (socket_family = AF_INET ∨ socket_family = AF_INET6)
    let kind : Option StreamKind :=
      if is_inet = true ∧ socket_type = SOCK_DGRAM then some .udp
      else if is_inet = true ∧ socket_type = SOCK_STREAM then some .tcp
      else if socket_family = AF_UNIX ∧ socket_type = SOCK_STREAM then some .local_read_write
      else if socket_family = AF_UNIX ∧ socket_type = SOCK_SEQPACKET then
        some .local_read_write
      else if socket_family = AF_UNIX ∧ socket_type = SOCK_DGRAM then some .local_read_write
      else none
    match kind with
    | none =>
      (-1, { r.2 with
        fd_to_stream_ := r.2.fd_to_stream_.RemoveFileStream fd
        errno := EAFNOSUPPORT })
    | some k =>
      let n := newStream r.2 k
      (fd, { n.2 with fd_to_stream_ := n.2.fd_to_stream_.AddFileStream fd n.1 })

/-- The common part of `socketpair` and `pipe2` after the argument checks: two descriptors
are taken, then the two connected sockets are bound to them. The result holds the return
value and the two descriptors written to the caller's array. -/
def newPair (s : VirtualFileSystem) (kind1 kind2 : StreamKind) :
    Int × Option (Int × Int) × VirtualFileSystem :=
  let r1 := GetFirstUnusedDescriptorLocked s
  let fd1 := r1.1
  if fd1 < 0 then (-1, none, { r1.2 with errno := EMFILE })
  else
    let r2 := GetFirstUnusedDescriptorLocked r1.2
    let fd2 := r2.1
    if fd2 < 0 then
      (-1, none, { r2.2 with
        fd_to_stream_ := r2.2.fd_to_stream_.RemoveFileStream fd1
        errno := EMFILE })
    else
      let n1 := newStream r2.2 kind1
      let n2 := newStream n1.2 kind2
      let t1 := n2.2.fd_to_stream_.AddFileStream fd1 n1.1
      (0, some (fd1, fd2), { n2.2 with fd_to_stream_ := t1.AddFileStream fd2 n2.1 })

/-- The method `VirtualFileSystem::socketpair`; `sv_is_null` is the test `sv == NULL`. -/
def socketpair (s : VirtualFileSystem) (socket_family socket_type protocol : Nat)
    (sv_is_null : Bool) : Int × Option (Int × Int) × VirtualFileSystem :=
  if socket_family ≠ AF_UNIX then (-1, none, { s with errno := EAFNOSUPPORT })
  else if protocol ≠ 0 then (-1, none, { s with errno := EOPNOTSUPP })
  else if socket_type ≠ SOCK_SEQPACKET ∧ socket_type ≠ SOCK_STREAM ∧
      socket_type ≠ SOCK_DGRAM then
    (-1, none, { s with errno := EOPNOTSUPP })
  else if sv_is_null = true then (-1, none, { s with errno := EFAULT })
  else newPair s .local_read_write .local_read_write

/-- The method `VirtualFileSystem::pipe2`. -/
def pipe2 (s : VirtualFileSystem) (_flags : Nat) :
    Int × Option (Int × Int) × VirtualFileSystem :=
  newPair s .local_read_only .local_write_only

/-- The statement `debug_fd.fd_ = value` on the entry of `fd` in `debug_fds_`. -/
def setDebugFd (m : List (Int × (Int × Str))) (fd value : Int) : List (Int × (Int × Str)) :=
  m.map (fun kv => if kv.1 = fd then (kv.1, (value, kv.2.2)) else kv)

/-- The method `VirtualFileSystem::DebugWriteLocked`; the bytes written are not modelled. -/
def DebugWriteLocked (env : Env) (s : VirtualFileSystem) (fd : Int) :
    Result VirtualFileSystem :=
  if s.browser_ready_ = false then .ok s
  else
    match s.debug_fds_.lookup fd with
    | none => .ok s
    | some (debug_fd_fd, debug_fd_name) =>
      if debug_fd_fd = kInvalidFileNo then
        let r := GetFirstUnusedDescriptorLocked s
        let s1 := { r.2 with debug_fds_ := setDebugFd r.2.debug_fds_ fd r.1 }
        if 0 ≤ r.1 then
          (GetFileSystemHandlerLocked env s1 debug_fd_name).bind fun hp =>
          match hp.1 with
          | none => .ok hp.2
          | some (handler, permission) =>
            let s2 := { hp.2 with
              handler_calls := hp.2.handler_calls ++
                [HandlerCall.open handler r.1 debug_fd_name (O_CREAT ||| O_RDWR) 0o600] }
            match env.handlerOpen handler r.1 debug_fd_name (O_CREAT ||| O_RDWR) 0o600 with
            | .error e => .ok { s2 with errno := e }
            | .ok ident =>
              .ok { s2 with
                fd_to_stream_ :=
                  s2.fd_to_stream_.AddFileStream r.1 ⟨.handler, ident, some permission⟩ }
        else .ok s1
      else .ok s

/-- The method `VirtualFileSystem::SetBrowserReady`, with the option `enable_preopen` off. -/
def SetBrowserReady (s : VirtualFileSystem) : VirtualFileSystem :=
  { s with browser_ready_ := true }

/-! ## Path operations that modify the file system -/

/-- The method `VirtualFileSystem::StatLocked`: the return value. -/
def StatLocked (env : Env) (fuel : Nat) (s : VirtualFileSystem) (pathname : Str) :
    Result (Int × VirtualFileSystem) :=
  (GetNormalizedPathLocked env s.cwd fuel pathname .kResolveSymlinks).bind fun resolved =>
  (GetFileSystemHandlerLocked env s resolved).bind fun hp =>
  match hp.1 with
  | none => .ok (-1, { hp.2 with errno := ENOENT })
  | some (handler, _) =>
    match env.stat handler resolved with
    | .ok _ => .ok (0, hp.2)
    | .error e => .ok (-1, { hp.2 with errno := e })

/-- The shape shared by `unlink`, `remove`, `rmdir`, `truncate`, `utime` and `utimes`: the
path is normalized in the mode `option`, the handler is looked up, a path that is not
writable is refused by `DenyAccessForModifyLocked`; otherwise the preopen cache is
invalidated when `invalidate` is set, and the handler method is called. -/
def modifyPath (env : Env) (fuel : Nat) (s : VirtualFileSystem) (pathname : Str)
    (option : NormalizeOption) (invalidate : Bool)
    (call : Nat → Str → HandlerCall) (method : Nat → Str → Except Nat Int) :
    Result (Int × VirtualFileSystem) :=
  (GetNormalizedPathLocked env s.cwd fuel pathname option).bind fun resolved =>
  (GetFileSystemHandlerLocked env s resolved).bind fun hp =>
  match hp.1 with
  | none => .ok (-1, { hp.2 with errno := ENOENT })
  | some (handler, permission) =>
    if permission.is_writable = false then
      .ok (DenyAccessForModifyLocked env hp.2 resolved handler)
    else
      let s1 :=
        if invalidate = true then ClosePreopenedFilesWithResolvedPathLocked hp.2 resolved
        else hp.2
      let s2 := { s1 with handler_calls := s1.handler_calls ++ [call handler resolved] }
      match method handler resolved with
      | .ok v => .ok (v, s2)
      | .error e => .ok (-1, { s2 with errno := e })

/-- The method `VirtualFileSystem::unlink`. -/
def unlink (env : Env) (fuel : Nat) (s : VirtualFileSystem) (pathname : Str) :
    Result (Int × VirtualFileSystem) :=
  modifyPath env fuel s pathname .kResolveParentSymlinks true HandlerCall.unlink env.unlink

/-- The method `VirtualFileSystem::remove`. -/
def remove (env : Env) (fuel : Nat) (s : VirtualFileSystem) (pathname : Str) :
    Result (Int × VirtualFileSystem) :=
  modifyPath env fuel s pathname .kResolveParentSymlinks true HandlerCall.remove env.remove

/-- The method `VirtualFileSystem::rmdir`. -/
def rmdir (env : Env) (fuel : Nat) (s : VirtualFileSystem) (pathname : Str) :
    Result (Int × VirtualFileSystem) :=
  modifyPath env fuel s pathname .kResolveSymlinks false HandlerCall.rmdir env.rmdir

/-- The method `VirtualFileSystem::truncate`. -/
def truncate (env : Env) (fuel : Nat) (s : VirtualFileSystem) (pathname : Str)
    (length : Int) : Result (Int × VirtualFileSystem) :=
  modifyPath env fuel s pathname .kResolveSymlinks false
    (fun h p => HandlerCall.truncate h p length) (fun h p => env.truncate h p length)

/-- The method `VirtualFileSystem::utime`: the times are turned into a `timeval` pair and
handed to the handler's `utimes`. -/
def utime (env : Env) (fuel : Nat) (s : VirtualFileSystem) (pathname : Str) :
    Result (Int × VirtualFileSystem) :=
  modifyPath env fuel s pathname .kResolveSymlinks false HandlerCall.utimes env.utimes

/-- The method `VirtualFileSystem::utimes`. -/
def utimes (env : Env) (fuel : Nat) (s : VirtualFileSystem) (pathname : Str) :
    Result (Int × VirtualFileSystem) :=
  modifyPath env fuel s pathname .kResolveSymlinks false HandlerCall.utimes env.utimes

/-- The method `VirtualFileSystem::rename`. -/
def rename (env : Env) (fuel : Nat) (s : VirtualFileSystem) (oldpath newpath : Str) :
    Result (Int × VirtualFileSystem) :=
  (GetNormalizedPathLocked env s.cwd fuel oldpath .kResolveSymlinks).bind fun resolved_oldpath =>
  (GetFileSystemHandlerLocked env s resolved_oldpath).bind fun hp_old =>
  match hp_old.1 with
  | none => .ok (-1, { hp_old.2 with errno := ENOENT })
  | some (handler, permission_old) =>
    (GetNormalizedPathLocked env s.cwd fuel newpath .kResolveSymlinks).bind
      fun resolved_newpath =>
    (GetFileSystemHandlerLocked env hp_old.2 resolved_newpath).bind fun hp_new =>
    match hp_new.1 with
    | none => .ok (-1, { hp_new.2 with errno := ENOENT })
    | some (another_handler, permission_new) =>
      let s1 := hp_new.2
      if handler ≠ another_handler then .ok (-1, { s1 with errno := EXDEV })
      else if resolved_newpath = resolved_oldpath then StatLocked env fuel s1 resolved_newpath
      else if permission_old.is_writable = false ∨ permission_new.is_writable = false then
        let d1 := DenyAccessForModifyLocked env s1 resolved_oldpath handler
        let oldpath_errno := d1.2.errno
        let d2 := DenyAccessForCreateLocked env d1.2 resolved_newpath handler
        let newpath_errno := d2.2.errno
        if oldpath_errno = ENOTDIR ∨ newpath_errno = ENOTDIR then
          .ok (-1, { d2.2 with errno := ENOTDIR })
        else if oldpath_errno = ENOENT ∨ newpath_errno = ENOENT then
          .ok (-1, { d2.2 with errno := ENOENT })
        else .ok (-1, { d2.2 with errno := EACCES })
      else
        let s2 := ClosePreopenedFilesWithResolvedPathLocked s1 resolved_oldpath
        let s3 := ClosePreopenedFilesWithResolvedPathLocked s2 resolved_newpath
        let s4 := { s3 with
          handler_calls :=
            s3.handler_calls ++ [HandlerCall.rename handler resolved_oldpath resolved_newpath] }
        match env.rename handler resolved_oldpath resolved_newpath with
        | .ok v => .ok (v, s4)
        | .error e => .ok (-1, { s4 with errno := e })

/-- The public operations on descriptors named by the invariant of section 3. -/
inductive FdOp where
  | open (pathname : Str) (oflag cmode : Nat)
  | close (fd : Int)
  | dup (fd : Int)
  | dup2 (fd newfd : Int)
  | socket (socket_family socket_type protocol : Nat)
  | socketpair (socket_family socket_type protocol : Nat) (sv_is_null : Bool)
  | pipe2 (flags : Nat)
  | epoll_create1 (flags : Nat)
  | debug_write (fd : Int)
  | set_browser_ready

/-- The state after one public operation, when it returns. -/
def FdOp.run (env : Env) (fuel : Nat) (s : VirtualFileSystem) :
    FdOp → Result VirtualFileSystem
  | .open pathname oflag cmode => (vfs_open env fuel s pathname oflag cmode).bind (fun r => .ok r.2)
  | .close fd => .ok (posix_translation.close s fd).2
  | .dup fd => .ok (posix_translation.dup s fd).2
  | .dup2 fd newfd => .ok (posix_translation.dup2 s fd newfd).2
  | .socket f t p => .ok (posix_translation.socket s f t p).2
  | .socketpair f t p n => .ok (posix_translation.socketpair s f t p n).2.2
  | .pipe2 flags => .ok (posix_translation.pipe2 s flags).2.2
  | .epoll_create1 flags => .ok (posix_translation.epoll_create1 s flags).2
  | .debug_write fd => DebugWriteLocked env s fd
  | .set_browser_ready => .ok (SetBrowserReady s)

/-- The invariant of section 3 on one state: a descriptor is known to the table exactly
when a stream is bound to it. -/
def KnownIffStream (s : VirtualFileSystem) : Prop :=
  ∀ fd : Int, s.fd_to_stream_.IsKnownDescriptor fd = true ↔
    (s.fd_to_stream_.GetStream fd).isSome = true

/-- The permission test of `GetFileSystemHandlerLocked` as the spec words it (4.1): the
caller is not an app UID, or the caller is the owner, or the handler says the path is
world-writable. -/
def IsWritableTo (env : Env) (handler owner : Nat) (path : Str) : Prop :=
  env.IsAppUid env.GetUid = false ∨ env.GetUid = owner ∨
    env.IsWorldWritable handler path = true

instance (env : Env) (handler owner : Nat) (path : Str) :
    Decidable (IsWritableTo env handler owner path) := by
  unfold IsWritableTo; infer_instance

/-- The `errno` a refused modification of `path` ends with: `EACCES` when the handler's
`stat` succeeds, and otherwise the error `stat` reports. -/
def denyErrno (env : Env) (handler : Nat) (path : Str) : Nat :=
  match env.stat handler path with
  | .ok _ => EACCES
  | .error e => e

/-- The preference order of the spec (4.9): `ENOTDIR` over `ENOENT` over `EACCES`. -/
def preferredErrno (a b : Nat) : Nat :=
  if a = ENOTDIR ∨ b = ENOTDIR then ENOTDIR
  else if a = ENOENT ∨ b = ENOENT then ENOENT
  else EACCES

/-- The six path operations that `DenyAccessForModifyLocked` guards. -/
inductive ModifyOp where
  | unlink
  | remove
  | rmdir
  | truncate (length : Int)
  | utime
  | utimes
  deriving Repr, DecidableEq

/-- The normalization mode each of the six operations uses. -/
def ModifyOp.option : ModifyOp → NormalizeOption
  | .unlink => .kResolveParentSymlinks
  | .remove => .kResolveParentSymlinks
  | _ => .kResolveSymlinks

/-- The call of the operation. -/
def ModifyOp.run (env : Env) (fuel : Nat) (s : VirtualFileSystem) (pathname : Str) :
    ModifyOp → Result (Int × VirtualFileSystem)
  | .unlink => posix_translation.unlink env fuel s pathname
  | .remove => posix_translation.remove env fuel s pathname
  | .rmdir => posix_translation.rmdir env fuel s pathname
  | .truncate length => posix_translation.truncate env fuel s pathname length
  | .utime => posix_translation.utime env fuel s pathname
  | .utimes => posix_translation.utimes env fuel s pathname

/-- An environment with one handler, mounted at the root and owned by root, whose caller is
the app UID 10000: no path is writable. `stat` knows the directory "/ro" and reports
`ENOTDIR` under "/nodir" and `ENOENT` elsewhere. -/
def readOnlyEnv : Env :=
  { Env.empty with
    GetFileSystemHandler := fun _ => some (1, 0)
    GetUid := 10000
    stat := fun _ p =>
      if p = "/ro".toList then .ok S_IFDIR
      else if "/nodir/".toList <+: p then .error ENOTDIR
      else .error ENOENT }

/-- The descriptor `fd` is the smallest descriptor of the range `[min_fd, max_fd]` that is
not in use (neither bound nor reserved). -/
def IsLowestUnused (m : FdToFileStreamMap) (fd : Int) : Prop :=
  m.min_file_id ≤ fd ∧ fd ≤ m.max_file_id ∧ m.IsKnownDescriptor fd = false ∧
    ∀ y, m.min_file_id ≤ y → y < fd → m.IsKnownDescriptor y = true

/-- No descriptor of the range `[min_fd, max_fd]` is unused. -/
def NoUnusedDescriptor (m : FdToFileStreamMap) : Prop :=
  ∀ y, m.min_file_id ≤ y → y ≤ m.max_file_id → m.IsKnownDescriptor y = true

/-- The statement of C1 as the spec words it: a call of `open` returns the lowest unused
descriptor, with a stream bound to it, or returns -1 with `EMFILE`. -/
def OpenLowestOrEMFILE (env : Env) (fuel : Nat) (s : VirtualFileSystem) (pathname : Str)
    (oflag cmode : Nat) : Prop :=
  ∃ ret s1, vfs_open env fuel s pathname oflag cmode = .ok (ret, s1) ∧
    ((IsLowestUnused s.fd_to_stream_ ret ∧
        ∃ stream, s1.fd_to_stream_.GetStream ret = some stream) ∨
      (ret = -1 ∧ s1.errno = EMFILE))

/-- An environment with one handler, mounted at the root, in which every file can be opened:
the stream returned for the descriptor `fd` is the object `100 + fd`. -/
def openableEnv : Env :=
  { Env.empty with
    GetFileSystemHandler := fun _ => some (1, 0)
    handlerOpen := fun _ fd _ _ _ => .ok (100 + fd.toNat) }

/-- An environment with one handler, mounted at the root, in which no file exists: the
handler's `open` fails with `ENOENT`. -/
def noFileEnv : Env :=
  { Env.empty with
    GetFileSystemHandler := fun _ => some (1, 0)
    handlerOpen := fun _ _ _ _ _ => .error ENOENT }

/-- Modelled from the spec: the table in which `fd` has been reserved, as
`GetFirstUnusedDescriptor` leaves it. -/
def FdToFileStreamMap.reserve (m : FdToFileStreamMap) (fd : Int) : FdToFileStreamMap :=
  { m with entries := fun x => if x = fd then .reserved else m.entries x }

/-- No descriptor of the table is reserved without a stream, and the range starts at a
non-negative descriptor. -/
def NoReserved (s : VirtualFileSystem) : Prop :=
  0 ≤ s.fd_to_stream_.min_file_id ∧ ∀ fd, s.fd_to_stream_.entries fd ≠ .reserved


/-! ## The inode table -/

/-- Modelled from the spec: the width of `ino_t`, a "64-bit inode number" (section 3); the
type of `next_inode_` is declared in virtual_file_system.h, which is not under src/. -/
def kInodeBits : Nat := 64

/-- The method `VirtualFileSystem::GetInodeUncheckedLocked`: the number returned and the
state after the call. `next_inode_++` wraps at the width of `ino_t`. -/
def GetInodeUncheckedLocked (s : VirtualFileSystem) (path : Str) : Nat × VirtualFileSystem :=
  match s.inodes_ path with
  | some ino => (ino, s)
  | none =>
    (s.next_inode_,
      { s with
        inodes_ := fun p => if p = path then some s.next_inode_ else s.inodes_ p
        next_inode_ := (s.next_inode_ + 1) % 2 ^ kInodeBits })

/-- The method `VirtualFileSystem::GetInodeLocked` (release build: the `ALOG_ASSERT`s on the
path are compiled out). -/
def GetInodeLocked (s : VirtualFileSystem) (path : Str) : Nat × VirtualFileSystem :=
  GetInodeUncheckedLocked s path

/-- The method `VirtualFileSystem::RemoveInodeLocked`. -/
def RemoveInodeLocked (s : VirtualFileSystem) (path : Str) : VirtualFileSystem :=
  { s with inodes_ := fun p => if p = path then none else s.inodes_ p }

/-- The method `VirtualFileSystem::ReassignInodeLocked`: without an inode for `oldpath` the
entry of `newpath` is erased; otherwise `inodes_[newpath]` takes the number and the entry of
`oldpath` is erased. -/
def ReassignInodeLocked (s : VirtualFileSystem) (oldpath newpath : Str) : VirtualFileSystem :=
  match s.inodes_ oldpath with
  | none => { s with inodes_ := fun p => if p = newpath then none else s.inodes_ p }
  | some ino =>
    { s with
      inodes_ := fun p =>
        if p = oldpath then none else if p = newpath then some ino else s.inodes_ p }

/-- The calls that touch the inode table. -/
inductive InodeOp where
  | lookup (path : Str)
  | remove (path : Str)
  | reassign (oldpath newpath : Str)
  deriving Repr, DecidableEq

/-- The state after one call on the inode table. -/
def InodeOp.run (s : VirtualFileSystem) : InodeOp → VirtualFileSystem
  | .lookup path => (GetInodeUncheckedLocked s path).2
  | .remove path => RemoveInodeLocked s path
  | .reassign oldpath newpath => ReassignInodeLocked s oldpath newpath

/-- The state after a sequence of calls on the inode table. -/
def runInodeOps : List InodeOp → VirtualFileSystem → VirtualFileSystem
  | [], s => s
  | op :: ops, s => runInodeOps ops (op.run s)

/-- The numbers returned, in order, by the lookups of paths that are not in the table when
they are looked up, along a sequence of calls. -/
def freshNumbers : List InodeOp → VirtualFileSystem → List Nat
  | [], _ => []
  | .lookup path :: ops, s =>
    match s.inodes_ path with
    | some _ => freshNumbers ops (InodeOp.run s (.lookup path))
    | none => (GetInodeUncheckedLocked s path).1 :: freshNumbers ops (InodeOp.run s (.lookup path))
  | op :: ops, s => freshNumbers ops (op.run s)

/-- Every number stored in the inode table is below the counter. -/
def InodesBelowCounter (s : VirtualFileSystem) : Prop :=
  ∀ p n, s.inodes_ p = some n → n < s.next_inode_

/-! ## `fcntl` -/

/-- The method `VirtualFileSystem::fcntl`; `streamFcntl` is `FileStream::fcntl` of the stream
bound to the descriptor. A descriptor that is reserved without a stream is tolerated. -/
def fcntl (streamFcntl : FileStream → Nat → Except Nat Int) (s : VirtualFileSystem)
    (fd : Int) (cmd : Nat) : Int × VirtualFileSystem :=
  match s.fd_to_stream_.GetStream fd with
  | some stream =>
    match streamFcntl stream cmd with
    | .ok v => (v, s)
    | .error e => (-1, { s with errno := e })
  | none =>
    if s.fd_to_stream_.IsKnownDescriptor fd = true then (0, s)
    else (-1, { s with errno := EBADF })

/-- The statement of C13 as the spec words it, for `old` bound to a stream: `dup2(old, new)`
returns `new`, and afterwards `new` is bound to the stream of `old`. -/
def Dup2BindsNew (s : VirtualFileSystem) (old new : Int) : Prop :=
  ∀ stream, s.fd_to_stream_.GetStream old = some stream →
    (dup2 s old new).1 = new ∧ (dup2 s old new).2.fd_to_stream_.GetStream new = some stream

/-- The state after `open("/a", O_RDONLY)` on a fresh VFS (`min_fd = 3`) whose handler opens
every file: descriptor 3 is bound, to the object 103. -/
def oneOpenState : VirtualFileSystem :=
  match vfs_open openableEnv 1 (VirtualFileSystem.new 3 1023 false) "/a".toList O_RDONLY 0 with
  | .ok r => r.2
  | _ => VirtualFileSystem.new 3 1023 false

/-- The statement of C14 as the spec words it: `dup` of the descriptor succeeds, that is,
returns a descriptor rather than -1. -/
def DupAllowed (s : VirtualFileSystem) (fd : Int) : Prop :=
  0 ≤ (dup s fd).1

instance (s : VirtualFileSystem) (fd : Int) : Decidable (DupAllowed s fd) := by
  unfold DupAllowed; infer_instance


/-- The statement of C18 as the spec words it: apart from its access mode, the flag word
carries no flag other than `O_LARGEFILE` and `O_CLOEXEC`. -/
def OnlyPreopenFlagsBesideAccessMode (oflag : Nat) : Prop :=
  oflag &&& (0xFFFFFFFF ^^^ (O_ACCMODE ||| O_LARGEFILE ||| O_CLOEXEC)) = 0

instance (oflag : Nat) : Decidable (OnlyPreopenFlagsBesideAccessMode oflag) := by
  unfold OnlyPreopenFlagsBesideAccessMode; infer_instance


/-- The statement of C11 as the spec words it: the `errno` of `open` with `O_CREAT` on a
path that is not writable whose target exists with the mode `st_mode`: `EISDIR` for a
directory, `EEXIST` for another file when `O_EXCL` is set, and `EACCES` otherwise. -/
def createErrnoOnExistingTarget (st_mode oflag : Nat) : Nat :=
  if S_ISDIR st_mode = true then EISDIR
  else if (oflag &&& O_EXCL) ≠ 0 then EEXIST
  else EACCES

/-- An environment with one handler, mounted at the root and owned by root, whose caller is
the app UID 10000: no path is writable. The handler's `stat` knows the regular file
"/solo/f" and nothing else (`ENOENT`), not even the directory "/solo". -/
def orphanFileEnv : Env :=
  { Env.empty with
    GetFileSystemHandler := fun _ => some (1, 0)
    GetUid := 10000
    stat := fun _ p => if p = "/solo/f".toList then .ok S_IFREG else .error ENOENT }

/-- The statement of C12 as the spec words it: the `errno` of `open` with
`O_CREAT | O_EXCL` in a read-only mount is `EEXIST` on an existing file that is not a
directory, `EISDIR` on an existing directory, and `EACCES` in every other case. -/
def exclusiveCreateErrno (env : Env) (handler : Nat) (resolved : Str) : Nat :=
  match env.stat handler resolved with
  | .ok st_mode => if S_ISDIR st_mode = true then EISDIR else EEXIST
  | .error _ => EACCES

/-- An environment with one handler, mounted at the root and owned by root, whose caller is
the app UID 10000: no path is writable. The directory "/ro" and the regular file "/ro/f"
exist, and nothing else does (`ENOENT`). -/
def existingFileEnv : Env :=
  { Env.empty with
    GetFileSystemHandler := fun _ => some (1, 0)
    GetUid := 10000
    stat := fun _ p =>
      if p = "/ro".toList then .ok S_IFDIR
      else if p = "/ro/f".toList then .ok S_IFREG
      else .error ENOENT }


/-! ## The preopen cache -/

/-- The preopen cache of `s1` is the cache of `s` invalidated for the paths `paths`: the
entries of these paths are gone, the entries of the other paths are unchanged, and every
cached descriptor (a value that is not negative) of these paths is closed. -/
def PreopenInvalidated (s s1 : VirtualFileSystem) (paths : List Str) : Prop :=
  s1.preopened_fds_ = s.preopened_fds_.filter (fun kv => decide (kv.1 ∉ paths)) ∧
  (∀ kv ∈ s1.preopened_fds_, kv.1 ∉ paths) ∧
  ∀ p ∈ paths, ∀ fd, 0 ≤ fd → (p, fd) ∈ s.preopened_fds_ →
    s1.fd_to_stream_.GetStream fd = none

/-- The call that led from `s` to `s1` left the preopen cache alone: the cache holds the same
entries in the same order, and every descriptor is bound as before (so no cached descriptor
has been closed). -/
def PreopenCacheKept (s s1 : VirtualFileSystem) : Prop :=
  s1.preopened_fds_ = s.preopened_fds_ ∧
  ∀ fd, s1.fd_to_stream_.GetStream fd = s.fd_to_stream_.GetStream fd

/-- The state reached from a fresh VFS (`min_fd = 3`) by `SchedulePreopen(path)`, the signal
that the browser is ready, and the run of the preopen thread. -/
def preopenedState (env : Env) (path : Str) : VirtualFileSystem :=
  match (SchedulePreopen env 1 (VirtualFileSystem.new 3 1023 false) path).bind
      (fun s => PerformPreopens env 1 (SetBrowserReady s)) with
  | .ok s => s
  | _ => VirtualFileSystem.new 3 1023 false


/-- An environment with one handler, mounted at the root and owned by root, whose caller is
the app UID 10000: every file exists and can be opened for reading, and no path is
writable. -/
def systemEnv : Env :=
  { Env.empty with
    GetFileSystemHandler := fun _ => some (1, 0)
    GetUid := 10000
    stat := fun _ _ => .ok S_IFREG
    handlerOpen := fun _ fd _ _ _ => .ok (100 + fd.toNat) }


/-- The invariant of the inode table: no two paths have the same number, and every stored
number is at least 128 (`kFirstInode`) and below the counter. -/
def InodeTableSound (s : VirtualFileSystem) : Prop :=
  (∀ p q n, s.inodes_ p = some n → s.inodes_ q = some n → p = q) ∧
  ∀ p n, s.inodes_ p = some n → 128 ≤ n ∧ n < s.next_inode_

/-- The numbers returned, in order, by the lookups along a sequence of calls, each with the
flag that says whether the path was not in the table (the number is newly assigned). -/
def lookupResults : List InodeOp → VirtualFileSystem → List (Nat × Bool)
  | [], _ => []
  | .lookup path :: ops, s =>
    ((GetInodeUncheckedLocked s path).1, (s.inodes_ path).isNone) ::
      lookupResults ops (InodeOp.run s (.lookup path))
  | op :: ops, s => lookupResults ops (op.run s)


/-! ## The logd socket namespace (`logd_socket_namespace.cc`) -/

def EADDRINUSE : Nat := 98

/-- The function `IsNameAccepted` of logd_socket_namespace.cc. -/
def IsNameAccepted (name : Str) : Bool :=
  name == "/dev/socket/logd".toList ||
  name == "/dev/socket/logdr".toList ||
  name == "/dev/socket/logdw".toList ||
  name == "/dev/socket/testlogd".toList ||
  name == "/dev/socket/testlogdr".toList ||
  name == "/dev/socket/testlogdw".toList

/-- The member `map_` of `LogdSocketNamespace` (the class is declared in
logd_socket_namespace.h, which is not under src/; the member is modelled from its uses in
logd_socket_namespace.cc, `find`, `end` and `operator[]` of a map from names to socket
pointers). `map_ name = none` says that `find` returns `end()`; `some none` is an entry
whose socket pointer is null; a socket is named by its identity. -/
structure LogdSocketNamespace where
  map_ : Str → Option (Option Nat)

/-- The method `LogdSocketNamespace::Bind`: the return value, the namespace and `errno`
after the call; `stream = none` is the null pointer. -/
def LogdSocketNamespace.Bind (ns : LogdSocketNamespace) (name : Str) (stream : Option Nat)
    (errno : Nat) : Int × LogdSocketNamespace × Nat :=
  if IsNameAccepted name = false then (-1, ns, EOPNOTSUPP)
  else if stream.isSome = true ∧ (ns.map_ name).isSome = true then (-1, ns, EADDRINUSE)
  else (0, { map_ := fun n => if n = name then some stream else ns.map_ n }, errno)

/-- The method `LogdSocketNamespace::GetByName`: the socket, or `none` for `NULL`. -/
def LogdSocketNamespace.GetByName (ns : LogdSocketNamespace) (name : Str) : Option Nat :=
  match ns.map_ name with
  | none => none
  | some stream => stream

/-- The namespace after construction: the map is empty. -/
def LogdSocketNamespace.new : LogdSocketNamespace := ⟨fun _ => none⟩

/-- The statement of C29 as the spec words it, for a socket `s` (not null) and an accepted
name: `Bind(name, s)` succeeds if and only if no socket is currently bound to the name. -/
def BindSucceedsIffUnbound (ns : LogdSocketNamespace) (name : Str) (s : Nat) : Prop :=
  (ns.Bind name (some s) 0).1 = 0 ↔ ns.GetByName name = none

instance (ns : LogdSocketNamespace) (name : Str) (s : Nat) :
    Decidable (BindSucceedsIffUnbound ns name s) := by
  unfold BindSucceedsIffUnbound; infer_instance

/-! ## `arc::GetMedian` (`arc_strace.cc`) -/

/-- The value of an `int64_t` after an arithmetic result is stored in it (two's complement). -/
def wrapInt64 (x : Int) : Int := (x + 2 ^ 63) % 2 ^ 64 - 2 ^ 63

/-- The value `*std::max_element(first, first + last)` over the index range `[0, last)` of
the vector: the largest element of the range; for an empty range `max_element` returns the
iterator `last`, which `GetMedian` dereferences. -/
def max_element_value (v : List Int) (last : Nat) : Int :=
  match v.take last with
  | [] => v.getD last 0
  | x :: xs => xs.foldl max x

/-- The function `arc::GetMedian`. `nth_element` is the arrangement that
`std::nth_element(begin, begin + mid_index, end)` leaves the vector in. -/
def GetMedian (nth_element : List Int → Nat → List Int) (samples : List Int) : Int :=
  let mid_index := samples.length / 2
  let arranged := nth_element samples mid_index
  let mid_value := arranged.getD mid_index 0
  if samples.length % 2 ≠ 0 then mid_value
  else Int.tdiv (wrapInt64 (mid_value + max_element_value arranged (mid_index - 1))) 2

/-- The contract of `std::nth_element` (C++ standard library): the vector is permuted, the
element at `mid` is not smaller than any element before it and not larger than any element
after it. -/
def IsNthElementArrangement (samples : List Int) (mid : Nat) (arranged : List Int) : Prop :=
  arranged.Perm samples ∧
  (∀ i < mid, arranged.getD i 0 ≤ arranged.getD mid 0) ∧
  (∀ i < arranged.length, mid < i → arranged.getD mid 0 ≤ arranged.getD i 0)

/-- The median as the spec words it: the middle element of the sorted samples when their
count is odd, the truncating average of the two middle elements when it is even. -/
def medianOf (samples : List Int) : Int :=
  let sorted := samples.insertionSort (fun a b => a ≤ b)
  let n := samples.length
  if n % 2 ≠ 0 then sorted.getD (n / 2) 0
  else Int.tdiv (sorted.getD (n / 2 - 1) 0 + sorted.getD (n / 2) 0) 2


/-! ## The tables of the redirect handler -/

/-- No registered link of the handler has the empty string as its target. -/
def NoEmptyTarget (h : RedirectHandler) : Prop :=
  ∀ kv ∈ h.symlinks_, kv.2 ≠ []

/-- The redirect handler without links, mounted at "/". -/
def RedirectHandler.new : RedirectHandler := ⟨[], [], ['/']⟩

/-- The statement of C24 as the spec words it, for the link `link` with the name `n` in the
directory `d`: `OnDirectoryContentsNeeded(d)` adds the name once when the link is
registered, and not at all when it is not. -/
def ListedOncePerLink (h : RedirectHandler) (d n link : Str) : Prop :=
  (h.OnDirectoryContentsNeeded d).count n = if (h.symlinks_.lookup link).isSome then 1 else 0

instance (h : RedirectHandler) (d n link : Str) : Decidable (ListedOncePerLink h d n link) := by
  unfold ListedOncePerLink; infer_instance


/-! ## The preopen thread -/

/-- The function `VirtualFileSystem::PreopenThreadMain`: `PerformPreopens` run on the
preopen thread. `errno` is thread-local: what the preopen thread writes to its `errno` is
not seen by the threads that call `open`, whose `errno` is the one the state carries. -/
def PreopenThreadMain (env : Env) (fuel : Nat) (s : VirtualFileSystem) :
    Result VirtualFileSystem :=
  (PerformPreopens env fuel s).bind fun s1 => .ok { s1 with errno := s.errno }

/-- The state reached from a fresh VFS (`min_fd = 3`) whose handler has no file "/tmp/x" by
`SchedulePreopen("/tmp/x")`, the signal that the browser is ready, and the run of the
preopen thread, whose `open` failed. -/
def failedPreopenState : VirtualFileSystem :=
  match (SchedulePreopen noFileEnv 1 (VirtualFileSystem.new 3 1023 false)
      "/tmp/x".toList).bind (fun s => PreopenThreadMain noFileEnv 1 (SetBrowserReady s)) with
  | .ok s => s
  | _ => VirtualFileSystem.new 3 1023 false


/-! ## `getcwd` -/

def ENOMEM : Nat := 12
def ERANGE : Nat := 34

/-- The NUL character that ends a C string. -/
def NUL : Char := Char.ofNat 0

/-- The library function `strncpy(dest, src.c_str(), n)`: the `n` bytes written to `dest`.
The characters of the C string (up to its first NUL) are copied, at most `n` of them, and
the rest of the `n` bytes is filled with NUL. -/
def strncpy (src : Str) (n : Nat) : Str :=
  let c := (src.takeWhile (fun ch => ch ≠ NUL)).take n
  c ++ List.replicate (n - c.length) NUL

/-- What `getcwd` returns: `NULL`, or the caller's buffer, or a buffer taken from `malloc`
with its size; `bytes` are the bytes written at the start of the buffer. -/
inductive GetcwdResult where
  | null
  | inBuf (bytes : Str)
  | inFresh (size : Nat) (bytes : Str)
  deriving Repr, DecidableEq

/-- The method `VirtualFileSystem::getcwd`. `buf` says whether the caller's pointer is not
null, and `malloc` whether an allocation of the given size succeeds. The working directory
kept by the process environment is the field `cwd`. -/
def getcwd (malloc : Nat → Bool) (s : VirtualFileSystem) (buf : Bool) (size : Nat) :
    GetcwdResult × VirtualFileSystem :=
  let current_working_directory := s.cwd
  let path_length :=
    if current_working_directory.length > 1 then current_working_directory.length - 1
    else current_working_directory.length
  if buf = true ∧ size = 0 then (.null, { s with errno := EINVAL })
  else if size ≤ path_length ∧ (buf = true ∨ size ≠ 0) then (.null, { s with errno := ERANGE })
  else if buf = false then
    let size1 := if size = 0 then path_length + 1 else size
    if malloc size1 = false then (.null, { s with errno := ENOMEM })
    else (.inFresh size1 (strncpy current_working_directory path_length ++ [NUL]), s)
  else (.inBuf (strncpy current_working_directory path_length ++ [NUL]), s)

/-- The path `P` of the spec: the stored directory without its final '/', or "/" when the
stored directory is "/". -/
def cwdWithoutFinalSlash (c : Str) : Str :=
  if c = ['/'] then c else c.dropLast


/-! ## `select` -/

/-- The enumeration `SelectReadyEvent`. -/
inductive SelectReadyEvent where
  | SELECT_READY_READ
  | SELECT_READY_WRITE
  | SELECT_READY_EXCEPTION
  deriving Repr, DecidableEq

/-- An `fd_set`: the bit `FD_ISSET(i, fds)` of every descriptor. -/
abbrev FdSet := Nat → Bool

/-- The macro `FD_CLR(i, fds)`. -/
def FD_CLR (i : Nat) (fds : FdSet) : FdSet :=
  fun j => if j = i then false else fds j

/-- What `select` asks of the world outside the VFS. `IsSelectReady now stream event` is
the answer of `stream->IsSelectReadReady()`, `IsSelectWriteReady()` or
`IsSelectExceptionReady()` after `now` waits on the condition variable; `WaitUntil now
timeout` is the result of the wait number `now` until the time limit computed from
`timeout` (true when the limit has passed); `remaining now timeout` is the `timeval` of the
time left after `now` waits. The clock and the condition variable are not under src/. -/
structure SelectWorld where
  IsSelectReady : Nat → FileStream → SelectReadyEvent → Bool
  WaitUntil : Nat → Option (Int × Int) → Bool
  remaining : Nat → Int × Int → Int × Int

/-- The loop of `IsSelectReadyLocked` over the descriptors `i`, with the count `nset` and
the set so far. -/
def isSelectReadyLoop (w : SelectWorld) (now : Nat) (tbl : FdToFileStreamMap)
    (event : SelectReadyEvent) (apply : Bool) : List Nat → Int → FdSet → Int × FdSet
  | [], nset, fds => (nset, fds)
  | i :: rest, nset, fds =>
    if fds i = false then isSelectReadyLoop w now tbl event apply rest nset fds
    else
      match tbl.GetStream i with
      | none => isSelectReadyLoop w now tbl event apply rest nset fds
      | some stream =>
        if w.IsSelectReady now stream event = true then
          if apply = false then (1, fds)
          else isSelectReadyLoop w now tbl event apply rest (nset + 1) fds
        else
          isSelectReadyLoop w now tbl event apply rest nset
            (if apply = true then FD_CLR i fds else fds)

/-- The method `VirtualFileSystem::IsSelectReadyLocked`: the return value and the set after
the call; `fds = none` is the null pointer. -/
def IsSelectReadyLocked (w : SelectWorld) (now : Nat) (tbl : FdToFileStreamMap) (nfds : Int)
    (fds : Option FdSet) (event : SelectReadyEvent) (apply : Bool) : Int × Option FdSet :=
  match fds with
  | none => (0, none)
  | some set =>
    let r := isSelectReadyLoop w now tbl event apply (List.range nfds.toNat) 0 set
    (r.1, some r.2)

/-- What a call of `select` leaves: the return value, the three sets, the timeout, `errno`,
the number of waits on the condition variable, and the calls of `IsSelectReadyLocked` in
order, each with its event and its argument `apply`. -/
structure SelectResult where
  ret : Int
  readfds : Option FdSet
  writefds : Option FdSet
  exceptfds : Option FdSet
  timeout : Option (Int × Int)
  errno : Nat
  waits : Nat
  passes : List (SelectReadyEvent × Bool)

/-- The waiting loop of `select`: the number of waits made and the readiness passes, when
the loop ends; the loop runs as long as nothing is ready and `WaitUntil` returns false. -/
def selectWait (w : SelectWorld) (tbl : FdToFileStreamMap) (nfds : Int)
    (readfds writefds exceptfds : Option FdSet) (timeout : Option (Int × Int)) :
    Nat → Nat → List (SelectReadyEvent × Bool) → Result (Nat × List (SelectReadyEvent × Bool))
  | 0, _, _ => .diverges
  | fuel + 1, now, passes =>
    if (IsSelectReadyLocked w now tbl nfds readfds .SELECT_READY_READ false).1 ≠ 0 then
      .ok (now, passes ++ [(.SELECT_READY_READ, false)])
    else if (IsSelectReadyLocked w now tbl nfds writefds .SELECT_READY_WRITE false).1 ≠ 0 then
      .ok (now, passes ++ [(.SELECT_READY_READ, false), (.SELECT_READY_WRITE, false)])
    else if (IsSelectReadyLocked w now tbl nfds exceptfds .SELECT_READY_EXCEPTION false).1
        ≠ 0 then
      .ok (now, passes ++ [(.SELECT_READY_READ, false), (.SELECT_READY_WRITE, false),
        (.SELECT_READY_EXCEPTION, false)])
    else if w.WaitUntil now timeout = true then
      .ok (now + 1, passes ++ [(.SELECT_READY_READ, false), (.SELECT_READY_WRITE, false),
        (.SELECT_READY_EXCEPTION, false)])
    else
      selectWait w tbl nfds readfds writefds exceptfds timeout fuel (now + 1)
        (passes ++ [(.SELECT_READY_READ, false), (.SELECT_READY_WRITE, false),
          (.SELECT_READY_EXCEPTION, false)])

/-- The end of `select`: the three passes that write the result back. -/
def selectFinish (w : SelectWorld) (s : VirtualFileSystem) (nfds : Int)
    (readfds writefds exceptfds : Option FdSet) (timeout : Option (Int × Int))
    (now : Nat) (passes : List (SelectReadyEvent × Bool)) : SelectResult :=
  let nread := IsSelectReadyLocked w now s.fd_to_stream_ nfds readfds .SELECT_READY_READ true
  let nwrite :=
    IsSelectReadyLocked w now s.fd_to_stream_ nfds writefds .SELECT_READY_WRITE true
  let nexcpt :=
    IsSelectReadyLocked w now s.fd_to_stream_ nfds exceptfds .SELECT_READY_EXCEPTION true
  let passes1 := passes ++ [(.SELECT_READY_READ, true), (.SELECT_READY_WRITE, true),
    (.SELECT_READY_EXCEPTION, true)]
  if nread.1 < 0 ∨ nwrite.1 < 0 ∨ nexcpt.1 < 0 then
    ⟨-1, nread.2, nwrite.2, nexcpt.2, timeout, EBADF, now, passes1⟩
  else
    ⟨nread.1 + nwrite.1 + nexcpt.1, nread.2, nwrite.2, nexcpt.2, timeout, s.errno, now,
      passes1⟩

/-- The method `VirtualFileSystem::select`; `timeout = none` is the null pointer, and a
`timeval` is the pair of `tv_sec` and `tv_usec`. -/
def select (w : SelectWorld) (fuel : Nat) (s : VirtualFileSystem) (nfds : Int)
    (readfds writefds exceptfds : Option FdSet) (timeout : Option (Int × Int)) :
    Result SelectResult :=
  let is_polling := decide (timeout = some (0, 0))
  if is_polling = false then
    (selectWait w s.fd_to_stream_ nfds readfds writefds exceptfds timeout fuel 0 []).bind
      fun r =>
        .ok (selectFinish w s nfds readfds writefds exceptfds
          (timeout.map (w.remaining r.1)) r.1 r.2)
  else .ok (selectFinish w s nfds readfds writefds exceptfds timeout 0 [])

/-- The number of descriptors below `nfds` that are set in the set (0 for a null pointer). -/
def countSet (nfds : Int) (fds : Option FdSet) : Int :=
  match fds with
  | none => 0
  | some set => ((List.range nfds.toNat).filter set).length

/-- The statement of C27 as the spec words it, for the read set of a call with the write
and except sets null: the descriptors still set are set on entry and their stream reports
readiness, and the value returned is the number of descriptors still set. -/
def SelectReadConsistent (w : SelectWorld) (s : VirtualFileSystem) (nfds : Int)
    (readfds : FdSet) (r : SelectResult) : Prop :=
  0 ≤ r.ret ∧ r.ret = countSet nfds r.readfds ∧
  ∀ i : Nat, (i : Int) < nfds →
    ((∃ set, r.readfds = some set ∧ set i = true) ↔
      (readfds i = true ∧ ∃ stream, s.fd_to_stream_.GetStream i = some stream ∧
        w.IsSelectReady r.waits stream .SELECT_READY_READ = true))

/-- A world in which every stream is ready for every event and no wait ends early. -/
def readyWorld : SelectWorld where
  IsSelectReady := fun _ _ _ => true
  WaitUntil := fun _ _ => false
  remaining := fun _ t => t


/-! ## `mmap` -/

def ENODEV : Nat := 19
def MAP_FIXED : Nat := 0x10
def MAP_ANONYMOUS : Nat := 0x20
def MAP_ANON : Nat := MAP_ANONYMOUS

/-- The stream a mapping is made of: the `PassthroughStream` that `mmap` creates for an
anonymous mapping, or the stream bound to the descriptor. -/
inductive MappedStream where
  | passthrough
  | stream (s : FileStream)
  deriving Repr, DecidableEq

/-- Modelled from the spec: an entry of the memory-region map, "address → (length, stream
reference, ...)" (section 3); memory_region.h is not under src/. -/
structure MappedRegion where
  addr : Nat
  length : Nat
  stream : MappedStream
  deriving Repr, DecidableEq

/-- Modelled from the spec: the memory-region map of the class `MemoryRegion`. -/
abbrev MemoryRegion := List MappedRegion

/-- A call of `FileStream::mmap`: the stream and the arguments `addr`, `length`, `prot`,
`flags` and `offset`. -/
structure StreamMmapCall where
  stream : MappedStream
  addr : Nat
  length : Nat
  prot : Nat
  flags : Nat
  offset : Int
  deriving Repr, DecidableEq

/-- What `mmap` asks of the code that is not under src/: the page size of
`util::GetPageSize`, the width of `size_t` and `uintptr_t`, the method `mmap` of a stream
(the new address, or `MAP_FAILED` with an `errno`), and the two methods of `MemoryRegion`
that `mmap` calls. -/
structure MmapWorld where
  GetPageSize : Nat
  pointer_bits : Nat
  stream_mmap : MappedStream → Nat → Nat → Nat → Nat → Int → Except Nat Nat
  RemoveFileStreamsByAddr : MemoryRegion → Nat → Nat → Bool → MemoryRegion
  AddFileStreamByAddr :
    MemoryRegion → Nat → Nat → Int → Nat → Nat → MappedStream → Bool × MemoryRegion

/-- The function `util::IsPageAligned` (path_util.h is not under src/; modelled from its
name): the address is a multiple of the page size. -/
def IsPageAligned (w : MmapWorld) (addr : Nat) : Bool :=
  addr % w.GetPageSize == 0

/-- The function `util::RoundToPageSize` (modelled from its name): the length rounded up to
a multiple of the page size, in `size_t` arithmetic. -/
def RoundToPageSize (w : MmapWorld) (length : Nat) : Nat :=
  (length + w.GetPageSize - 1) % 2 ^ w.pointer_bits / w.GetPageSize * w.GetPageSize

/-- What a call of `mmap` leaves: the address returned (`none` for `MAP_FAILED`), `errno`,
the memory-region map, and the calls of `FileStream::mmap` it made. -/
structure MmapResult where
  ret : Option Nat
  errno : Nat
  memory_region_ : MemoryRegion
  stream_calls : List StreamMmapCall
  deriving Repr, DecidableEq

/-- The method `VirtualFileSystem::mmap` (release build: the `ALOG_ASSERT`s are compiled
out); `m` is the memory-region map `memory_region_`. -/
def mmap (w : MmapWorld) (s : VirtualFileSystem) (m : MemoryRegion)
    (addr length prot flags : Nat) (fd : Int) (offset : Int) : MmapResult :=
  if length = 0 then ⟨none, EINVAL, m, []⟩
  else if IsPageAligned w addr = false ∧ (flags &&& MAP_FIXED) ≠ 0 then ⟨none, EINVAL, m, []⟩
  else
    let addr1 :=
      if IsPageAligned w addr = false then
        addr &&& ((2 ^ w.pointer_bits - 1) ^^^ (w.GetPageSize - 1))
      else addr
    let offset_size_t := (offset % 2 ^ w.pointer_bits).toNat
    if RoundToPageSize w offset_size_t ≠ offset_size_t then ⟨none, EINVAL, m, []⟩
    else
      let stream : Option MappedStream :=
        if (flags &&& (MAP_ANON ||| MAP_ANONYMOUS)) ≠ 0 then some .passthrough
        else (s.fd_to_stream_.GetStream fd).map .stream
      match stream with
      | none => ⟨none, EBADF, m, []⟩
      | some st =>
        let length1 := RoundToPageSize w length
        let call : StreamMmapCall := ⟨st, addr1, length1, prot, flags, offset⟩
        match w.stream_mmap st addr1 length1 prot flags offset with
        | .error e => ⟨none, e, m, [call]⟩
        | .ok new_addr =>
          let m1 :=
            if (flags &&& MAP_FIXED) ≠ 0 then w.RemoveFileStreamsByAddr m addr1 length1 false
            else m
          let r := w.AddFileStreamByAddr m1 new_addr length1 offset prot flags st
          if r.1 = false then ⟨none, ENODEV, r.2, [call]⟩
          else ⟨some new_addr, s.errno, r.2, [call]⟩

/-- A world with pages of 4096 bytes and pointers of 32 bits, in which a stream maps at the
address it is asked for and the memory-region map records every mapping. -/
def pageWorld : MmapWorld where
  GetPageSize := 4096
  pointer_bits := 32
  stream_mmap := fun _ addr _ _ _ _ => .ok addr
  RemoveFileStreamsByAddr := fun m _ _ _ => m
  AddFileStreamByAddr := fun m addr length _ _ _ st => (true, ⟨addr, length, st⟩ :: m)


/-- Every registered link is listed under its directory: the half of the consistency of the
two tables that the handler keeps. -/
def RegisteredLinksListed (h : RedirectHandler) : Prop :=
  ∀ kv ∈ h.symlinks_, GetBaseName kv.1 ∈ h.OnDirectoryContentsNeeded (GetDirName kv.1)


/-! # Theorems -/

/-! ## Lemmas: strings -/

theorem Result.ok_bind {α β : Type} (a : α) (f : α → Result β) :
    (Result.ok a).bind f = f a := rfl

theorem go_ne_nil (sep : Char) (s : Str) : SplitString.go sep s ≠ [] := by
  induction s with
  | nil => simp [SplitString.go]
  | cons c cs ih =>
    unfold SplitString.go
    split
    · simp
    · split <;> simp

theorem go_no_sep (sep : Char) (s : Str) : ∀ c ∈ SplitString.go sep s, sep ∉ c := by
  induction s with
  | nil => simp [SplitString.go]
  | cons x xs ih =>
    unfold SplitString.go
    split
    · intro c hc
      rcases List.mem_cons.1 hc with h | h
      · subst h; simp
      · exact ih c h
    · rename_i hx
      split
      · intro c hc
        simp at hc
        rename_i heq
        exact absurd heq (go_ne_nil sep xs)
      · rename_i h t heq
        intro c hc
        rcases List.mem_cons.1 hc with h1 | h1
        · subst h1
          have := ih h (by rw [heq]; simp)
          simp only [List.mem_cons, not_or]
          exact ⟨fun e => hx e.symm, this⟩
        · exact ih c (by rw [heq]; simp [h1])

theorem go_of_no_sep (sep : Char) (a : Str) (h : sep ∉ a) : SplitString.go sep a = [a] := by
  induction a with
  | nil => rfl
  | cons x xs ih =>
    simp only [List.mem_cons, not_or] at h
    unfold SplitString.go
    rw [if_neg (fun e => h.1 e.symm), ih h.2]

theorem go_append_sep (sep : Char) (a b : Str) :
    SplitString.go sep (a ++ sep :: b) = SplitString.go sep a ++ SplitString.go sep b := by
  induction a with
  | nil => simp [SplitString.go]
  | cons x xs ih =>
    by_cases hx : x = sep
    · simp [SplitString.go, hx, ih]
    · have h1 : SplitString.go sep (x :: xs ++ sep :: b) =
          match SplitString.go sep (xs ++ sep :: b) with
          | [] => [[x]]
          | h :: t => (x :: h) :: t := by
        simp [SplitString.go, hx]
      have h2 : SplitString.go sep (x :: xs) =
          match SplitString.go sep xs with
          | [] => [[x]]
          | h :: t => (x :: h) :: t := by
        simp [SplitString.go, hx]
      rw [h1, h2, ih]
      cases hg : SplitString.go sep xs with
      | nil => exact absurd hg (go_ne_nil sep xs)
      | cons h t => simp

theorem joinAbs_nil : joinAbs [] = [] := rfl

theorem joinAbs_cons (c : Str) (cs : List Str) : joinAbs (c :: cs) = '/' :: c ++ joinAbs cs := by
  simp [joinAbs]

theorem joinAbs_append (as bs : List Str) : joinAbs (as ++ bs) = joinAbs as ++ joinAbs bs := by
  simp [joinAbs]

theorem joinAbs_eq_nil (cs : List Str) : joinAbs cs = [] ↔ cs = [] := by
  cases cs with
  | nil => simp [joinAbs]
  | cons c cs => simp [joinAbs_cons]

theorem go_comp_joinAbs (c : Str) (cs : List Str) (hc : '/' ∉ c) (h : ∀ d ∈ cs, '/' ∉ d) :
    SplitString.go '/' (c ++ joinAbs cs) = c :: cs := by
  induction cs generalizing c with
  | nil => simpa [joinAbs] using go_of_no_sep '/' c hc
  | cons d ds ih =>
    rw [joinAbs_cons, List.cons_append, go_append_sep, go_of_no_sep '/' c hc,
      ih d (h d (by simp)) (fun e he => h e (by simp [he]))]
    rfl

theorem go_joinAbs (cs : List Str) (h : ∀ d ∈ cs, '/' ∉ d) :
    SplitString.go '/' (joinAbs cs) = [] :: cs := by
  have := go_comp_joinAbs [] cs (by simp) h
  simpa using this

theorem joinAbs_go (s : Str) : joinAbs (SplitString.go '/' s) = '/' :: s := by
  induction s with
  | nil => rfl
  | cons x xs ih =>
    by_cases hx : x = '/'
    · subst hx
      simp [SplitString.go, joinAbs_cons, ih]
    · have h2 : SplitString.go '/' (x :: xs) =
          match SplitString.go '/' xs with
          | [] => [[x]]
          | h :: t => (x :: h) :: t := by
        simp [SplitString.go, hx]
      rw [h2]
      cases hg : SplitString.go '/' xs with
      | nil => exact absurd hg (go_ne_nil '/' xs)
      | cons h t =>
        rw [hg] at ih
        simp only [joinAbs_cons] at ih ⊢
        simp at ih ⊢
        exact ih

theorem rfind_append_sep (c : Char) (a b : Str) (h : c ∉ b) :
    rfind c (a ++ c :: b) = some a.length := by
  have hb : rfind c b = none := by
    induction b with
    | nil => rfl
    | cons x xs ih =>
      simp only [List.mem_cons, not_or] at h
      have hx : ¬ x = c := fun e => h.1 e.symm
      simp [rfind, ih h.2, hx]
  induction a with
  | nil => simp [rfind, hb]
  | cons x xs ih => simp [rfind, ih]

/-! ## Lemmas: symlink resolution and the normalization loop -/

theorem ResolveSymlinks_of_none (env : Env) (fuel : Nat) (p : Str)
    (h : linkTarget env p = none) : ResolveSymlinks env (fuel + 1) p = .ok p := by
  unfold linkTarget at h
  unfold ResolveSymlinks
  cases hh : env.GetFileSystemHandler p with
  | none => rfl
  | some hu =>
    obtain ⟨handler, u⟩ := hu
    rw [hh] at h
    simp only at h
    simp [h]

theorem ResolveSymlinks_of_some (env : Env) (fuel : Nat) (p t : Str)
    (h : linkTarget env p = some t) :
    ResolveSymlinks env (fuel + 1) p = ResolveSymlinks env fuel t := by
  unfold linkTarget at h
  conv_lhs => unfold ResolveSymlinks
  cases hh : env.GetFileSystemHandler p with
  | none => rw [hh] at h; simp at h
  | some hu =>
    obtain ⟨handler, u⟩ := hu
    rw [hh] at h
    simp only at h
    simp [h]

theorem loop_plain (env : Env) (opt : NormalizeOption) (fuel : Nat) (hf : 0 < fuel)
    (cs more : List Str) (acc : Str)
    (hcs : ∀ c ∈ cs, c ≠ [] ∧ c ≠ ['.', '.'])
    (hl : ∀ k, k < cs.length → linkTarget env (acc ++ joinAbs (cs.take (k + 1))) = none) :
    normalizeLoop env opt fuel (cs ++ more) acc =
      normalizeLoop env opt fuel more (acc ++ joinAbs cs) := by
  obtain ⟨f, rfl⟩ : ∃ f, fuel = f + 1 := ⟨fuel - 1, by omega⟩
  induction cs generalizing acc with
  | nil => simp [joinAbs]
  | cons c cs ih =>
    have hc := hcs c (by simp)
    have h0 : linkTarget env (acc ++ '/' :: c) = none := by
      have := hl 0 (by simp)
      simpa [joinAbs] using this
    have hstep : normalizeLoop env opt (f + 1) (c :: cs ++ more) acc =
        normalizeLoop env opt (f + 1) (cs ++ more) (acc ++ '/' :: c) := by
      conv_lhs => rw [List.cons_append]; unfold normalizeLoop
      rw [if_neg hc.1, if_neg hc.2]
      simp only [ResolveSymlinks_of_none env f _ h0, Result.ok_bind, ite_self]
    rw [hstep, ih (acc ++ '/' :: c) (fun d hd => hcs d (by simp [hd]))]
    · simp [joinAbs_cons]
    · intro k hk
      have := hl (k + 1) (by simpa using hk)
      simpa [joinAbs_cons] using this

theorem joinAbs_concat (st : List Str) (c : Str) :
    joinAbs (st ++ [c]) = joinAbs st ++ '/' :: c := by
  simp [joinAbs_append, joinAbs_cons, joinAbs_nil]

theorem loop_pop (env : Env) (opt : NormalizeOption) (fuel : Nat) (rest st : List Str)
    (hst : ∀ c ∈ st, '/' ∉ c) :
    normalizeLoop env opt fuel (['.', '.'] :: rest) (joinAbs st) =
      normalizeLoop env opt fuel rest (joinAbs st.dropLast) := by
  conv_lhs => unfold normalizeLoop
  rw [if_neg (by simp), if_pos rfl]
  by_cases hnil : st = []
  · subst hnil
    simp [joinAbs]
  · have hne : joinAbs st ≠ [] := fun h => hnil ((joinAbs_eq_nil st).1 h)
    rw [if_pos hne]
    have hdec := List.dropLast_append_getLast hnil
    have hj : joinAbs st = joinAbs st.dropLast ++ '/' :: st.getLast hnil := by
      conv_lhs => rw [← hdec]
      exact joinAbs_concat _ _
    have hr : rfind '/' (joinAbs st) = some (joinAbs st.dropLast).length := by
      rw [hj]
      exact rfind_append_sep '/' _ _ (hst _ (List.getLast_mem hnil))
    rw [hr]
    simp only
    congr 1
    rw [hj]
    simp

theorem loop_nolinks (env : Env) (opt : NormalizeOption) (fuel : Nat) (hf : 0 < fuel)
    (hno : ∀ p, linkTarget env p = none) (ds : List Str)
    (hds : ∀ d ∈ ds, '/' ∉ d ∧ d ≠ ['.']) (st : List Str)
    (hst : ∀ c ∈ st, PlainComponent c) :
    ∃ st1, (∀ c ∈ st1, PlainComponent c) ∧
      normalizeLoop env opt fuel ds (joinAbs st) = .ok (joinAbs st1) := by
  obtain ⟨f, rfl⟩ : ∃ f, fuel = f + 1 := ⟨fuel - 1, by omega⟩
  induction ds generalizing st with
  | nil => exact ⟨st, hst, by simp [normalizeLoop]⟩
  | cons d ds ih =>
    have hd := hds d (by simp)
    have hds1 : ∀ e ∈ ds, '/' ∉ e ∧ e ≠ ['.'] := fun e he => hds e (by simp [he])
    by_cases h1 : d = []
    · subst h1
      obtain ⟨st1, h2, h3⟩ := ih hds1 st hst
      refine ⟨st1, h2, ?_⟩
      conv_lhs => unfold normalizeLoop
      simpa using h3
    · by_cases h2 : d = ['.', '.']
      · subst h2
        rw [loop_pop env opt (f + 1) ds st (fun c hc => (hst c hc).2.2.2)]
        exact ih hds1 st.dropLast (fun c hc => hst c (List.dropLast_subset st hc))
      · have hpl : PlainComponent d := ⟨h1, hd.2, h2, hd.1⟩
        obtain ⟨st1, h3, h4⟩ := ih hds1 (st ++ [d]) (by
          intro c hc
          rcases List.mem_append.1 hc with h | h
          · exact hst c h
          · simp at h; subst h; exact hpl)
        refine ⟨st1, h3, ?_⟩
        conv_lhs => unfold normalizeLoop
        rw [if_neg h1, if_neg h2]
        simp only [ResolveSymlinks_of_none env f _ (hno _), Result.ok_bind, ite_self]
        rw [← joinAbs_concat]
        exact h4

/-! ## Lemmas: normalized paths and the `path_util` functions -/

theorem NoDotComponent_append_sep (a b : Str) (ha : NoDotComponent a) (hb : NoDotComponent b) :
    NoDotComponent (a ++ '/' :: b) := by
  intro d hd
  rw [go_append_sep] at hd
  rcases List.mem_append.1 hd with h | h
  · exact ha d h
  · exact hb d h

theorem NoDotComponent_of_append_sep (a b : Str) (h : NoDotComponent (a ++ '/' :: b)) :
    NoDotComponent a := by
  intro d hd
  exact h d (by rw [go_append_sep]; exact List.mem_append_left _ hd)

theorem NoDotComponent_nil : NoDotComponent [] := by
  intro d hd
  simp [SplitString.go] at hd
  subst hd
  simp

theorem isNormalizedPath_joinAbs (cs : List Str) (hne : cs ≠ [])
    (h : ∀ c ∈ cs, PlainComponent c) : IsNormalizedPath (joinAbs cs) := by
  right
  constructor
  · cases cs with
    | nil => exact absurd rfl hne
    | cons c cs => simp [joinAbs_cons]
  · rw [go_joinAbs cs (fun d hd => (h d hd).2.2.2)]
    intro c hc
    have := h c (by simpa using hc)
    exact ⟨this.1, this.2.1, this.2.2.1⟩

theorem isNormalizedPath_cases (p : Str) (h : IsNormalizedPath p) :
    p = ['/'] ∨ ∃ cs, cs ≠ [] ∧ (∀ c ∈ cs, PlainComponent c) ∧ p = joinAbs cs := by
  rcases h with h | ⟨hh, hc⟩
  · exact Or.inl h
  · right
    cases p with
    | nil => simp at hh
    | cons x xs =>
      simp at hh
      subst hh
      have hgo : SplitString.go '/' ('/' :: xs) = [] :: SplitString.go '/' xs := by
        simp [SplitString.go]
      rw [hgo] at hc
      refine ⟨SplitString.go '/' xs, go_ne_nil _ _, ?_, (joinAbs_go xs).symm⟩
      intro c hcm
      have h1 := hc c (by simpa using hcm)
      exact ⟨h1.1, h1.2.1, h1.2.2, go_no_sep '/' xs c hcm⟩

theorem NoDotComponent_of_normalized (q : Str) (h : IsNormalizedPath q) : NoDotComponent q := by
  rcases isNormalizedPath_cases q h with h | ⟨cs, _, hcs, rfl⟩
  · subst h
    intro d hd
    simp [SplitString.go] at hd
    subst hd
    simp
  · intro d hd
    rw [go_joinAbs cs (fun d hd => (hcs d hd).2.2.2)] at hd
    rcases List.mem_cons.1 hd with h | h
    · subst h; simp
    · exact (hcs d h).2.1

theorem RemoveTrailingSlashes_ne_nil (s : Str) (h : s ≠ []) : RemoveTrailingSlashes s ≠ [] := by
  unfold RemoveTrailingSlashes
  simp only
  split
  · simp
  · rename_i hn
    intro he
    exact hn ⟨he, h⟩

theorem NoDotComponent_rdropWhile (s : Str) (h : NoDotComponent s) :
    NoDotComponent (s.rdropWhile (fun c => c == '/')) := by
  induction s using List.reverseRecOn with
  | nil => simpa using h
  | append_singleton l a ih =>
    by_cases ha : a = '/'
    · subst ha
      rw [List.rdropWhile_concat_pos _ _ _ (by simp)]
      exact ih (NoDotComponent_of_append_sep l [] h)
    · rw [List.rdropWhile_concat_neg _ _ _ (by simpa using ha)]
      exact h

theorem NoDotComponent_RemoveTrailingSlashes (s : Str) (h : NoDotComponent s) :
    NoDotComponent (RemoveTrailingSlashes s) := by
  unfold RemoveTrailingSlashes
  simp only
  split
  · intro d hd
    simp [SplitString.go] at hd
    subst hd
    simp
  · exact NoDotComponent_rdropWhile s h

theorem joinAbs_getLast_ne_slash (cs : List Str) (hne : cs ≠ [])
    (h : ∀ c ∈ cs, c ≠ [] ∧ '/' ∉ c) : ∃ x, (joinAbs cs).getLast? = some x ∧ x ≠ '/' := by
  have hdec := List.dropLast_append_getLast hne
  have hc := h _ (List.getLast_mem hne)
  refine ⟨(cs.getLast hne).getLast hc.1, ?_, ?_⟩
  · conv_lhs => rw [← hdec, joinAbs_concat]
    have hs : joinAbs cs.dropLast ++ '/' :: cs.getLast hne =
        (joinAbs cs.dropLast ++ ['/']) ++ cs.getLast hne := by simp
    rw [hs, List.getLast?_append_of_ne_nil _ hc.1]
    exact List.getLast?_eq_getLast _ hc.1
  · intro he
    exact hc.2 (he ▸ List.getLast_mem hc.1)

theorem rdropWhile_of_getLast (s : Str) (x : Char) (h : s.getLast? = some x) (hx : x ≠ '/') :
    s.rdropWhile (fun c => c == '/') = s := by
  rw [List.rdropWhile_eq_self_iff]
  intro hl
  rw [List.getLast?_eq_getLast _ hl] at h
  simp only [Option.some.injEq] at h
  rw [h]
  simpa using hx

theorem RemoveTrailingSlashes_joinAbs (cs : List Str) (hne : cs ≠ [])
    (h : ∀ c ∈ cs, c ≠ [] ∧ '/' ∉ c) : RemoveTrailingSlashes (joinAbs cs) = joinAbs cs := by
  obtain ⟨x, hx, hx2⟩ := joinAbs_getLast_ne_slash cs hne h
  unfold RemoveTrailingSlashes
  simp only
  rw [rdropWhile_of_getLast _ x hx hx2]
  have : joinAbs cs ≠ [] := fun e => hne ((joinAbs_eq_nil cs).1 e)
  simp [this]

theorem RemoveTrailingSlashes_joinAbs_slash (cs : List Str) (hne : cs ≠ [])
    (h : ∀ c ∈ cs, c ≠ [] ∧ '/' ∉ c) :
    RemoveTrailingSlashes (joinAbs cs ++ ['/']) = joinAbs cs := by
  obtain ⟨x, hx, hx2⟩ := joinAbs_getLast_ne_slash cs hne h
  unfold RemoveTrailingSlashes
  simp only
  rw [List.rdropWhile_concat_pos _ _ _ (by simp), rdropWhile_of_getLast _ x hx hx2]
  have : joinAbs cs ≠ [] := fun e => hne ((joinAbs_eq_nil cs).1 e)
  simp [this]

theorem RemoveSingleDots_joinAbs (cs : List Str) (hne : cs ≠ [])
    (h : ∀ c ∈ cs, c ≠ [] ∧ c ≠ ['.'] ∧ '/' ∉ c) :
    RemoveSingleDotsAndRedundantSlashes (joinAbs cs) = joinAbs cs := by
  have hj : joinAbs cs ≠ [] := fun e => hne ((joinAbs_eq_nil cs).1 e)
  have hhead : (joinAbs cs).head? = some '/' := by
    cases cs with
    | nil => exact absurd rfl hne
    | cons c cs => simp [joinAbs_cons]
  have hf : ((SplitString.go '/' (joinAbs cs)).filter
      (fun c => decide (c ≠ [] ∧ c ≠ ['.']))) = cs := by
    rw [go_joinAbs cs (fun d hd => (h d hd).2.2)]
    rw [List.filter_cons_of_neg (by simp)]
    rw [List.filter_eq_self]
    intro c hc
    have := h c hc
    simp [this.1, this.2.1]
  unfold RemoveSingleDotsAndRedundantSlashes
  simp only [hf]
  rw [if_neg hj, if_pos hhead, if_neg hne]

theorem RemoveSingleDots_cases (s : Str) (hs : s ≠ []) :
    RemoveSingleDotsAndRedundantSlashes s = ['.'] ∨
      (RemoveSingleDotsAndRedundantSlashes s ≠ [] ∧
        NoDotComponent (RemoveSingleDotsAndRedundantSlashes s)) := by
  have hprop : ∀ c ∈ (SplitString.go '/' s).filter (fun c => decide (c ≠ [] ∧ c ≠ ['.'])),
      c ≠ [] ∧ c ≠ ['.'] ∧ '/' ∉ c := by
    intro c hc
    rw [List.mem_filter] at hc
    have h2 := hc.2
    simp only [decide_eq_true_eq] at h2
    exact ⟨h2.1, h2.2, go_no_sep '/' s c hc.1⟩
  unfold RemoveSingleDotsAndRedundantSlashes
  simp only
  rw [if_neg hs]
  generalize (SplitString.go '/' s).filter (fun c => decide (c ≠ [] ∧ c ≠ ['.'])) = comps
    at hprop
  split
  · split
    · right
      refine ⟨by simp, ?_⟩
      intro d hd
      simp [SplitString.go] at hd
      subst hd; simp
    · rename_i hne
      right
      refine ⟨fun e => hne ((joinAbs_eq_nil comps).1 e), ?_⟩
      intro d hd
      rw [go_joinAbs comps (fun d hd => (hprop d hd).2.2)] at hd
      rcases List.mem_cons.1 hd with h | h
      · subst h; simp
      · exact (hprop d h).2.1
  · split
    · exact Or.inl rfl
    · rename_i hne
      right
      cases comps with
      | nil => exact absurd rfl hne
      | cons c cs =>
        have hc := hprop c (by simp)
        have htail : (joinAbs (c :: cs)).tail = c ++ joinAbs cs := by simp [joinAbs_cons]
        rw [htail]
        refine ⟨by simp [hc.1], ?_⟩
        intro d hd
        rw [go_comp_joinAbs c cs hc.2.2 (fun e he => (hprop e (by simp [he])).2.2)] at hd
        exact (hprop d hd).2.1

theorem EndsWith_joinAbs (cs : List Str) (hne : cs ≠ [])
    (h : ∀ c ∈ cs, c ≠ ['.'] ∧ '/' ∉ c) : EndsWith (joinAbs cs) ['/', '.'] = false := by
  unfold EndsWith
  rw [decide_eq_false_iff_not]
  intro hsuf
  have hdec := List.dropLast_append_getLast hne
  have hc := h _ (List.getLast_mem hne)
  rw [← hdec, joinAbs_concat] at hsuf
  obtain ⟨t, ht⟩ := hsuf
  have hrev := congrArg List.reverse ht
  simp only [List.reverse_append, List.reverse_cons, List.reverse_nil, List.nil_append,
    List.append_assoc, List.singleton_append, List.cons_append] at hrev
  generalize hg : cs.getLast hne = c at hrev hc
  have hc2 : '/' ∉ c.reverse := by simpa using hc.2
  cases hcr : c.reverse with
  | nil =>
    rw [hcr] at hrev
    simp at hrev
  | cons x xs =>
    rw [hcr] at hrev hc2
    cases xs with
    | nil =>
      simp at hrev
      have : c = ['.'] := by
        have h2 := congrArg List.reverse hcr
        simp at h2
        rw [h2, ← hrev.1]
      exact hc.1 this
    | cons y ys =>
      simp at hrev
      simp at hc2
      exact hc2.2.1 hrev.2.1

theorem normalize_joinAbs (env : Env) (cwd : Str) (fuel : Nat) (path : Str)
    (option : NormalizeOption) (ds : List Str) (hne : ds ≠ [])
    (h : ∀ c ∈ ds, c ≠ [] ∧ c ≠ ['.'] ∧ '/' ∉ c)
    (hp : RemoveTrailingSlashes path = joinAbs ds) :
    GetNormalizedPathLocked env cwd fuel path option =
      (normalizeLoop env option fuel ds []).bind
        (fun r => .ok (if r = [] then ['/'] else r)) := by
  have hj : joinAbs ds ≠ [] := fun e => hne ((joinAbs_eq_nil ds).1 e)
  have hhead : (joinAbs ds).head? = some '/' := by
    cases ds with
    | nil => exact absurd rfl hne
    | cons c cs => simp [joinAbs_cons]
  have hdot : joinAbs ds ≠ ['.'] := by
    intro e
    rw [e] at hhead
    simp at hhead
  unfold GetNormalizedPathLocked
  simp only [hp, EndsWith_joinAbs ds hne (fun c hc => ⟨(h c hc).2.1, (h c hc).2.2⟩),
    RemoveSingleDots_joinAbs ds hne h]
  rw [if_neg hj, if_neg hdot]
  simp only [hhead, ne_eq, not_true_eq_false, if_false, and_false]
  unfold SplitString
  rw [if_neg hj, go_joinAbs ds (fun d hd => (h d hd).2.2)]
  conv_lhs => unfold normalizeLoop
  simp

theorem normalize_nolinks (env : Env) (cwd path : Str) (option : NormalizeOption) (fuel : Nat)
    (hpath : path ≠ []) (hcwd : IsWorkingDirectory cwd)
    (hno : ∀ p, linkTarget env p = none) (hfuel : 0 < fuel) :
    ∃ r, GetNormalizedPathLocked env cwd fuel path option = .ok r ∧ IsNormalizedPath r := by
  have hcwd1 : ∃ q, NoDotComponent q ∧ cwd = q ++ ['/'] := by
    rcases hcwd with h | ⟨q, hq, h⟩
    · exact ⟨[], NoDotComponent_nil, by simp [h]⟩
    · exact ⟨q, NoDotComponent_of_normalized q hq, h⟩
  obtain ⟨q, hq, rfl⟩ := hcwd1
  have hp1 := RemoveTrailingSlashes_ne_nil path hpath
  have key : ∀ (o : NormalizeOption) (p3 : Str), p3 ≠ [] → NoDotComponent p3 →
      ∃ r, (normalizeLoop env o fuel (SplitString p3 '/') []).bind
        (fun r => Result.ok (if r = [] then ['/'] else r)) = .ok r ∧ IsNormalizedPath r := by
    intro o p3 h3 hnd
    unfold SplitString
    rw [if_neg h3]
    obtain ⟨st1, hst, hloop⟩ := loop_nolinks env o fuel hfuel hno (SplitString.go '/' p3)
      (fun d hd => ⟨go_no_sep '/' p3 d hd, hnd d hd⟩) [] (by simp)
    rw [joinAbs_nil] at hloop
    rw [hloop, Result.ok_bind]
    refine ⟨_, rfl, ?_⟩
    by_cases hn : st1 = []
    · subst hn
      simp [joinAbs, IsNormalizedPath]
    · rw [if_neg (fun e => hn ((joinAbs_eq_nil st1).1 e))]
      exact isNormalizedPath_joinAbs st1 hn hst
  unfold GetNormalizedPathLocked
  simp only
  generalize (if option = NormalizeOption.kResolveParentSymlinks ∧
    EndsWith (RemoveTrailingSlashes path) ['/', '.'] = true
    then NormalizeOption.kResolveSymlinks else option) = o
  have hcw : NoDotComponent (RemoveTrailingSlashes (q ++ ['/'])) :=
    NoDotComponent_RemoveTrailingSlashes _
      (NoDotComponent_append_sep q [] hq NoDotComponent_nil)
  have hcwne : RemoveTrailingSlashes (q ++ ['/']) ≠ [] :=
    RemoveTrailingSlashes_ne_nil _ (by simp)
  rcases RemoveSingleDots_cases _ hp1 with h2 | ⟨h2, h2n⟩
  · rw [h2]
    simp only [List.cons_ne_nil, if_false, if_true]
    exact key o _ hcwne hcw
  · rw [if_neg h2]
    by_cases hd : RemoveSingleDotsAndRedundantSlashes (RemoveTrailingSlashes path) = ['.']
    · rw [if_pos hd]
      exact key o _ hcwne hcw
    · rw [if_neg hd]
      by_cases hh : (RemoveSingleDotsAndRedundantSlashes (RemoveTrailingSlashes path)).head?
          ≠ some '/'
      · rw [if_pos hh]
        apply key
        · simp
        · rw [List.append_assoc, List.singleton_append]
          exact NoDotComponent_append_sep q _ hq h2n
      · rw [if_neg hh]
        exact key o _ h2 h2n

theorem normalized_shape (r : Str) (h : IsNormalizedPath r) :
    r.head? = some '/' ∧ (r = ['/'] ∨ EndsWithSlash r = false) := by
  rcases isNormalizedPath_cases r h with h | ⟨cs, hne, hcs, rfl⟩
  · subst h
    exact ⟨rfl, Or.inl rfl⟩
  · constructor
    · cases cs with
      | nil => exact absurd rfl hne
      | cons c cs => simp [joinAbs_cons]
    · right
      obtain ⟨x, hx, hx2⟩ := joinAbs_getLast_ne_slash cs hne
        (fun c hc => ⟨(hcs c hc).1, (hcs c hc).2.2.2⟩)
      unfold EndsWithSlash
      rw [hx]
      simpa using hx2

theorem normalize_dotdot (env : Env) (cwd : Str) (option : NormalizeOption) (fuel : Nat)
    (hno : ∀ p, linkTarget env p = none) (hfuel : 0 < fuel)
    (cs ds : List Str) (hcs : ∀ c ∈ cs, PlainComponent c) (hds : ∀ c ∈ ds, PlainComponent c)
    (path : Str)
    (hp : RemoveTrailingSlashes path = joinAbs (cs ++ ['.', '.'] :: ds)) :
    GetNormalizedPathLocked env cwd fuel path option =
      .ok (if cs.dropLast ++ ds = [] then ['/'] else joinAbs (cs.dropLast ++ ds)) := by
  rw [normalize_joinAbs env cwd fuel path option (cs ++ ['.', '.'] :: ds) (by simp) _ hp]
  · rw [loop_plain env option fuel hfuel cs (['.', '.'] :: ds) []
      (fun c hc => ⟨(hcs c hc).1, (hcs c hc).2.2.1⟩) (fun k _ => hno _)]
    rw [List.nil_append, loop_pop env option fuel ds cs (fun c hc => (hcs c hc).2.2.2)]
    have := loop_plain env option fuel hfuel ds [] (joinAbs cs.dropLast)
      (fun c hc => ⟨(hds c hc).1, (hds c hc).2.2.1⟩) (fun k _ => hno _)
    rw [List.append_nil] at this
    rw [this]
    simp only [normalizeLoop, Result.ok_bind, ← joinAbs_append, joinAbs_eq_nil]
  · intro c hc
    rcases List.mem_append.1 hc with h | h
    · exact ⟨(hcs c h).1, (hcs c h).2.1, (hcs c h).2.2.2⟩
    · rcases List.mem_cons.1 h with h | h
      · subst h; simp
      · exact ⟨(hds c h).1, (hds c h).2.1, (hds c h).2.2.2⟩

/-- C3. With no symlink reported by any handler, `GetNormalizedPathLocked` turns every
non-empty path, under every working directory `chdir` can store and in either mode, into a
normalized path: it starts with '/', has no `.`, `..` or empty component, and does not end
with '/' unless it is "/". A `..` component removes exactly the component accumulated
before it and does nothing at the root: the path with the plain components `cs`, then `..`,
then the plain components `ds` becomes the path of `cs` without its last component followed
by `ds`; "/.." and "/../" give "/". -/
theorem GetNormalizedPathLocked_normalizes (env : Env) (cwd path : Str)
    (option : NormalizeOption) (fuel : Nat)
    (hpath : path ≠ []) (hcwd : IsWorkingDirectory cwd)
    (hno : ∀ p, linkTarget env p = none) (hfuel : 0 < fuel) :
    (∃ r, GetNormalizedPathLocked env cwd fuel path option = .ok r ∧ IsNormalizedPath r ∧
      r.head? = some '/' ∧ (r = ['/'] ∨ EndsWithSlash r = false)) ∧
    (∀ cs ds : List Str, (∀ c ∈ cs, PlainComponent c) → (∀ c ∈ ds, PlainComponent c) →
      GetNormalizedPathLocked env cwd fuel
          (joinAbs cs ++ ['/', '.', '.'] ++ joinAbs ds) option =
        .ok (if cs.dropLast ++ ds = [] then ['/'] else joinAbs (cs.dropLast ++ ds))) ∧
    GetNormalizedPathLocked env cwd fuel ['/', '.', '.'] option = .ok ['/'] ∧
    GetNormalizedPathLocked env cwd fuel ['/', '.', '.', '/'] option = .ok ['/'] := by
  have hdd : ∀ cs ds : List Str, (∀ c ∈ cs, PlainComponent c) →
      (∀ c ∈ ds, PlainComponent c) →
      GetNormalizedPathLocked env cwd fuel
          (joinAbs cs ++ ['/', '.', '.'] ++ joinAbs ds) option =
        .ok (if cs.dropLast ++ ds = [] then ['/'] else joinAbs (cs.dropLast ++ ds)) := by
    intro cs ds hcs hds
    have hall : ∀ c ∈ cs ++ ['.', '.'] :: ds, c ≠ [] ∧ '/' ∉ c := by
      intro c hc
      rcases List.mem_append.1 hc with h | h
      · exact ⟨(hcs c h).1, (hcs c h).2.2.2⟩
      · rcases List.mem_cons.1 h with h | h
        · subst h; simp
        · exact ⟨(hds c h).1, (hds c h).2.2.2⟩
    have e1 : joinAbs cs ++ ['/', '.', '.'] ++ joinAbs ds =
        joinAbs (cs ++ ['.', '.'] :: ds) := by
      rw [joinAbs_append, joinAbs_cons]
      simp
    apply normalize_dotdot env cwd option fuel hno hfuel cs ds hcs hds
    rw [e1]
    exact RemoveTrailingSlashes_joinAbs _ (by simp) hall
  have hslash : GetNormalizedPathLocked env cwd fuel ['/', '.', '.', '/'] option =
      .ok ['/'] := by
    have := normalize_dotdot env cwd option fuel hno hfuel [] [] (by simp) (by simp)
      ['/', '.', '.', '/'] (by decide)
    simpa using this
  obtain ⟨r, hr, hn⟩ := normalize_nolinks env cwd path option fuel hpath hcwd hno hfuel
  refine ⟨⟨r, hr, hn, normalized_shape r hn⟩, hdd, ?_, hslash⟩
  simpa [joinAbs] using hdd [] [] (by simp) (by simp)

/-- C3, at a concrete input: the relative path "../x/./y//z/.." under "/a/b/". -/
theorem GetNormalizedPathLocked_normalizes_witness :
    GetNormalizedPathLocked Env.empty "/a/b/".toList 1 "../x/./y//z/..".toList
        .kResolveParentSymlinks = .ok "/a/x/y".toList ∧
      ∃ r, GetNormalizedPathLocked Env.empty "/a/b/".toList 1 "../x/./y//z/..".toList
        .kResolveParentSymlinks = .ok r ∧ IsNormalizedPath r ∧
        r.head? = some '/' ∧ (r = ['/'] ∨ EndsWithSlash r = false) :=
  ⟨by decide,
    (GetNormalizedPathLocked_normalizes Env.empty "/a/b/".toList "../x/./y//z/..".toList
      .kResolveParentSymlinks 1 (by decide) (Or.inr ⟨"/a/b".toList, by decide, by decide⟩)
      (fun _ => rfl) (by decide)).1⟩

theorem tail_go_joinAbs (cs : List Str) (h : ∀ c ∈ cs, PlainComponent c) :
    (SplitString.go '/' (joinAbs cs)).tail = cs := by
  rw [go_joinAbs cs (fun d hd => (h d hd).2.2.2)]
  rfl

theorem mem_pathPrefixes (cs : List Str) (h : ∀ c ∈ cs, PlainComponent c) (k : Nat)
    (hk : k < cs.length) : joinAbs (cs.take (k + 1)) ∈ pathPrefixes (joinAbs cs) := by
  unfold pathPrefixes
  simp only [tail_go_joinAbs cs h, List.mem_map, List.mem_range]
  exact ⟨k, hk, rfl⟩

theorem mem_parentPrefixes (cs : List Str) (h : ∀ c ∈ cs, PlainComponent c) (k : Nat)
    (hk : k + 1 < cs.length) : joinAbs (cs.take (k + 1)) ∈ parentPrefixes (joinAbs cs) := by
  unfold parentPrefixes
  simp only [tail_go_joinAbs cs h, List.mem_map, List.mem_range]
  exact ⟨k, by omega, rfl⟩

theorem normalize_root (env : Env) (cwd : Str) (fuel : Nat) (option : NormalizeOption) :
    GetNormalizedPathLocked env cwd fuel ['/'] option = .ok ['/'] := by
  have h1 : RemoveTrailingSlashes ['/'] = ['/'] := by decide
  have h2 : RemoveSingleDotsAndRedundantSlashes ['/'] = ['/'] := by decide
  have h3 : SplitString ['/'] '/' = [[], []] := by decide
  unfold GetNormalizedPathLocked
  simp only [h1, h2]
  simp [h3, normalizeLoop, Result.bind]

theorem plain_weaken (cs : List Str) (h : ∀ c ∈ cs, PlainComponent c) :
    ∀ c ∈ cs, c ≠ [] ∧ c ≠ ['.'] ∧ '/' ∉ c :=
  fun c hc => ⟨(h c hc).1, (h c hc).2.1, (h c hc).2.2.2⟩

theorem plain_weaken2 (cs : List Str) (h : ∀ c ∈ cs, PlainComponent c) :
    ∀ c ∈ cs, c ≠ [] ∧ c ≠ ['.', '.'] :=
  fun c hc => ⟨(h c hc).1, (h c hc).2.2.1⟩

theorem plain_weaken3 (cs : List Str) (h : ∀ c ∈ cs, PlainComponent c) :
    ∀ c ∈ cs, c ≠ [] ∧ '/' ∉ c :=
  fun c hc => ⟨(h c hc).1, (h c hc).2.2.2⟩

theorem normalize_identity (env : Env) (cwd : Str) (fuel : Nat) (hfuel : 0 < fuel)
    (option : NormalizeOption) (p : Str) (hp : IsNormalizedPath p)
    (hl : ∀ q ∈ pathPrefixes p, linkTarget env q = none) :
    GetNormalizedPathLocked env cwd fuel p option = .ok p := by
  rcases isNormalizedPath_cases p hp with h | ⟨cs, hne, hcs, rfl⟩
  · subst h
    exact normalize_root env cwd fuel option
  · rw [normalize_joinAbs env cwd fuel _ option cs hne (plain_weaken cs hcs)
      (RemoveTrailingSlashes_joinAbs cs hne (plain_weaken3 cs hcs))]
    have := loop_plain env option fuel hfuel cs [] [] (plain_weaken2 cs hcs)
      (fun k hk => by
        rw [List.nil_append]
        exact hl _ (mem_pathPrefixes cs hcs k hk))
    rw [List.append_nil] at this
    rw [this]
    simp only [normalizeLoop, Result.ok_bind, List.nil_append]
    rw [if_neg (fun e => hne ((joinAbs_eq_nil cs).1 e))]

/-- C4. Normalization is the identity on normalized paths: when none of the paths
accumulated along a normalized path `p` ("/a", "/a/b", ...) is reported as a link,
`GetNormalizedPathLocked(p, kResolveSymlinks)` returns `p`, for every working directory.
Hence, when no handler reports any link, the result of normalizing a non-empty path is
left unchanged by a second normalization. -/
theorem GetNormalizedPathLocked_identity (env : Env) (cwd : Str) (fuel : Nat)
    (hfuel : 0 < fuel) :
    (∀ p, IsNormalizedPath p → (∀ q ∈ pathPrefixes p, linkTarget env q = none) →
      GetNormalizedPathLocked env cwd fuel p .kResolveSymlinks = .ok p) ∧
    ((∀ q, linkTarget env q = none) → IsWorkingDirectory cwd → ∀ x, x ≠ [] →
      ∃ r, GetNormalizedPathLocked env cwd fuel x .kResolveSymlinks = .ok r ∧
        GetNormalizedPathLocked env cwd fuel r .kResolveSymlinks = .ok r) := by
  refine ⟨fun p hp hl => normalize_identity env cwd fuel hfuel _ p hp hl, ?_⟩
  intro hno hcwd x hx
  obtain ⟨r, hr, hn⟩ := normalize_nolinks env cwd x .kResolveSymlinks fuel hx hcwd hno hfuel
  exact ⟨r, hr, normalize_identity env cwd fuel hfuel _ r hn (fun q _ => hno q)⟩

/-- C4, at a concrete input: "/system/lib" under the link "/lib" -> "/system/lib". -/
theorem GetNormalizedPathLocked_identity_witness :
    GetNormalizedPathLocked (redirectEnv libHandler Underlying.empty 0) "/data/".toList 1
      "/system/lib".toList .kResolveSymlinks = .ok "/system/lib".toList :=
  (GetNormalizedPathLocked_identity (redirectEnv libHandler Underlying.empty 0)
    "/data/".toList 1 (by decide)).1 "/system/lib".toList (by decide) (by decide)

theorem loop_step_resolve (env : Env) (fuel : Nat) (d : Str) (rest : List Str) (acc : Str)
    (h1 : d ≠ []) (h2 : d ≠ ['.', '.']) :
    normalizeLoop env .kResolveSymlinks fuel (d :: rest) acc =
      (ResolveSymlinks env fuel (acc ++ '/' :: d)).bind
        (fun r => normalizeLoop env .kResolveSymlinks fuel rest r) := by
  conv_lhs => unfold normalizeLoop
  rw [if_neg h1, if_neg h2]
  simp

theorem loop_step_last_parent (env : Env) (fuel : Nat) (d : Str) (acc : Str)
    (h1 : d ≠ []) (h2 : d ≠ ['.', '.']) :
    normalizeLoop env .kResolveParentSymlinks fuel [d] acc = .ok (acc ++ '/' :: d) := by
  conv_lhs => unfold normalizeLoop
  rw [if_neg h1, if_neg h2]
  simp [normalizeLoop]

theorem joinAbs_dropLast_getLast (ls : List Str) (hne : ls ≠ []) :
    joinAbs ls = joinAbs ls.dropLast ++ '/' :: ls.getLast hne := by
  conv_lhs => rw [← List.dropLast_append_getLast hne]
  exact joinAbs_concat _ _

theorem parent_links_none (env : Env) (ls : List Str) (hls : ∀ c ∈ ls, PlainComponent c)
    (hparents : ∀ q ∈ parentPrefixes (joinAbs ls), linkTarget env q = none) :
    ∀ k, k < ls.dropLast.length →
      linkTarget env ([] ++ joinAbs (ls.dropLast.take (k + 1))) = none := by
  intro k hk
  rw [List.nil_append]
  have hk2 : k + 1 < ls.length := by
    simp at hk; omega
  have : ls.dropLast.take (k + 1) = ls.take (k + 1) := by
    rw [List.dropLast_eq_take, List.take_take]
    congr 1
    omega
  rw [this]
  exact hparents _ (mem_parentPrefixes ls hls k hk2)

theorem resolve_link_once (env : Env) (fuel : Nat) (hfuel : 2 ≤ fuel) (L T : Str)
    (hlink : linkTarget env L = some T) (hT0 : linkTarget env T = none) :
    ResolveSymlinks env fuel L = .ok T := by
  obtain ⟨f, rfl⟩ : ∃ f, fuel = f + 2 := ⟨fuel - 2, by omega⟩
  rw [ResolveSymlinks_of_some env (f + 1) L T hlink, ResolveSymlinks_of_none env f T hT0]

theorem normalize_through_link (env : Env) (cwd : Str) (fuel : Nat) (hfuel : 2 ≤ fuel)
    (ls rest : List Str) (T : Str) (hne : ls ≠ []) (hT : T ≠ [])
    (hls : ∀ c ∈ ls, PlainComponent c) (hrest : ∀ c ∈ rest, PlainComponent c)
    (hlink : linkTarget env (joinAbs ls) = some T)
    (hparents : ∀ q ∈ parentPrefixes (joinAbs ls), linkTarget env q = none)
    (hT0 : linkTarget env T = none)
    (hrl : ∀ k, k < rest.length → linkTarget env (T ++ joinAbs (rest.take (k + 1))) = none)
    (path : Str) (hpath : RemoveTrailingSlashes path = joinAbs (ls ++ rest)) :
    GetNormalizedPathLocked env cwd fuel path .kResolveSymlinks = .ok (T ++ joinAbs rest) := by
  have hall : ∀ c ∈ ls ++ rest, PlainComponent c := by
    intro c hc
    rcases List.mem_append.1 hc with h | h
    · exact hls c h
    · exact hrest c h
  rw [normalize_joinAbs env cwd fuel path _ (ls ++ rest) (by simp [hne])
    (plain_weaken _ hall) hpath]
  have hdec := List.dropLast_append_getLast hne
  have hlast := hls _ (List.getLast_mem hne)
  have hsplit : ls ++ rest = ls.dropLast ++ (ls.getLast hne :: rest) := by
    conv_lhs => rw [← hdec]
    simp
  rw [hsplit, loop_plain env _ fuel (by omega) ls.dropLast _ []
    (plain_weaken2 _ (fun c hc => hls c (List.dropLast_subset ls hc)))
    (parent_links_none env ls hls hparents)]
  rw [loop_step_resolve env fuel _ rest _ hlast.1 hlast.2.2.1, List.nil_append,
    ← joinAbs_dropLast_getLast ls hne, resolve_link_once env fuel hfuel _ T hlink hT0,
    Result.ok_bind]
  have := loop_plain env .kResolveSymlinks fuel (by omega) rest [] T
    (plain_weaken2 _ hrest) hrl
  rw [List.append_nil] at this
  rw [this]
  simp only [normalizeLoop, Result.ok_bind]
  rw [if_neg (by simp [hT])]

/-- C5. Symlinked directory prefixes are rewritten. Let `L` be a normalized path other than
"/" that its handler reports as a link to the normalized path `T`, let no path accumulated
before `L` be a link, let `T` not be a link and let no path `T/r1`, `T/r1/r2`, ... be a link.
Then for every sequence `rest` of plain components, `GetNormalizedPathLocked` in the mode
`kResolveSymlinks` turns `L/r1/.../rn` into `T/r1/.../rn`. -/
theorem symlinked_directory_rewritten (env : Env) (cwd : Str) (fuel : Nat) (L T : Str)
    (rest : List Str) (hfuel : 2 ≤ fuel)
    (hL : IsNormalizedPath L) (hL1 : L ≠ ['/']) (hT : IsNormalizedPath T)
    (hlink : linkTarget env L = some T)
    (hparents : ∀ q ∈ parentPrefixes L, linkTarget env q = none)
    (hT0 : linkTarget env T = none)
    (hrest : ∀ c ∈ rest, PlainComponent c)
    (hrl : ∀ k, k < rest.length → linkTarget env (T ++ joinAbs (rest.take (k + 1))) = none) :
    GetNormalizedPathLocked env cwd fuel (L ++ joinAbs rest) .kResolveSymlinks =
      .ok (T ++ joinAbs rest) := by
  rcases isNormalizedPath_cases L hL with h | ⟨ls, hne, hls, rfl⟩
  · exact absurd h hL1
  · have hTne : T ≠ [] := by
      rcases isNormalizedPath_cases T hT with h | ⟨ts, htne, _, rfl⟩
      · simp [h]
      · exact fun e => htne ((joinAbs_eq_nil ts).1 e)
    have hall : ∀ c ∈ ls ++ rest, PlainComponent c := by
      intro c hc
      rcases List.mem_append.1 hc with h | h
      · exact hls c h
      · exact hrest c h
    apply normalize_through_link env cwd fuel hfuel ls rest T hne hTne hls hrest hlink
      hparents hT0 hrl
    rw [← joinAbs_append]
    exact RemoveTrailingSlashes_joinAbs _ (by simp [hne]) (plain_weaken3 _ hall)

/-- C5, at a concrete input: with the link "/lib" -> "/system/lib" registered in a redirect
handler, "/lib/libc.so" normalizes to "/system/lib/libc.so", and this is the path `open`
hands to the handler's `open` (the only handler call of `open("/lib/libc.so", O_RDONLY)`). -/
theorem symlinked_directory_rewritten_witness :
    GetNormalizedPathLocked (redirectEnv libHandler Underlying.empty 0) "/".toList 2
      ("/lib".toList ++ joinAbs ["libc.so".toList]) .kResolveSymlinks =
        .ok ("/system/lib".toList ++ joinAbs ["libc.so".toList]) ∧
    (vfs_open (redirectEnv libHandler Underlying.empty 0) 2
      (VirtualFileSystem.new 3 1023 false) "/lib/libc.so".toList O_RDONLY 0).bind
      (fun r => Result.ok r.2.handler_calls) =
        .ok [HandlerCall.open 1 3 "/system/lib/libc.so".toList O_RDONLY 0] :=
  ⟨symlinked_directory_rewritten (redirectEnv libHandler Underlying.empty 0) "/".toList 2
    "/lib".toList "/system/lib".toList ["libc.so".toList] (by decide) (by decide) (by decide)
    (by decide) (by decide) (by decide) (by decide) (by decide) (by decide),
    by decide⟩

theorem promoted_mode (env : Env) (cwd : Str) (fuel : Nat) (path : Str)
    (h : EndsWith (RemoveTrailingSlashes path) ['/', '.'] = true) :
    GetNormalizedPathLocked env cwd fuel path .kResolveParentSymlinks =
      GetNormalizedPathLocked env cwd fuel path .kResolveSymlinks := by
  unfold GetNormalizedPathLocked
  simp [h]

/-- C6. The mode `kResolveParentSymlinks` acts on the link itself. Let `L` be a normalized
path other than "/" that its handler reports as a link to the non-empty path `T`, with no
link among the paths accumulated before `L`. Then `kResolveParentSymlinks` returns `L`
unchanged, whereas `kResolveSymlinks` returns the target `T` (`T` not being a link itself).
For every input that ends in "/." once its trailing slashes are stripped, the two modes
give the same result. -/
theorem parent_mode_keeps_link (env : Env) (cwd : Str) (fuel : Nat) (L T : Str)
    (hfuel : 2 ≤ fuel)
    (hL : IsNormalizedPath L) (hL1 : L ≠ ['/']) (hT : T ≠ [])
    (hlink : linkTarget env L = some T)
    (hparents : ∀ q ∈ parentPrefixes L, linkTarget env q = none)
    (hT0 : linkTarget env T = none) :
    GetNormalizedPathLocked env cwd fuel L .kResolveParentSymlinks = .ok L ∧
    GetNormalizedPathLocked env cwd fuel L .kResolveSymlinks = .ok T ∧
    (∀ path, EndsWith (RemoveTrailingSlashes path) ['/', '.'] = true →
      GetNormalizedPathLocked env cwd fuel path .kResolveParentSymlinks =
        GetNormalizedPathLocked env cwd fuel path .kResolveSymlinks) := by
  rcases isNormalizedPath_cases L hL with h | ⟨ls, hne, hls, rfl⟩
  · exact absurd h hL1
  · refine ⟨?_, ?_, fun path h => promoted_mode env cwd fuel path h⟩
    · rw [normalize_joinAbs env cwd fuel _ _ ls hne (plain_weaken ls hls)
        (RemoveTrailingSlashes_joinAbs ls hne (plain_weaken3 ls hls))]
      have hlast := hls _ (List.getLast_mem hne)
      conv_lhs => rw [← List.dropLast_append_getLast hne]
      rw [loop_plain env _ fuel (by omega) ls.dropLast _ []
        (plain_weaken2 _ (fun c hc => hls c (List.dropLast_subset ls hc)))
        (parent_links_none env ls hls hparents)]
      rw [loop_step_last_parent env fuel _ _ hlast.1 hlast.2.2.1, List.nil_append,
        ← joinAbs_dropLast_getLast ls hne, Result.ok_bind]
      rw [if_neg (fun e => hne ((joinAbs_eq_nil ls).1 e))]
    · have := normalize_through_link env cwd fuel hfuel ls [] T hne hT hls (by simp) hlink
        hparents hT0 (by simp) (joinAbs ls)
        (by
          rw [List.append_nil]
          exact RemoveTrailingSlashes_joinAbs ls hne (plain_weaken3 ls hls))
      simpa [joinAbs] using this

/-- C6, at a concrete input: with the link "/lib" -> "/system/lib", the parent-only mode
keeps "/lib", the full mode gives "/system/lib", and "/lib/." gives "/system/lib" in both. -/
theorem parent_mode_keeps_link_witness :
    (GetNormalizedPathLocked (redirectEnv libHandler Underlying.empty 0) "/".toList 2
        "/lib".toList .kResolveParentSymlinks = .ok "/lib".toList ∧
      GetNormalizedPathLocked (redirectEnv libHandler Underlying.empty 0) "/".toList 2
        "/lib".toList .kResolveSymlinks = .ok "/system/lib".toList) ∧
    GetNormalizedPathLocked (redirectEnv libHandler Underlying.empty 0) "/".toList 2
        "/lib/.".toList .kResolveParentSymlinks = .ok "/system/lib".toList ∧
    GetNormalizedPathLocked (redirectEnv libHandler Underlying.empty 0) "/".toList 2
        "/lib/.".toList .kResolveSymlinks = .ok "/system/lib".toList :=
  have h := parent_mode_keeps_link (redirectEnv libHandler Underlying.empty 0) "/".toList 2
    "/lib".toList "/system/lib".toList (by decide) (by decide) (by decide) (by decide)
    (by decide) (by decide) (by decide)
  ⟨⟨h.1, h.2.1⟩, by decide, by decide⟩

/-! ## C7: symlink loops -/

theorem ResolveSymlinks_within (env : Env) (n : Nat) :
    ∀ p, LinkChainWithin env n p → ∀ fuel, n < fuel → ∃ r, ResolveSymlinks env fuel p = .ok r := by
  induction n with
  | zero =>
    intro p hp fuel hf
    obtain ⟨f, rfl⟩ : ∃ f, fuel = f + 1 := ⟨fuel - 1, by omega⟩
    exact ⟨p, ResolveSymlinks_of_none env f p hp⟩
  | succ n ih =>
    intro p hp fuel hf
    obtain ⟨f, rfl⟩ : ∃ f, fuel = f + 1 := ⟨fuel - 1, by omega⟩
    unfold LinkChainWithin at hp
    cases hl : linkTarget env p with
    | none => exact ⟨p, ResolveSymlinks_of_none env f p hl⟩
    | some t =>
      rw [hl] at hp
      rw [ResolveSymlinks_of_some env f p t hl]
      exact ih t hp f (by omega)

theorem loop_returns_or_aborts (env : Env) (opt : NormalizeOption) (fuel : Nat)
    (h : ∀ p, ∃ r, ResolveSymlinks env fuel p = .ok r) (ds : List Str) :
    ∀ acc, (∃ r, normalizeLoop env opt fuel ds acc = .ok r) ∨
      normalizeLoop env opt fuel ds acc = .fatal := by
  induction ds with
  | nil => intro acc; exact Or.inl ⟨acc, by simp [normalizeLoop]⟩
  | cons d ds ih =>
    intro acc
    unfold normalizeLoop
    split
    · exact ih acc
    · split
      · split
        · split
          · exact ih _
          · exact Or.inr rfl
        · exact ih acc
      · simp only
        split
        · obtain ⟨r, hr⟩ := h (acc ++ '/' :: d)
          rw [hr, Result.ok_bind]
          exact ih r
        · exact ih _

/-- When every chain of links ends after at most `n` hops, a normalization that may follow
more than `n` hops per component ends, either by returning a path or by aborting in
`resize(npos)`; it does not run on without end. -/
theorem normalization_ends_on_finite_chains (env : Env) (cwd path : Str)
    (option : NormalizeOption) (n fuel : Nat)
    (hchains : ∀ p, LinkChainWithin env n p) (hfuel : n < fuel) :
    (∃ r, GetNormalizedPathLocked env cwd fuel path option = .ok r) ∨
      GetNormalizedPathLocked env cwd fuel path option = .fatal := by
  have hres : ∀ p, ∃ r, ResolveSymlinks env fuel p = .ok r :=
    fun p => ResolveSymlinks_within env n p (hchains p) fuel hfuel
  unfold GetNormalizedPathLocked
  simp only
  split
  · exact Or.inl ⟨[], rfl⟩
  · rcases loop_returns_or_aborts env _ fuel hres _ [] with ⟨r, hr⟩ | hr
    · rw [hr]
      exact Or.inl ⟨_, rfl⟩
    · rw [hr]
      exact Or.inr rfl

/-- The chain "/lib" -> "/system/lib" has one hop, and "/lib/libc.so" is normalized within
two calls of `ResolveSymlinks` per component. -/
theorem normalization_ends_on_finite_chains_witness :
    (∃ r, GetNormalizedPathLocked (redirectEnv libHandler Underlying.empty 0) "/".toList 2
        "/lib/libc.so".toList .kResolveSymlinks = .ok r) ∨
      GetNormalizedPathLocked (redirectEnv libHandler Underlying.empty 0) "/".toList 2
        "/lib/libc.so".toList .kResolveSymlinks = .fatal :=
  normalization_ends_on_finite_chains (redirectEnv libHandler Underlying.empty 0) "/".toList
    "/lib/libc.so".toList .kResolveSymlinks 1 2
    (by
      intro p
      by_cases hp : p = "/lib".toList
      · subst hp
        have hlib : linkTarget (redirectEnv libHandler Underlying.empty 0) "/lib".toList =
            some "/system/lib".toList := by decide
        have hsys : linkTarget (redirectEnv libHandler Underlying.empty 0)
            "/system/lib".toList = none := by decide
        unfold LinkChainWithin
        rw [hlib]
        exact hsys
      · have hne : (p == ['/', 'l', 'i', 'b']) = false := by simpa using hp
        have : linkTarget (redirectEnv libHandler Underlying.empty 0) p = none := by
          simp [linkTarget, redirectEnv, Env.empty, RedirectHandler.readlink,
            RedirectHandler.GetSymlinkTarget, libHandler, RedirectHandler.symlink,
            RedirectHandler.AddSymlink, Underlying.empty, Except.toBool, List.lookup, hne]
        unfold LinkChainWithin
        rw [this]
        trivial)
    (by decide)

theorem cyclic_resolve_diverges (fuel : Nat) :
    ResolveSymlinks (redirectEnv cyclicHandler Underlying.empty 0) fuel "/a".toList
        = .diverges ∧
      ResolveSymlinks (redirectEnv cyclicHandler Underlying.empty 0) fuel "/b".toList
        = .diverges := by
  have ha : linkTarget (redirectEnv cyclicHandler Underlying.empty 0) "/a".toList =
      some "/b".toList := by decide
  have hb : linkTarget (redirectEnv cyclicHandler Underlying.empty 0) "/b".toList =
      some "/a".toList := by decide
  induction fuel with
  | zero => exact ⟨rfl, rfl⟩
  | succ f ih =>
    exact ⟨by rw [ResolveSymlinks_of_some _ f _ _ ha]; exact ih.2,
      by rw [ResolveSymlinks_of_some _ f _ _ hb]; exact ih.1⟩

/-- C7, the failing input evaluated. `RedirectHandler::symlink` accepts "/a" -> "/b" and
then "/b" -> "/a" (both calls return 0), and the normalization of "/a" then ends within no
number of hops: `ResolveSymlinks` has no hop bound and no loop error. -/
theorem symlink_cycle_never_ends :
    ((⟨[], [], []⟩ : RedirectHandler).symlink Underlying.empty "/b".toList "/a".toList 0).1 = 0 ∧
    ((((⟨[], [], []⟩ : RedirectHandler).symlink Underlying.empty "/b".toList "/a".toList 0).2.1).symlink
      Underlying.empty "/a".toList "/b".toList 0).1 = 0 ∧
    ¬ ∃ fuel, GetNormalizedPathLocked (redirectEnv cyclicHandler Underlying.empty 0)
        "/".toList fuel "/a".toList .kResolveSymlinks ≠ .diverges := by
  refine ⟨by decide, by decide, ?_⟩
  rintro ⟨fuel, h⟩
  apply h
  have hs : RemoveTrailingSlashes "/a".toList = joinAbs ["a".toList] := by decide
  rw [normalize_joinAbs _ _ fuel _ _ ["a".toList] (by decide) (by decide) hs]
  rw [loop_step_resolve _ fuel _ _ _ (by decide) (by decide)]
  have := (cyclic_resolve_diverges fuel).1
  have e : ([] : Str) ++ '/' :: "a".toList = "/a".toList := by decide
  rw [e, this]
  rfl

/-! ## C8: the permission derived at handler lookup -/

theorem initializeHandler_fields (env : Env) (s : VirtualFileSystem) (handler : Nat) :
    (initializeHandler env s handler).handler_calls = s.handler_calls ∧
    (initializeHandler env s handler).errno = s.errno ∧
    (initializeHandler env s handler).fd_to_stream_ = s.fd_to_stream_ ∧
    (initializeHandler env s handler).preopened_fds_ = s.preopened_fds_ ∧
    (initializeHandler env s handler).cwd = s.cwd ∧
    (initializeHandler env s handler).debug_fds_ = s.debug_fds_ ∧
    (initializeHandler env s handler).browser_ready_ = s.browser_ready_ := by
  unfold initializeHandler
  split <;> exact ⟨rfl, rfl, rfl, rfl, rfl, rfl, rfl⟩

theorem lookup_eq (env : Env) (s : VirtualFileSystem) (path : Str) (handler owner : Nat)
    (hmain : env.IsMainThread = false)
    (hm : env.GetFileSystemHandler path = some (handler, owner)) :
    GetFileSystemHandlerLocked env s path =
      .ok (some (handler, ⟨owner, !env.IsAppUid env.GetUid || decide (owner = env.GetUid) ||
        env.IsWorldWritable handler path⟩), initializeHandler env s handler) := by
  unfold GetFileSystemHandlerLocked
  rw [hm]
  simp [hmain]

theorem writable_iff (env : Env) (handler owner : Nat) (path : Str) :
    (!env.IsAppUid env.GetUid || decide (owner = env.GetUid) ||
      env.IsWorldWritable handler path) = true ↔ IsWritableTo env handler owner path := by
  simp only [IsWritableTo, Bool.or_eq_true, Bool.not_eq_true', decide_eq_true_eq]
  constructor
  · rintro ((h | h) | h)
    · exact Or.inl h
    · exact Or.inr (Or.inl h.symm)
    · exact Or.inr (Or.inr h)
  · rintro (h | h | h)
    · exact Or.inl (Or.inl h)
    · exact Or.inl (Or.inr h.symm)
    · exact Or.inr h

theorem lookup_permission (env : Env) (s : VirtualFileSystem) (path : Str)
    (handler owner : Nat) (hmain : env.IsMainThread = false)
    (hm : env.GetFileSystemHandler path = some (handler, owner)) :
    ∃ perm, GetFileSystemHandlerLocked env s path =
        .ok (some (handler, perm), initializeHandler env s handler) ∧
      perm.file_uid = owner ∧
      (perm.is_writable = true ↔ IsWritableTo env handler owner path) :=
  ⟨_, lookup_eq env s path handler owner hmain hm, rfl, writable_iff env handler owner path⟩

/-- C8. For every path served by a mount point with handler `handler` and owner `owner`,
`GetFileSystemHandlerLocked` aborts on the main thread and otherwise returns the handler
with the permission whose `file_uid` is `owner` and whose `is_writable` holds exactly when
the caller's UID is not an app UID, or equals `owner`, or `handler.IsWorldWritable(path)`. -/
theorem permission_at_handler_lookup (env : Env) (s : VirtualFileSystem) (path : Str)
    (handler owner : Nat) (hm : env.GetFileSystemHandler path = some (handler, owner)) :
    (env.IsMainThread = true ∧ GetFileSystemHandlerLocked env s path = .fatal) ∨
    (env.IsMainThread = false ∧ ∃ perm s1,
      GetFileSystemHandlerLocked env s path = .ok (some (handler, perm), s1) ∧
      perm.file_uid = owner ∧
      (perm.is_writable = true ↔ IsWritableTo env handler owner path)) := by
  cases hmain : env.IsMainThread with
  | true =>
    left
    refine ⟨rfl, ?_⟩
    unfold GetFileSystemHandlerLocked
    rw [hm]
    simp [hmain]
  | false =>
    right
    obtain ⟨perm, h1, h2, h3⟩ := lookup_permission env s path handler owner hmain hm
    exact ⟨rfl, perm, _, h1, h2, h3⟩

/-- C8, at a concrete input: an app (UID 10000) asking for a path of a root-owned mount. -/
theorem permission_at_handler_lookup_witness :
    (readOnlyEnv.IsMainThread = true ∧
      GetFileSystemHandlerLocked readOnlyEnv (VirtualFileSystem.new 3 1023 false)
        "/ro/x".toList = .fatal) ∨
    (readOnlyEnv.IsMainThread = false ∧ ∃ perm s1,
      GetFileSystemHandlerLocked readOnlyEnv (VirtualFileSystem.new 3 1023 false)
        "/ro/x".toList = .ok (some (1, perm), s1) ∧
      perm.file_uid = 0 ∧
      (perm.is_writable = true ↔ IsWritableTo readOnlyEnv 1 0 "/ro/x".toList)) :=
  permission_at_handler_lookup readOnlyEnv (VirtualFileSystem.new 3 1023 false)
    "/ro/x".toList 1 0 rfl

/-! ## C9 and C10: refused modifications -/

theorem lookup_not_writable (env : Env) (s : VirtualFileSystem) (path : Str)
    (handler owner : Nat) (hmain : env.IsMainThread = false)
    (hm : env.GetFileSystemHandler path = some (handler, owner))
    (hw : ¬ IsWritableTo env handler owner path) :
    GetFileSystemHandlerLocked env s path =
      .ok (some (handler, ⟨owner, false⟩), initializeHandler env s handler) := by
  unfold IsWritableTo at hw
  simp only [not_or, Bool.not_eq_false, Bool.not_eq_true] at hw
  have h1 : (!env.IsAppUid env.GetUid || decide (owner = env.GetUid) ||
      env.IsWorldWritable handler path) = false := by
    have h2 : ¬ owner = env.GetUid := fun e => hw.2.1 e.symm
    simp [hw.1, hw.2.2, h2]
  rw [lookup_eq env s path handler owner hmain hm, h1]

theorem deny_modify (env : Env) (s : VirtualFileSystem) (path : Str) (handler : Nat) :
    (DenyAccessForModifyLocked env s path handler).1 = -1 ∧
    (DenyAccessForModifyLocked env s path handler).2.errno = denyErrno env handler path ∧
    (DenyAccessForModifyLocked env s path handler).2.handler_calls = s.handler_calls ∧
    (DenyAccessForModifyLocked env s path handler).2.fd_to_stream_ = s.fd_to_stream_ ∧
    (DenyAccessForModifyLocked env s path handler).2.preopened_fds_ = s.preopened_fds_ := by
  unfold DenyAccessForModifyLocked denyErrno
  cases env.stat handler path <;> exact ⟨rfl, rfl, rfl, rfl, rfl⟩

theorem modifyPath_refused (env : Env) (fuel : Nat) (s : VirtualFileSystem)
    (pathname resolved : Str) (option : NormalizeOption) (invalidate : Bool)
    (call : Nat → Str → HandlerCall) (method : Nat → Str → Except Nat Int)
    (handler owner : Nat) (hmain : env.IsMainThread = false)
    (hn : GetNormalizedPathLocked env s.cwd fuel pathname option = .ok resolved)
    (hm : env.GetFileSystemHandler resolved = some (handler, owner))
    (hw : ¬ IsWritableTo env handler owner resolved) :
    ∃ s1, modifyPath env fuel s pathname option invalidate call method = .ok (-1, s1) ∧
      s1.errno = denyErrno env handler resolved ∧
      s1.handler_calls = s.handler_calls ∧
      s1.fd_to_stream_ = s.fd_to_stream_ ∧
      s1.preopened_fds_ = s.preopened_fds_ := by
  have h1 := lookup_not_writable env s resolved handler owner hmain hm hw
  have hi := initializeHandler_fields env s handler
  have hd := deny_modify env (initializeHandler env s handler) resolved handler
  refine ⟨(DenyAccessForModifyLocked env (initializeHandler env s handler) resolved handler).2,
    ?_, hd.2.1, hd.2.2.1.trans hi.1, hd.2.2.2.1.trans hi.2.2.1,
    hd.2.2.2.2.trans hi.2.2.2.1⟩
  unfold modifyPath
  rw [hn, Result.ok_bind, h1, Result.ok_bind]
  simp only [if_true]
  congr 1
  exact Prod.ext hd.1 rfl

/-- C9. For each of `unlink`, `remove`, `rmdir`, `truncate`, `utime` and `utimes`: when the
path, normalized in the mode of the operation, is served by a handler and is not writable,
the call returns -1, the log of handler calls is unchanged (the handler's mutating method is
not invoked), the descriptor table and the preopen cache are unchanged, and `errno` is
`EACCES` when the handler's `stat` of the normalized path succeeds and otherwise the error
`stat` reported (`ENOENT` or `ENOTDIR`). -/
theorem modify_refused_on_read_only_path (env : Env) (fuel : Nat) (s : VirtualFileSystem)
    (op : ModifyOp) (pathname resolved : Str) (handler owner : Nat)
    (hmain : env.IsMainThread = false)
    (hn : GetNormalizedPathLocked env s.cwd fuel pathname op.option = .ok resolved)
    (hm : env.GetFileSystemHandler resolved = some (handler, owner))
    (hw : ¬ IsWritableTo env handler owner resolved) :
    ∃ s1, op.run env fuel s pathname = .ok (-1, s1) ∧
      s1.handler_calls = s.handler_calls ∧
      s1.fd_to_stream_ = s.fd_to_stream_ ∧
      s1.preopened_fds_ = s.preopened_fds_ ∧
      s1.errno = denyErrno env handler resolved ∧
      ((∃ st, env.stat handler resolved = .ok st) → s1.errno = EACCES) ∧
      (∀ e, env.stat handler resolved = .error e → s1.errno = e) := by
  have key : ∀ (invalidate : Bool) (call : Nat → Str → HandlerCall)
      (method : Nat → Str → Except Nat Int),
      ∃ s1, modifyPath env fuel s pathname op.option invalidate call method = .ok (-1, s1) ∧
        s1.handler_calls = s.handler_calls ∧
        s1.fd_to_stream_ = s.fd_to_stream_ ∧
        s1.preopened_fds_ = s.preopened_fds_ ∧
        s1.errno = denyErrno env handler resolved ∧
        ((∃ st, env.stat handler resolved = .ok st) → s1.errno = EACCES) ∧
        (∀ e, env.stat handler resolved = .error e → s1.errno = e) := by
    intro invalidate call method
    obtain ⟨s1, h1, h2, h3, h4, h5⟩ := modifyPath_refused env fuel s pathname resolved
      op.option invalidate call method handler owner hmain hn hm hw
    refine ⟨s1, h1, h3, h4, h5, h2, ?_, ?_⟩
    · rintro ⟨st, hst⟩
      rw [h2, denyErrno, hst]
    · intro e he
      rw [h2, denyErrno, he]
  cases op with
  | unlink => exact key _ _ _
  | remove => exact key _ _ _
  | rmdir => exact key _ _ _
  | truncate length => exact key _ _ _
  | utime => exact key _ _ _
  | utimes => exact key _ _ _

/-- C9, at a concrete input: an app unlinks "/ro" (exists: `EACCES`) on a root-owned mount. -/
theorem modify_refused_on_read_only_path_witness :
    ∃ s1, ModifyOp.unlink.run readOnlyEnv 1 (VirtualFileSystem.new 3 1023 false)
        "/ro".toList = .ok (-1, s1) ∧
      s1.handler_calls = [] ∧ s1.errno = EACCES := by
  obtain ⟨s1, h1, h2, _, _, _, h6, _⟩ :=
    modify_refused_on_read_only_path readOnlyEnv 1 (VirtualFileSystem.new 3 1023 false)
      ModifyOp.unlink "/ro".toList "/ro".toList 1 0 (by decide) (by decide) (by decide)
      (by decide)
  exact ⟨s1, h1, h2, h6 ⟨S_IFDIR, rfl⟩⟩

/-- C10. For paths whose normalized forms are distinct and served by the same handler, at
least one of them not writable, `rename` returns -1 without calling the handler's `rename`
(the log of handler calls is unchanged), and `errno` is the merge, by the order `ENOTDIR`
over `ENOENT` over `EACCES`, of the error computed for the source path and the error
computed for the parent directory of the destination. -/
theorem rename_merges_errors (env : Env) (fuel : Nat) (s : VirtualFileSystem)
    (oldpath newpath resolved_old resolved_new : Str) (handler owner_old owner_new : Nat)
    (hmain : env.IsMainThread = false)
    (hno : GetNormalizedPathLocked env s.cwd fuel oldpath .kResolveSymlinks = .ok resolved_old)
    (hnn : GetNormalizedPathLocked env s.cwd fuel newpath .kResolveSymlinks = .ok resolved_new)
    (hmo : env.GetFileSystemHandler resolved_old = some (handler, owner_old))
    (hmn : env.GetFileSystemHandler resolved_new = some (handler, owner_new))
    (hne : resolved_new ≠ resolved_old)
    (hw : ¬ IsWritableTo env handler owner_old resolved_old ∨
      ¬ IsWritableTo env handler owner_new resolved_new) :
    ∃ s1, rename env fuel s oldpath newpath = .ok (-1, s1) ∧
      s1.handler_calls = s.handler_calls ∧
      s1.errno = preferredErrno (denyErrno env handler resolved_old)
        (denyErrno env handler (GetDirNameInPlace resolved_new)) := by
  obtain ⟨po, h1, _, hpo⟩ := lookup_permission env s resolved_old handler owner_old hmain hmo
  generalize hs1 : initializeHandler env s handler = s1 at h1
  have hc1 : s1.handler_calls = s.handler_calls := by
    rw [← hs1]; exact (initializeHandler_fields env s handler).1
  obtain ⟨pn, h2, _, hpn⟩ := lookup_permission env s1 resolved_new handler owner_new hmain hmn
  generalize hs2 : initializeHandler env s1 handler = s2 at h2
  have hc2 : s2.handler_calls = s1.handler_calls := by
    rw [← hs2]; exact (initializeHandler_fields env s1 handler).1
  have hden : po.is_writable = false ∨ pn.is_writable = false := by
    rcases hw with h | h
    · left
      cases hb : po.is_writable with
      | false => rfl
      | true => exact absurd (hpo.1 hb) h
    · right
      cases hb : pn.is_writable with
      | false => rfl
      | true => exact absurd (hpn.1 hb) h
  have hd1 := deny_modify env s2 resolved_old handler
  have hd2 := deny_modify env (DenyAccessForModifyLocked env s2 resolved_old handler).2
    (GetDirNameInPlace resolved_new) handler
  unfold rename
  rw [hno, Result.ok_bind, h1, Result.ok_bind]
  simp only
  rw [hnn, Result.ok_bind, h2, Result.ok_bind]
  simp only [ne_eq, not_true_eq_false, if_false, if_neg hne, if_pos hden]
  unfold DenyAccessForCreateLocked
  rw [hd1.2.1, hd2.2.1]
  have hcalls : (DenyAccessForModifyLocked env
      (DenyAccessForModifyLocked env s2 resolved_old handler).2
      (GetDirNameInPlace resolved_new) handler).2.handler_calls = s.handler_calls := by
    rw [hd2.2.2.1, hd1.2.2.1, hc2, hc1]
  unfold preferredErrno
  split
  · exact ⟨_, rfl, hcalls, rfl⟩
  · split
    · exact ⟨_, rfl, hcalls, rfl⟩
    · exact ⟨_, rfl, hcalls, rfl⟩

/-- C10, at a concrete input: the source "/nodir/src" lies in a directory that does not
exist (`ENOTDIR`), the destination "/ro/dst" in a read-only directory (`EACCES`): `rename`
returns -1 with `ENOTDIR`. -/
theorem rename_merges_errors_witness :
    ∃ s1, rename readOnlyEnv 1 (VirtualFileSystem.new 3 1023 false) "/nodir/src".toList
        "/ro/dst".toList = .ok (-1, s1) ∧
      s1.handler_calls = [] ∧ s1.errno = ENOTDIR := by
  obtain ⟨s1, h1, h2, h3⟩ :=
    rename_merges_errors readOnlyEnv 1 (VirtualFileSystem.new 3 1023 false)
      "/nodir/src".toList "/ro/dst".toList "/nodir/src".toList "/ro/dst".toList 1 0 0
      (by decide) (by decide) (by decide) (by decide) (by decide) (by decide)
      (Or.inl (by decide))
  refine ⟨s1, h1, h2, ?_⟩
  rw [h3]
  decide

/-! ## C1: descriptor allocation in `open` -/

theorem known_iff_entries (m : FdToFileStreamMap) (fd : Int) :
    m.IsKnownDescriptor fd = false ↔ m.entries fd = .unused := by
  unfold FdToFileStreamMap.IsKnownDescriptor
  cases m.entries fd <;> simp

theorem known_true_iff_entries (m : FdToFileStreamMap) (fd : Int) :
    m.IsKnownDescriptor fd = true ↔ m.entries fd ≠ .unused := by
  unfold FdToFileStreamMap.IsKnownDescriptor
  cases m.entries fd <;> simp

theorem firstUnusedFrom_some (e : Int → FdEntry) (n : Nat) :
    ∀ fd x, firstUnusedFrom e fd n = some x →
      fd ≤ x ∧ x < fd + n ∧ e x = .unused ∧ ∀ y, fd ≤ y → y < x → e y ≠ .unused := by
  induction n with
  | zero => intro fd x h; simp [firstUnusedFrom] at h
  | succ n ih =>
    intro fd x h
    unfold firstUnusedFrom at h
    split at h
    · rename_i hu
      simp only [Option.some.injEq] at h
      subst h
      exact ⟨le_refl _, by omega, hu, fun y h1 h2 => by omega⟩
    · rename_i hu
      obtain ⟨h1, h2, h3, h4⟩ := ih (fd + 1) x h
      refine ⟨by omega, by push_cast; omega, h3, ?_⟩
      intro y hy1 hy2
      by_cases hy : y = fd
      · subst hy; exact hu
      · exact h4 y (by omega) hy2

theorem firstUnusedFrom_none (e : Int → FdEntry) (n : Nat) :
    ∀ fd, firstUnusedFrom e fd n = none → ∀ y, fd ≤ y → y < fd + n → e y ≠ .unused := by
  induction n with
  | zero => intro fd _ y h1 h2; simp at h2; omega
  | succ n ih =>
    intro fd h y h1 h2
    unfold firstUnusedFrom at h
    split at h
    · simp at h
    · rename_i hu
      by_cases hy : y = fd
      · subst hy; exact hu
      · exact ih (fd + 1) h y (by omega) (by push_cast at h2; omega)

theorem GetFirstUnusedDescriptor_cases (m : FdToFileStreamMap) :
    (IsLowestUnused m m.GetFirstUnusedDescriptor.1 ∧
      m.GetFirstUnusedDescriptor.2 =
        { m with entries := fun x =>
            if x = m.GetFirstUnusedDescriptor.1 then .reserved else m.entries x }) ∨
    (m.GetFirstUnusedDescriptor.1 = -1 ∧ m.GetFirstUnusedDescriptor.2 = m ∧
      NoUnusedDescriptor m) := by
  unfold FdToFileStreamMap.GetFirstUnusedDescriptor
  cases h : firstUnusedFrom m.entries m.min_file_id
      (m.max_file_id + 1 - m.min_file_id).toNat with
  | some fd =>
    left
    obtain ⟨h1, h2, h3, h4⟩ := firstUnusedFrom_some _ _ _ _ h
    refine ⟨⟨h1, ?_, (known_iff_entries m fd).2 h3,
      fun y hy1 hy2 => (known_true_iff_entries m y).2 (h4 y hy1 hy2)⟩, rfl⟩
    simp only at h2 ⊢
    omega
  | none =>
    right
    refine ⟨rfl, rfl, ?_⟩
    intro y hy1 hy2
    exact (known_true_iff_entries m y).2
      (firstUnusedFrom_none _ _ _ h y hy1 (by omega))

theorem lowest_unused_nonneg_of (m : FdToFileStreamMap) (fd : Int) (hmin : 0 ≤ m.min_file_id)
    (h : IsLowestUnused m fd) : ¬ fd < 0 := by
  have := h.1
  omega

theorem closePreopened_nil_of_absent (s : VirtualFileSystem) (resolved : Str)
    (h : ∀ kv ∈ s.preopened_fds_, kv.1 ≠ resolved) :
    ClosePreopenedFilesWithResolvedPathLocked s resolved = s := by
  unfold ClosePreopenedFilesWithResolvedPathLocked
  have h1 : s.preopened_fds_.filter (fun kv => decide (kv.1 = resolved)) = [] := by
    rw [List.filter_eq_nil_iff]
    intro kv hkv
    simpa using h kv hkv
  have h2 : s.preopened_fds_.filter (fun kv => decide (kv.1 ≠ resolved)) = s.preopened_fds_ := by
    rw [List.filter_eq_self]
    intro kv hkv
    simpa using h kv hkv
  simp only [h1, closePreopened, h2]

/-- C1, as amended. When the preopen cache holds no entry for the normalized path, a handler
serves it and the access is not denied (the open is read-only without `O_CREAT` and
`O_TRUNC`, or the path is writable), `open` returns, and either
* the handler's `open` succeeded for the smallest unused descriptor of `[min_fd, max_fd]`,
  which is returned and bound to the new stream, every other descriptor being unchanged, or
* no descriptor of the range is unused, and -1 is returned with `EMFILE`, or
* the handler's `open` failed for the smallest unused descriptor, and -1 is returned with the
  handler's `errno`, the descriptor table being unchanged. -/
theorem open_returns_lowest_unused_descriptor (env : Env) (fuel : Nat) (s : VirtualFileSystem)
    (pathname resolved : Str) (oflag cmode handler owner : Nat)
    (hmain : env.IsMainThread = false)
    (hmin : 0 ≤ s.fd_to_stream_.min_file_id)
    (hnorm : GetNormalizedPathLocked env s.cwd fuel pathname .kResolveSymlinks = .ok resolved)
    (hcache : ∀ kv ∈ s.preopened_fds_, kv.1 ≠ resolved)
    (hm : env.GetFileSystemHandler resolved = some (handler, owner))
    (hperm : ((oflag &&& O_ACCMODE) = O_RDONLY ∧ (oflag &&& (O_CREAT ||| O_TRUNC)) = 0) ∨
      IsWritableTo env handler owner resolved) :
    ∃ ret s1, vfs_open env fuel s pathname oflag cmode = .ok (ret, s1) ∧
      ((IsLowestUnused s.fd_to_stream_ ret ∧
          (∃ ident perm, env.handlerOpen handler ret resolved oflag cmode = .ok ident ∧
            s1.fd_to_stream_.GetStream ret = some ⟨.handler, ident, some perm⟩ ∧
            perm.file_uid = owner ∧
            (perm.is_writable = true ↔ IsWritableTo env handler owner resolved)) ∧
          ∀ x, x ≠ ret → s1.fd_to_stream_.entries x = s.fd_to_stream_.entries x) ∨
        (ret = -1 ∧ s1.errno = EMFILE ∧ NoUnusedDescriptor s.fd_to_stream_ ∧
          s1.fd_to_stream_ = s.fd_to_stream_) ∨
        (ret = -1 ∧ ∃ fd e, IsLowestUnused s.fd_to_stream_ fd ∧
          env.handlerOpen handler fd resolved oflag cmode = .error e ∧ s1.errno = e ∧
          s1.fd_to_stream_.entries = s.fd_to_stream_.entries)) := by
  have hfind : s.preopened_fds_.find? (fun kv => decide (kv.1 = resolved)) = none := by
    rw [List.find?_eq_none]
    intro kv hkv
    simpa using hcache kv hkv
  have hi := initializeHandler_fields env s handler
  generalize hs1 : initializeHandler env s handler = s1 at hi
  obtain ⟨perm, hlook, hpu, hpw⟩ : ∃ perm,
      GetFileSystemHandlerLocked env s resolved = .ok (some (handler, perm), s1) ∧
      perm.file_uid = owner ∧
      (perm.is_writable = true ↔ IsWritableTo env handler owner resolved) := by
    obtain ⟨perm, h1, h2, h3⟩ := lookup_permission env s resolved handler owner hmain hm
    exact ⟨perm, by rw [h1, hs1], h2, h3⟩
  have hnodeny : ¬ (((oflag &&& O_ACCMODE) ≠ O_RDONLY ∨ (oflag &&& (O_CREAT ||| O_TRUNC)) ≠ 0) ∧
      perm.is_writable = false) := by
    rintro ⟨h1, h2⟩
    rcases hperm with h | h
    · rcases h1 with h1 | h1
      · exact h1 h.1
      · exact h1 h.2
    · rw [hpw.2 h] at h2
      cases h2
  unfold vfs_open OpenLocked
  simp only [hmain, Bool.false_eq_true, if_false]
  rw [hnorm, Result.ok_bind]
  simp only [hfind, ite_self]
  rw [hlook, Result.ok_bind]
  simp only [if_neg hnodeny]
  unfold GetFirstUnusedDescriptorLocked
  simp only [hi.2.2.1]
  rcases GetFirstUnusedDescriptor_cases s.fd_to_stream_ with ⟨hlow, htab⟩ | ⟨hret, htab, hfull⟩
  · obtain ⟨fd, tbl, hr⟩ : ∃ fd tbl, s.fd_to_stream_.GetFirstUnusedDescriptor = (fd, tbl) :=
      ⟨_, _, rfl⟩
    have hr0 := hr
    rw [hr] at hlow htab
    simp only at hlow
    have htab1 : tbl = { s.fd_to_stream_ with
        entries := fun x => if x = fd then .reserved else s.fd_to_stream_.entries x } := htab
    clear htab hr
    rw [hr0]
    simp only
    subst htab1
    simp only [if_neg (lowest_unused_nonneg_of _ fd hmin hlow)]
    cases hopen : env.handlerOpen handler fd resolved oflag cmode with
    | error e =>
      refine ⟨-1, _, rfl, Or.inr (Or.inr ⟨rfl, fd, e, hlow, hopen, rfl, ?_⟩)⟩
      funext x
      simp only [FdToFileStreamMap.RemoveFileStream]
      by_cases hx : x = fd
      · subst hx
        simp only [if_true]
        exact ((known_iff_entries _ _).1 hlow.2.2.1).symm
      · simp [hx]
    | ok ident =>
      refine ⟨fd, _, rfl, Or.inl ⟨hlow, ⟨ident, perm, hopen, ?_, hpu, hpw⟩, ?_⟩⟩
      · split
        · rw [closePreopened_nil_of_absent _ resolved (by simpa [hi.2.2.2.1] using hcache)]
          simp [FdToFileStreamMap.GetStream, FdToFileStreamMap.AddFileStream]
        · simp [FdToFileStreamMap.GetStream, FdToFileStreamMap.AddFileStream]
      · intro x hx
        split
        · rw [closePreopened_nil_of_absent _ resolved (by simpa [hi.2.2.2.1] using hcache)]
          simp [FdToFileStreamMap.AddFileStream, hx]
        · simp [FdToFileStreamMap.AddFileStream, hx]
  · rw [hret, htab]
    simp only [Int.reduceNeg, Int.reduceLT, if_true]
    exact ⟨-1, _, rfl, Or.inr (Or.inl ⟨rfl, rfl, hfull, rfl⟩)⟩

theorem Result.bind_eq_ok {α β : Type} (r : Result α) (f : α → Result β) (b : β)
    (h : r.bind f = .ok b) : ∃ a, r = .ok a ∧ f a = .ok b := by
  cases r with
  | ok a => exact ⟨a, rfl, h⟩
  | diverges => cases h
  | fatal => cases h
  | blocked => cases h

/-- C1, at a concrete input: the first `open` on a fresh VFS with `min_fd = 3` falls under
the first case of the theorem; and the scenario of the spec, `open("/a") = 3`,
`open("/b") = 4`, `close(3) = 0`, `open("/c") = 3`. -/
theorem open_returns_lowest_unused_descriptor_witness :
    (∃ ret s1, vfs_open openableEnv 1 (VirtualFileSystem.new 3 1023 false) "/a".toList
        O_RDONLY 0 = .ok (ret, s1) ∧
      ((IsLowestUnused (VirtualFileSystem.new 3 1023 false).fd_to_stream_ ret ∧
          (∃ ident perm, openableEnv.handlerOpen 1 ret "/a".toList O_RDONLY 0 = .ok ident ∧
            s1.fd_to_stream_.GetStream ret = some ⟨.handler, ident, some perm⟩ ∧
            perm.file_uid = 0 ∧
            (perm.is_writable = true ↔ IsWritableTo openableEnv 1 0 "/a".toList)) ∧
          ∀ x, x ≠ ret → s1.fd_to_stream_.entries x =
            (VirtualFileSystem.new 3 1023 false).fd_to_stream_.entries x) ∨
        (ret = -1 ∧ s1.errno = EMFILE ∧
          NoUnusedDescriptor (VirtualFileSystem.new 3 1023 false).fd_to_stream_ ∧
          s1.fd_to_stream_ = (VirtualFileSystem.new 3 1023 false).fd_to_stream_) ∨
        (ret = -1 ∧ ∃ fd e,
          IsLowestUnused (VirtualFileSystem.new 3 1023 false).fd_to_stream_ fd ∧
          openableEnv.handlerOpen 1 fd "/a".toList O_RDONLY 0 = .error e ∧ s1.errno = e ∧
          s1.fd_to_stream_.entries =
            (VirtualFileSystem.new 3 1023 false).fd_to_stream_.entries))) ∧
    ((vfs_open openableEnv 1 (VirtualFileSystem.new 3 1023 false) "/a".toList O_RDONLY 0).bind
      fun r1 => (vfs_open openableEnv 1 r1.2 "/b".toList O_RDONLY 0).bind
      fun r2 => (vfs_open openableEnv 1 (close r2.2 3).2 "/c".toList O_RDONLY 0).bind
      fun r3 => Result.ok (r1.1, r2.1, (close r2.2 3).1, r3.1)) = .ok (3, 4, 0, 3) :=
  ⟨open_returns_lowest_unused_descriptor openableEnv 1 (VirtualFileSystem.new 3 1023 false)
      "/a".toList "/a".toList O_RDONLY 0 1 0 (by decide) (by decide) (by decide) (by decide)
      rfl (Or.inl (by decide)),
    by decide⟩

/-- C1, refuted as stated, at two inputs. After `SchedulePreopen("/a")` and the run of the
preopen thread, which opened "/a" as descriptor 3, `open("/a", O_RDONLY)` returns the cached
descriptor 3, which is in use, while the lowest unused descriptor is 4. And on a fresh VFS
whose handler has no file "/a", `open("/a", O_RDONLY)` returns -1 with `ENOENT`: neither the
lowest unused descriptor nor `EMFILE`. -/
theorem open_returns_other_than_lowest_or_EMFILE :
    (∃ s1, ((SchedulePreopen openableEnv 1 (VirtualFileSystem.new 3 1023 false)
        "/a".toList).bind fun s => PerformPreopens openableEnv 1 (SetBrowserReady s)) = .ok s1 ∧
      ¬ OpenLowestOrEMFILE openableEnv 1 s1 "/a".toList O_RDONLY 0) ∧
    ¬ OpenLowestOrEMFILE noFileEnv 1 (VirtualFileSystem.new 3 1023 false) "/a".toList
      O_RDONLY 0 := by
  constructor
  · have hev : ((SchedulePreopen openableEnv 1 (VirtualFileSystem.new 3 1023 false)
        "/a".toList).bind fun s => PerformPreopens openableEnv 1 (SetBrowserReady s)).bind
        (fun s1 => (vfs_open openableEnv 1 s1 "/a".toList O_RDONLY 0).bind
          (fun r => Result.ok (r.1, s1.fd_to_stream_.IsKnownDescriptor 3))) =
        .ok (3, true) := by decide
    obtain ⟨s1, hs1, hev1⟩ := Result.bind_eq_ok _ _ _ hev
    refine ⟨s1, hs1, ?_⟩
    rintro ⟨ret, s2, h, hc⟩
    rw [h, Result.ok_bind] at hev1
    simp only [Result.ok.injEq, Prod.mk.injEq] at hev1
    rcases hc with ⟨hl, _⟩ | ⟨he, _⟩
    · have hk := hl.2.2.1
      rw [hev1.1, hev1.2] at hk
      cases hk
    · omega
  rintro ⟨ret, s1, h, hc⟩
  have hev : (vfs_open noFileEnv 1 (VirtualFileSystem.new 3 1023 false) "/a".toList
      O_RDONLY 0).bind (fun r => Result.ok (r.1, r.2.errno)) = .ok (-1, ENOENT) := by decide
  rw [h, Result.ok_bind] at hev
  simp only [Result.ok.injEq, Prod.mk.injEq] at hev
  rcases hc with ⟨hl, _⟩ | ⟨_, he⟩
  · have h3 : (3 : Int) ≤ ret := hl.1
    omega
  · rw [hev.2] at he
    exact absurd he (by decide)

/-! ## C2: reserved descriptors -/

theorem knownIffStream_iff (s : VirtualFileSystem) :
    KnownIffStream s ↔ ∀ fd, s.fd_to_stream_.entries fd ≠ .reserved := by
  unfold KnownIffStream FdToFileStreamMap.IsKnownDescriptor FdToFileStreamMap.GetStream
  constructor
  · intro h fd hr
    have := h fd
    rw [hr] at this
    simp at this
  · intro h fd
    have := h fd
    cases he : s.fd_to_stream_.entries fd with
    | unused => simp
    | reserved => exact absurd he this
    | bound st => simp

theorem GetFirstUnusedDescriptorLocked_cases (s : VirtualFileSystem)
    (hmin : 0 ≤ s.fd_to_stream_.min_file_id) :
    (∃ fd, 0 ≤ fd ∧ GetFirstUnusedDescriptorLocked s =
      (fd, { s with fd_to_stream_ := s.fd_to_stream_.reserve fd })) ∨
    GetFirstUnusedDescriptorLocked s = (-1, s) := by
  unfold GetFirstUnusedDescriptorLocked
  rcases GetFirstUnusedDescriptor_cases s.fd_to_stream_ with ⟨hlow, htab⟩ | ⟨hret, htab, _⟩
  · left
    refine ⟨s.fd_to_stream_.GetFirstUnusedDescriptor.1, ?_, ?_⟩
    · have := hlow.1
      omega
    · simp only
      rw [htab]
      rfl
  · right
    simp only
    rw [hret, htab]

theorem noReserved_same (s s1 : VirtualFileSystem) (h : NoReserved s)
    (ht : s1.fd_to_stream_ = s.fd_to_stream_) : NoReserved s1 := by
  unfold NoReserved
  rw [ht]
  exact h

theorem noReserved_add (s s1 : VirtualFileSystem) (fd : Int) (st : FileStream)
    (hmin : 0 ≤ s.fd_to_stream_.min_file_id)
    (h : ∀ x, x ≠ fd → s.fd_to_stream_.entries x ≠ .reserved)
    (ht : s1.fd_to_stream_ = s.fd_to_stream_.AddFileStream fd st) : NoReserved s1 := by
  unfold NoReserved
  rw [ht]
  refine ⟨hmin, fun x => ?_⟩
  simp only [FdToFileStreamMap.AddFileStream]
  by_cases hx : x = fd
  · simp [hx]
  · simpa [hx] using h x hx

theorem noReserved_remove (s s1 : VirtualFileSystem) (fd : Int)
    (hmin : 0 ≤ s.fd_to_stream_.min_file_id)
    (h : ∀ x, x ≠ fd → s.fd_to_stream_.entries x ≠ .reserved)
    (ht : s1.fd_to_stream_ = s.fd_to_stream_.RemoveFileStream fd) : NoReserved s1 := by
  unfold NoReserved
  rw [ht]
  refine ⟨hmin, fun x => ?_⟩
  simp only [FdToFileStreamMap.RemoveFileStream]
  by_cases hx : x = fd
  · simp [hx]
  · simpa [hx] using h x hx

theorem reserve_entries (m : FdToFileStreamMap) (fd x : Int) (hx : x ≠ fd)
    (h : ∀ y, m.entries y ≠ .reserved) : (m.reserve fd).entries x ≠ .reserved := by
  simp only [FdToFileStreamMap.reserve, if_neg hx]
  exact h x

theorem noReserved_after_add (s s1 : VirtualFileSystem) (fd : Int) (st : FileStream)
    (hinv : NoReserved s)
    (ht : s1.fd_to_stream_ = (s.fd_to_stream_.reserve fd).AddFileStream fd st) :
    NoReserved s1 :=
  noReserved_add { s with fd_to_stream_ := s.fd_to_stream_.reserve fd } s1 fd st hinv.1
    (fun x hx => reserve_entries _ fd x hx hinv.2) ht

theorem noReserved_after_remove (s s1 : VirtualFileSystem) (fd : Int)
    (hinv : NoReserved s)
    (ht : s1.fd_to_stream_ = (s.fd_to_stream_.reserve fd).RemoveFileStream fd) :
    NoReserved s1 :=
  noReserved_remove { s with fd_to_stream_ := s.fd_to_stream_.reserve fd } s1 fd hinv.1
    (fun x hx => reserve_entries _ fd x hx hinv.2) ht

theorem noReserved_CloseLocked (s : VirtualFileSystem) (fd : Int) (h : NoReserved s) :
    NoReserved (CloseLocked s fd).2 := by
  unfold CloseLocked
  split
  · exact h
  · exact noReserved_remove s _ fd h.1 (fun x _ => h.2 x) rfl

theorem noReserved_closePreopened (l : List (Str × Int)) :
    ∀ s : VirtualFileSystem, NoReserved s → NoReserved (closePreopened s l) := by
  induction l with
  | nil => intro s h; exact h
  | cons kv rest ih =>
    intro s h
    obtain ⟨k, fd⟩ := kv
    unfold closePreopened
    split
    · exact ih _ (noReserved_CloseLocked s fd h)
    · exact ih _ h

theorem noReserved_ClosePreopened (s : VirtualFileSystem) (p : Str) (h : NoReserved s) :
    NoReserved (ClosePreopenedFilesWithResolvedPathLocked s p) := by
  unfold ClosePreopenedFilesWithResolvedPathLocked
  exact noReserved_same _ _ (noReserved_closePreopened _ s h) rfl

theorem noReserved_deny (env : Env) (s : VirtualFileSystem) (p : Str) (handler : Nat)
    (h : NoReserved s) : NoReserved (DenyAccessForModifyLocked env s p handler).2 :=
  noReserved_same _ _ h (deny_modify env s p handler).2.2.2.1

theorem lookup_table (env : Env) (s : VirtualFileSystem) (p : Str)
    (hp : Option (Nat × PermissionInfo) × VirtualFileSystem)
    (h : GetFileSystemHandlerLocked env s p = .ok hp) :
    hp.2.fd_to_stream_ = s.fd_to_stream_ := by
  unfold GetFileSystemHandlerLocked at h
  split at h
  · simp only [Result.ok.injEq] at h
    rw [← h]
  · split at h
    · cases h
    · simp only [Result.ok.injEq] at h
      rw [← h]
      exact (initializeHandler_fields env s _).2.2.1

theorem noReserved_OpenLocked (env : Env) (fuel : Nat) (s : VirtualFileSystem) (p : Str)
    (oflag cmode : Nat) (u : Bool) (r : Int × VirtualFileSystem) (hinv : NoReserved s)
    (h : OpenLocked env fuel s p oflag cmode u = .ok r) : NoReserved r.2 := by
  unfold OpenLocked at h
  split at h
  · cases h
  · obtain ⟨resolved, _, h⟩ := Result.bind_eq_ok _ _ _ h
    simp only at h
    split at h
    · split at h
      · simp only [Result.ok.injEq] at h
        rw [← h]
        exact noReserved_same _ _ hinv rfl
      · cases h
    · obtain ⟨hp, hlook, h⟩ := Result.bind_eq_ok _ _ _ h
      have htab := lookup_table env s resolved hp hlook
      have hinv1 : NoReserved hp.2 := noReserved_same _ _ hinv htab
      split at h
      · simp only [Result.ok.injEq] at h
        rw [← h]
        exact noReserved_same _ _ hinv1 rfl
      · rename_i handler permission _
        split at h
        · split at h
          · split at h
            · split at h
              · simp only [Result.ok.injEq] at h
                rw [← h]
                exact noReserved_same _ _ hinv1 rfl
              · split at h
                · simp only [Result.ok.injEq] at h
                  rw [← h]
                  exact noReserved_same _ _ hinv1 rfl
                · simp only [Result.ok.injEq] at h
                  rw [← h]
                  exact noReserved_deny env _ _ _ hinv1
            · simp only [Result.ok.injEq] at h
              rw [← h]
              exact noReserved_deny env _ _ _ (noReserved_same _ _ hinv1 rfl)
          · simp only [Result.ok.injEq] at h
            rw [← h]
            exact noReserved_deny env _ _ _ hinv1
        · rcases GetFirstUnusedDescriptorLocked_cases hp.2 hinv1.1 with ⟨fd, hfd, hg⟩ | hg
          · rw [hg] at h
            simp only [if_neg (not_lt.2 hfd)] at h
            split at h
            · simp only [Result.ok.injEq] at h
              rw [← h]
              exact noReserved_after_remove hp.2 _ fd hinv1 rfl
            · simp only [Result.ok.injEq] at h
              rw [← h]
              split
              · exact noReserved_ClosePreopened _ _ (noReserved_after_add hp.2 _ fd _ hinv1 rfl)
              · exact noReserved_after_add hp.2 _ fd _ hinv1 rfl
          · rw [hg] at h
            simp only [Int.reduceNeg, Int.reduceLT, if_true, Result.ok.injEq] at h
            rw [← h]
            exact noReserved_same _ _ hinv1 rfl

theorem noReserved_DupLocked (s : VirtualFileSystem) (fd newfd : Int) (hinv : NoReserved s) :
    NoReserved (DupLocked s fd newfd).2 := by
  unfold DupLocked
  split
  · exact noReserved_same _ _ hinv rfl
  · rename_i stream _
    simp only
    by_cases hn : newfd < 0
    · simp only [if_pos hn]
      rcases GetFirstUnusedDescriptorLocked_cases s hinv.1 with ⟨x, hx, hg⟩ | hg
      · rw [hg]
        simp only [if_neg (not_lt.2 hx)]
        split
        · rename_i heq
          exfalso
          subst heq
          have : s.fd_to_stream_.entries fd ≠ .unused := by
            rename_i hs
            unfold FdToFileStreamMap.GetStream at hs
            intro hu
            rw [hu] at hs
            simp at hs
          have hr0 : (GetFirstUnusedDescriptorLocked s).1 = fd := by rw [hg]
          unfold GetFirstUnusedDescriptorLocked at hr0
          rcases GetFirstUnusedDescriptor_cases s.fd_to_stream_ with ⟨hlow, _⟩ | ⟨hret, _, _⟩
          · simp only at hr0
            rw [hr0] at hlow
            exact this ((known_iff_entries _ _).1 hlow.2.2.1)
          · simp only at hr0
            omega
        · have hc : (CloseLocked { s with fd_to_stream_ := s.fd_to_stream_.reserve x } x).2 =
              { s with fd_to_stream_ := s.fd_to_stream_.reserve x } := by
            unfold CloseLocked
            simp [FdToFileStreamMap.GetStream, FdToFileStreamMap.reserve]
          rw [hc]
          exact noReserved_add { s with fd_to_stream_ := s.fd_to_stream_.reserve x }
            _ x _ hinv.1 (fun y hy => reserve_entries _ x y hy hinv.2) rfl
      · rw [hg]
        simp only [Int.reduceNeg, Int.reduceLT, if_true]
        exact noReserved_same _ _ hinv rfl
    · simp only [if_neg hn]
      split
      · exact hinv
      · have hcl := noReserved_CloseLocked s newfd hinv
        exact noReserved_add _ _ newfd _ hcl.1 (fun y _ => hcl.2 y) rfl

theorem noReserved_bind_new (s : VirtualFileSystem) (kind : StreamKind) (fd : Int)
    (hinv : NoReserved s) :
    NoReserved { (newStream { s with fd_to_stream_ := s.fd_to_stream_.reserve fd } kind).2 with
      fd_to_stream_ :=
        (newStream { s with fd_to_stream_ := s.fd_to_stream_.reserve fd } kind).2.fd_to_stream_.AddFileStream
          fd (newStream { s with fd_to_stream_ := s.fd_to_stream_.reserve fd } kind).1 } :=
  noReserved_add { s with fd_to_stream_ := s.fd_to_stream_.reserve fd } _ fd _ hinv.1
    (fun y hy => reserve_entries _ fd y hy hinv.2) rfl

theorem noReserved_epoll_create1 (s : VirtualFileSystem) (flags : Nat) (hinv : NoReserved s) :
    NoReserved (epoll_create1 s flags).2 := by
  unfold epoll_create1
  rcases GetFirstUnusedDescriptorLocked_cases s hinv.1 with ⟨x, hx, hg⟩ | hg
  · rw [hg]
    simp only [if_neg (not_lt.2 hx)]
    exact noReserved_bind_new s .epoll x hinv
  · rw [hg]
    simp only [Int.reduceNeg, Int.reduceLT, if_true]
    exact noReserved_same _ _ hinv rfl

theorem noReserved_socket (s : VirtualFileSystem) (f t p : Nat) (hinv : NoReserved s) :
    NoReserved (socket s f t p).2 := by
  unfold socket
  rcases GetFirstUnusedDescriptorLocked_cases s hinv.1 with ⟨x, hx, hg⟩ | hg
  · rw [hg]
    simp only [if_neg (not_lt.2 hx)]
    split
    · exact noReserved_remove { s with fd_to_stream_ := s.fd_to_stream_.reserve x } _ x hinv.1
        (fun y hy => reserve_entries _ x y hy hinv.2) rfl
    · exact noReserved_bind_new s _ x hinv
  · rw [hg]
    simp only [Int.reduceNeg, Int.reduceLT, if_true]
    exact noReserved_same _ _ hinv rfl

theorem noReserved_newPair (s : VirtualFileSystem) (k1 k2 : StreamKind) (hinv : NoReserved s) :
    NoReserved (newPair s k1 k2).2.2 := by
  unfold newPair
  rcases GetFirstUnusedDescriptorLocked_cases s hinv.1 with ⟨x, hx, hg⟩ | hg
  · rw [hg]
    simp only [if_neg (not_lt.2 hx)]
    rcases GetFirstUnusedDescriptorLocked_cases
        { s with fd_to_stream_ := s.fd_to_stream_.reserve x } hinv.1 with ⟨y, hy, hg2⟩ | hg2
    · rw [hg2]
      simp only [if_neg (not_lt.2 hy)]
      refine ⟨hinv.1, fun z => ?_⟩
      simp only [newStream, FdToFileStreamMap.AddFileStream, FdToFileStreamMap.reserve]
      split_ifs <;> first | exact hinv.2 z | simp
    · rw [hg2]
      simp only [Int.reduceNeg, Int.reduceLT, if_true]
      exact noReserved_remove { s with fd_to_stream_ := s.fd_to_stream_.reserve x } _ x hinv.1
        (fun y hy => reserve_entries _ x y hy hinv.2) rfl
  · rw [hg]
    simp only [Int.reduceNeg, Int.reduceLT, if_true]
    exact noReserved_same _ _ hinv rfl

/-- The sibling paths keep the invariant of section 3: every operation among `open`, `close`,
`dup`, `dup2`, `socket`, `socketpair`, `pipe2` and `epoll_create1`, on its failing paths too,
returns with no descriptor reserved without a stream when it was called in such a state. -/
theorem other_operations_leave_no_reserved_descriptor (env : Env) (fuel : Nat)
    (s s1 : VirtualFileSystem) (op : FdOp) (hinv : NoReserved s)
    (hop : ∀ fd, op ≠ FdOp.debug_write fd) (h : op.run env fuel s = .ok s1) :
    NoReserved s1 ∧ KnownIffStream s1 := by
  have key : NoReserved s1 := by
    cases op with
    | «open» pathname oflag cmode =>
      simp only [FdOp.run, vfs_open] at h
      obtain ⟨r, hr, h⟩ := Result.bind_eq_ok _ _ _ h
      simp only [Result.ok.injEq] at h
      rw [← h]
      exact noReserved_OpenLocked env fuel s pathname oflag cmode true r hinv hr
    | close fd =>
      simp only [FdOp.run, Result.ok.injEq] at h
      rw [← h]
      unfold close
      simp only
      split
      · exact noReserved_same _ _ (noReserved_CloseLocked s fd hinv) rfl
      · exact noReserved_CloseLocked s fd hinv
    | dup fd =>
      simp only [FdOp.run, Result.ok.injEq] at h
      rw [← h]
      exact noReserved_DupLocked s fd (-1) hinv
    | dup2 fd newfd =>
      simp only [FdOp.run, Result.ok.injEq] at h
      rw [← h]
      exact noReserved_DupLocked s fd newfd hinv
    | socket f t p =>
      simp only [FdOp.run, Result.ok.injEq] at h
      rw [← h]
      exact noReserved_socket s f t p hinv
    | socketpair f t p n =>
      simp only [FdOp.run, Result.ok.injEq] at h
      rw [← h]
      unfold socketpair
      split
      · exact noReserved_same _ _ hinv rfl
      · split
        · exact noReserved_same _ _ hinv rfl
        · split
          · exact noReserved_same _ _ hinv rfl
          · split
            · exact noReserved_same _ _ hinv rfl
            · exact noReserved_newPair s _ _ hinv
    | pipe2 flags =>
      simp only [FdOp.run, Result.ok.injEq] at h
      rw [← h]
      exact noReserved_newPair s _ _ hinv
    | epoll_create1 flags =>
      simp only [FdOp.run, Result.ok.injEq] at h
      rw [← h]
      exact noReserved_epoll_create1 s flags hinv
    | debug_write fd => exact absurd rfl (hop fd)
    | set_browser_ready =>
      simp only [FdOp.run, Result.ok.injEq] at h
      rw [← h]
      exact noReserved_same _ _ hinv rfl
  exact ⟨key, (knownIffStream_iff s1).2 key.2⟩


/-- C2, the failing input evaluated. On a VFS built with `save_logs_to_file`, the invariant
holds at the start; after `SetBrowserReady` and one debug write to stdout, during which the
handler's `open` of "/data/arc_stdout.txt" fails, the descriptor 3 is known to the table and
has no stream: `DebugWriteLocked` returns without `RemoveFileStream`. -/
theorem debug_write_leaves_reserved_descriptor :
    KnownIffStream (VirtualFileSystem.new 3 1023 true) ∧
    ∃ s1 s2,
      FdOp.set_browser_ready.run noFileEnv 1 (VirtualFileSystem.new 3 1023 true) = .ok s1 ∧
      (FdOp.debug_write STDOUT_FILENO).run noFileEnv 1 s1 = .ok s2 ∧
      s2.fd_to_stream_.IsKnownDescriptor 3 = true ∧
      s2.fd_to_stream_.GetStream 3 = none ∧
      ¬ KnownIffStream s2 := by
  constructor
  · intro fd
    simp [VirtualFileSystem.new, FdToFileStreamMap.IsKnownDescriptor,
      FdToFileStreamMap.GetStream]
  · have hev : ((FdOp.debug_write STDOUT_FILENO).run noFileEnv 1
        (SetBrowserReady (VirtualFileSystem.new 3 1023 true))).bind
        (fun s2 => Result.ok (s2.fd_to_stream_.IsKnownDescriptor 3,
          s2.fd_to_stream_.GetStream 3)) = .ok (true, none) := by decide
    obtain ⟨s2, h2, hf⟩ := Result.bind_eq_ok _ _ _ hev
    simp only [Result.ok.injEq, Prod.mk.injEq] at hf
    refine ⟨_, s2, rfl, h2, hf.1, hf.2, ?_⟩
    intro hinv
    have := (hinv 3).1 hf.1
    rw [hf.2] at this
    simp at this

/-! ## C15 and C16: the inode table -/

theorem freshNumbers_consecutive (ops : List InodeOp) :
    ∀ s : VirtualFileSystem, s.next_inode_ + ops.length < 2 ^ kInodeBits →
      freshNumbers ops s = List.range' s.next_inode_ (freshNumbers ops s).length := by
  induction ops with
  | nil => intro s _; simp [freshNumbers]
  | cons op ops ih =>
    intro s hb
    simp only [List.length_cons] at hb
    cases op with
    | lookup path =>
      cases hp : s.inodes_ path with
      | some n =>
        have hrun : InodeOp.run s (.lookup path) = s := by
          simp [InodeOp.run, GetInodeUncheckedLocked, hp]
        simp only [freshNumbers, hp, hrun]
        exact ih s (by omega)
      | none =>
        have hnext : (InodeOp.run s (.lookup path)).next_inode_ = s.next_inode_ + 1 := by
          simp only [InodeOp.run, GetInodeUncheckedLocked, hp]
          exact Nat.mod_eq_of_lt (by omega)
        have hret : (GetInodeUncheckedLocked s path).1 = s.next_inode_ := by
          simp [GetInodeUncheckedLocked, hp]
        have := ih (InodeOp.run s (.lookup path)) (by rw [hnext]; omega)
        simp only [freshNumbers, hp, hret, List.length_cons, List.range'_succ]
        rw [hnext] at this
        rw [← this]
    | remove path =>
      have hnext : (InodeOp.run s (.remove path)).next_inode_ = s.next_inode_ := rfl
      have := ih (InodeOp.run s (.remove path)) (by rw [hnext]; omega)
      simp only [freshNumbers]
      rw [hnext] at this
      exact this
    | reassign a b =>
      have hnext : (InodeOp.run s (.reassign a b)).next_inode_ = s.next_inode_ := by
        simp only [InodeOp.run, ReassignInodeLocked]
        split <;> rfl
      have := ih (InodeOp.run s (.reassign a b)) (by rw [hnext]; omega)
      simp only [freshNumbers]
      rw [hnext] at this
      exact this

/-- C15. Inode numbers come from a counter seeded at 128. On a fresh VFS the first path
looked up gets 128. Along every sequence of lookups, `RemoveInodeLocked` and
`ReassignInodeLocked` calls that keeps the counter below the width of `ino_t`, the numbers
returned for paths that are not in the table are consecutive, starting at the counter: each
is one more than the one assigned before, whatever calls come in between. `RemoveInodeLocked`
and `ReassignInodeLocked` leave the counter alone, and a lookup of a path that is in the
table returns the stored number and changes nothing. -/
theorem inode_numbers_from_counter (s : VirtualFileSystem) (ops : List InodeOp)
    (hbound : s.next_inode_ + ops.length < 2 ^ kInodeBits) :
    (∀ (min_fd max_fd : Int) (logs : Bool) (p : Str),
      (GetInodeUncheckedLocked (VirtualFileSystem.new min_fd max_fd logs) p).1 = 128) ∧
    freshNumbers ops s = List.range' s.next_inode_ (freshNumbers ops s).length ∧
    (∀ p, s.inodes_ p = none → s.next_inode_ + 1 < 2 ^ kInodeBits →
      (GetInodeUncheckedLocked s p).1 = s.next_inode_ ∧
      (GetInodeUncheckedLocked s p).2.next_inode_ = s.next_inode_ + 1 ∧
      (GetInodeUncheckedLocked s p).2.inodes_ p = some s.next_inode_) ∧
    (∀ p, (RemoveInodeLocked s p).next_inode_ = s.next_inode_) ∧
    (∀ a b, (ReassignInodeLocked s a b).next_inode_ = s.next_inode_) ∧
    (∀ p n, s.inodes_ p = some n → GetInodeUncheckedLocked s p = (n, s)) := by
  refine ⟨?_, freshNumbers_consecutive ops s hbound, ?_, fun _ => rfl, ?_, ?_⟩
  · intro min_fd max_fd logs p
    rfl
  · intro p hp hb
    simp only [GetInodeUncheckedLocked, hp, if_true, true_and]
    exact ⟨Nat.mod_eq_of_lt hb, trivial⟩
  · intro a b
    simp only [ReassignInodeLocked]
    split <;> rfl
  · intro p n hp
    simp [GetInodeUncheckedLocked, hp]

/-- C15, at a concrete input: on a fresh VFS, lookups of "/a" and "/b", the removal of "/a",
a lookup of "/a", the renaming of "/b" to "/c", and lookups of "/b" and "/c" assign 128,
129, 130 and 131 (the last lookup finds the number 129 of "/c" in the table). -/
theorem inode_numbers_from_counter_witness :
    freshNumbers [.lookup "/a".toList, .lookup "/b".toList, .remove "/a".toList,
        .lookup "/a".toList, .reassign "/b".toList "/c".toList, .lookup "/b".toList,
        .lookup "/c".toList] (VirtualFileSystem.new 3 1023 false) = [128, 129, 130, 131] ∧
    freshNumbers [.lookup "/a".toList, .lookup "/b".toList, .remove "/a".toList,
        .lookup "/a".toList, .reassign "/b".toList "/c".toList, .lookup "/b".toList,
        .lookup "/c".toList] (VirtualFileSystem.new 3 1023 false) =
      List.range' (VirtualFileSystem.new 3 1023 false).next_inode_
        (freshNumbers [.lookup "/a".toList, .lookup "/b".toList, .remove "/a".toList,
          .lookup "/a".toList, .reassign "/b".toList "/c".toList, .lookup "/b".toList,
          .lookup "/c".toList] (VirtualFileSystem.new 3 1023 false)).length :=
  ⟨by decide,
    (inode_numbers_from_counter (VirtualFileSystem.new 3 1023 false)
      [.lookup "/a".toList, .lookup "/b".toList, .remove "/a".toList,
        .lookup "/a".toList, .reassign "/b".toList "/c".toList, .lookup "/b".toList,
        .lookup "/c".toList] (by decide)).2.1⟩

/-- C16. On rename the inode follows the new name. For distinct paths `a` and `b`, in a
state whose stored numbers are below the counter: if `a` has the inode `i`, then after
`ReassignInodeLocked(a, b)` a lookup of `b` returns `i` and assigns nothing, `a` is not in
the table and its next lookup returns the counter, a number different from `i`; if `a` has no
inode, then `b` is not in the table afterwards and its next lookup returns the counter. The
entries of all other paths are unchanged. -/
theorem inode_follows_rename (s : VirtualFileSystem) (a b : Str) (hab : a ≠ b)
    (hinv : InodesBelowCounter s) :
    (∀ i, s.inodes_ a = some i →
      GetInodeUncheckedLocked (ReassignInodeLocked s a b) b = (i, ReassignInodeLocked s a b) ∧
      (ReassignInodeLocked s a b).inodes_ a = none ∧
      (GetInodeUncheckedLocked (ReassignInodeLocked s a b) a).1 = s.next_inode_ ∧
      s.next_inode_ ≠ i) ∧
    (s.inodes_ a = none →
      (ReassignInodeLocked s a b).inodes_ b = none ∧
      (ReassignInodeLocked s a b).inodes_ a = none ∧
      (GetInodeUncheckedLocked (ReassignInodeLocked s a b) b).1 = s.next_inode_) ∧
    (∀ p, p ≠ a → p ≠ b → (ReassignInodeLocked s a b).inodes_ p = s.inodes_ p) := by
  have hba : b ≠ a := fun e => hab e.symm
  refine ⟨?_, ?_, ?_⟩
  · intro i hi
    have hb : (ReassignInodeLocked s a b).inodes_ b = some i := by
      simp [ReassignInodeLocked, hi, hba]
    have ha : (ReassignInodeLocked s a b).inodes_ a = none := by
      simp [ReassignInodeLocked, hi]
    have hn : (ReassignInodeLocked s a b).next_inode_ = s.next_inode_ := by
      simp [ReassignInodeLocked, hi]
    refine ⟨?_, ha, ?_, ?_⟩
    · simp [GetInodeUncheckedLocked, hb]
    · simp [GetInodeUncheckedLocked, ha, hn]
    · have := hinv a i hi
      omega
  · intro ha
    have hb : (ReassignInodeLocked s a b).inodes_ b = none := by
      simp [ReassignInodeLocked, ha]
    have ha2 : (ReassignInodeLocked s a b).inodes_ a = none := by
      simp [ReassignInodeLocked, ha, hab]
    have hn : (ReassignInodeLocked s a b).next_inode_ = s.next_inode_ := by
      simp [ReassignInodeLocked, ha]
    exact ⟨hb, ha2, by simp [GetInodeUncheckedLocked, hb, hn]⟩
  · intro p hpa hpb
    simp only [ReassignInodeLocked]
    split <;> simp [hpa, hpb]

/-- C16, at a concrete input: "/a" is looked up on a fresh VFS (inode 128) and renamed to
"/b": "/b" then has 128 and "/a" gets 129. -/
theorem inode_follows_rename_witness :
    GetInodeUncheckedLocked (ReassignInodeLocked
        (GetInodeUncheckedLocked (VirtualFileSystem.new 3 1023 false) "/a".toList).2
        "/a".toList "/b".toList) "/b".toList =
      (128, ReassignInodeLocked
        (GetInodeUncheckedLocked (VirtualFileSystem.new 3 1023 false) "/a".toList).2
        "/a".toList "/b".toList) ∧
    (GetInodeUncheckedLocked (ReassignInodeLocked
        (GetInodeUncheckedLocked (VirtualFileSystem.new 3 1023 false) "/a".toList).2
        "/a".toList "/b".toList) "/a".toList).1 = 129 :=
  have h := (inode_follows_rename
    (GetInodeUncheckedLocked (VirtualFileSystem.new 3 1023 false) "/a".toList).2
    "/a".toList "/b".toList (by decide)
    (by
      intro p n hp
      simp only [GetInodeUncheckedLocked, VirtualFileSystem.new] at hp ⊢
      split at hp
      · simp only [Option.some.injEq] at hp
        subst hp
        decide
      · cases hp)).1 128 (by decide)
  ⟨h.1, h.2.2.1⟩

theorem inodesBelowCounter_new (min_fd max_fd : Int) (logs : Bool) :
    InodesBelowCounter (VirtualFileSystem.new min_fd max_fd logs) := by
  intro p n hp
  simp [VirtualFileSystem.new] at hp

theorem inodesBelowCounter_run (s : VirtualFileSystem) (op : InodeOp)
    (hinv : InodesBelowCounter s) (hb : s.next_inode_ + 1 < 2 ^ kInodeBits) :
    InodesBelowCounter (op.run s) := by
  intro p n hp
  cases op with
  | lookup path =>
    simp only [InodeOp.run, GetInodeUncheckedLocked] at hp ⊢
    split at hp
    · rename_i ino hino
      simp only [hino]
      exact hinv p n hp
    · rename_i hino
      simp only [hino]
      rw [Nat.mod_eq_of_lt hb]
      simp only at hp
      split at hp
      · simp only [Option.some.injEq] at hp
        omega
      · have := hinv p n hp
        omega
  | remove path =>
    simp only [InodeOp.run, RemoveInodeLocked] at hp ⊢
    split at hp
    · cases hp
    · exact hinv p n hp
  | reassign a b =>
    simp only [InodeOp.run, ReassignInodeLocked] at hp ⊢
    split at hp
    · simp only at hp ⊢
      split at hp
      · cases hp
      · exact hinv p n hp
    · rename_i ino hino
      simp only at hp ⊢
      split at hp
      · cases hp
      · split at hp
        · simp only [Option.some.injEq] at hp
          subst hp
          exact hinv a _ hino
        · exact hinv p n hp

/-! ## C14: `dup` on a reserved descriptor -/

/-- C14, as amended. `dup` on a descriptor that is reserved in the table without a stream
fails: it returns -1 with `EBADF`, and the descriptor table is unchanged (no descriptor is
allocated). It is `fcntl` that tolerates such a descriptor and returns 0. -/
theorem dup_of_reserved_descriptor_fails (s : VirtualFileSystem) (fd : Int)
    (hres : s.fd_to_stream_.entries fd = .reserved) :
    s.fd_to_stream_.IsKnownDescriptor fd = true ∧
    dup s fd = (-1, { s with errno := EBADF }) ∧
    (dup s fd).2.fd_to_stream_ = s.fd_to_stream_ ∧
    ∀ streamFcntl cmd, fcntl streamFcntl s fd cmd = (0, s) := by
  have hk : s.fd_to_stream_.IsKnownDescriptor fd = true := by
    simp [FdToFileStreamMap.IsKnownDescriptor, hres]
  have hg : s.fd_to_stream_.GetStream fd = none := by
    simp [FdToFileStreamMap.GetStream, hres]
  have hd : dup s fd = (-1, { s with errno := EBADF }) := by
    simp [dup, DupLocked, hg]
  refine ⟨hk, hd, by rw [hd], ?_⟩
  intro streamFcntl cmd
  simp [fcntl, hg, hk]

/-- C14, at a concrete input: descriptor 3 reserved on a fresh VFS with `min_fd = 3`. -/
theorem dup_of_reserved_descriptor_fails_witness :
    (dup (GetFirstUnusedDescriptorLocked (VirtualFileSystem.new 3 1023 false)).2 3).1 = -1 ∧
    (dup (GetFirstUnusedDescriptorLocked (VirtualFileSystem.new 3 1023 false)).2 3).2.errno
      = EBADF := by
  have h := (dup_of_reserved_descriptor_fails
    (GetFirstUnusedDescriptorLocked (VirtualFileSystem.new 3 1023 false)).2 3 (by decide)).2.1
  rw [h]
  exact ⟨rfl, rfl⟩

/-- C14, refuted as stated: after `GetFirstUnusedDescriptorLocked` has reserved descriptor 3
on a fresh VFS (it is known to the table and has no stream), `dup(3)` does not succeed: it
returns -1 with `EBADF`. -/
theorem dup_of_reserved_descriptor_is_refused :
    (GetFirstUnusedDescriptorLocked (VirtualFileSystem.new 3 1023 false)).1 = 3 ∧
    (GetFirstUnusedDescriptorLocked
      (VirtualFileSystem.new 3 1023 false)).2.fd_to_stream_.IsKnownDescriptor 3 = true ∧
    (GetFirstUnusedDescriptorLocked
      (VirtualFileSystem.new 3 1023 false)).2.fd_to_stream_.GetStream 3 = none ∧
    ¬ DupAllowed (GetFirstUnusedDescriptorLocked (VirtualFileSystem.new 3 1023 false)).2 3 := by
  refine ⟨by decide, by decide, by decide, ?_⟩
  unfold DupAllowed
  decide

/-! ## C18: flag words eligible for preopen -/

theorem land_eq_zero_of_sub (x m k : Nat) (h : x &&& m = 0) (hk : m &&& k = k) :
    x &&& k = 0 := by
  rw [← hk, ← Nat.and_assoc, h, Nat.zero_and]

/-- C18, as amended. A flag word is eligible for preopen exactly when its access mode is
`O_RDONLY` and, apart from the access mode, it carries no flag other than `O_LARGEFILE` and
`O_CLOEXEC`. `O_RDONLY` with any of the two flags is eligible; `O_WRONLY` and `O_RDWR` are
not. -/
theorem eligible_for_preopen_iff (oflag : Nat) :
    (IsEligibleForPreopen oflag = true ↔
      ((oflag &&& O_ACCMODE) = O_RDONLY ∧ OnlyPreopenFlagsBesideAccessMode oflag)) ∧
    IsEligibleForPreopen O_RDONLY = true ∧
    IsEligibleForPreopen (O_RDONLY ||| O_LARGEFILE) = true ∧
    IsEligibleForPreopen (O_RDONLY ||| O_CLOEXEC) = true ∧
    IsEligibleForPreopen (O_RDONLY ||| O_LARGEFILE ||| O_CLOEXEC) = true ∧
    IsEligibleForPreopen O_WRONLY = false ∧
    IsEligibleForPreopen O_RDWR = false := by
  refine ⟨?_, by decide, by decide, by decide, by decide, by decide, by decide⟩
  unfold IsEligibleForPreopen OnlyPreopenFlagsBesideAccessMode
  rw [beq_iff_eq]
  constructor
  · intro h
    exact ⟨land_eq_zero_of_sub oflag _ O_ACCMODE h (by decide),
      land_eq_zero_of_sub oflag _ _ h (by decide)⟩
  · rintro ⟨h1, h2⟩
    have hm : (0xFFFFFFFF ^^^ (O_LARGEFILE ||| O_CLOEXEC)) =
        O_ACCMODE ||| (0xFFFFFFFF ^^^ (O_ACCMODE ||| O_LARGEFILE ||| O_CLOEXEC)) := by decide
    rw [hm, Nat.and_or_distrib_left, h2]
    have h3 : oflag &&& O_ACCMODE = 0 := h1
    rw [h3]
    rfl

/-- C18, refuted as stated: `O_WRONLY` and `O_RDWR` carry no flag beside the access mode,
and they are not eligible for preopen. -/
theorem write_access_modes_are_not_eligible :
    ¬ (IsEligibleForPreopen O_WRONLY = true ↔ OnlyPreopenFlagsBesideAccessMode O_WRONLY) ∧
    ¬ (IsEligibleForPreopen O_RDWR = true ↔ OnlyPreopenFlagsBesideAccessMode O_RDWR) := by
  decide

/-! ## C11 and C12: `open` with `O_CREAT` on a path that is not writable -/

theorem not_eligible_of_creat (oflag : Nat) (h : (oflag &&& O_CREAT) ≠ 0) :
    IsEligibleForPreopen oflag = false := by
  cases he : IsEligibleForPreopen oflag with
  | false => rfl
  | true =>
    exfalso
    unfold IsEligibleForPreopen at he
    rw [beq_iff_eq] at he
    exact h (land_eq_zero_of_sub oflag _ O_CREAT he (by decide))

theorem creat_or_trunc_of_creat (oflag : Nat) (h : (oflag &&& O_CREAT) ≠ 0) :
    (oflag &&& (O_CREAT ||| O_TRUNC)) ≠ 0 :=
  fun h0 => h (land_eq_zero_of_sub oflag _ O_CREAT h0 (by decide))

theorem open_create_denied (env : Env) (fuel : Nat) (s : VirtualFileSystem)
    (pathname resolved : Str) (oflag cmode handler owner : Nat)
    (hmain : env.IsMainThread = false)
    (hnorm : GetNormalizedPathLocked env s.cwd fuel pathname .kResolveSymlinks = .ok resolved)
    (hm : env.GetFileSystemHandler resolved = some (handler, owner))
    (hw : ¬ IsWritableTo env handler owner resolved)
    (hcreat : (oflag &&& O_CREAT) ≠ 0) :
    ∃ s1, vfs_open env fuel s pathname oflag cmode = .ok (-1, s1) ∧
      s1.fd_to_stream_ = s.fd_to_stream_ ∧
      s1.handler_calls = s.handler_calls ∧
      s1.preopened_fds_ = s.preopened_fds_ ∧
      s1.errno =
        (match env.stat handler resolved with
        | .ok st_mode =>
          if S_ISDIR st_mode = true then EISDIR
          else if (oflag &&& O_EXCL) ≠ 0 then EEXIST
          else denyErrno env handler (GetDirNameInPlace resolved)
        | .error _ => denyErrno env handler (GetDirNameInPlace resolved)) := by
  have hi := initializeHandler_fields env s handler
  have hlook := lookup_not_writable env s resolved handler owner hmain hm hw
  have hct := creat_or_trunc_of_creat oflag hcreat
  unfold vfs_open OpenLocked
  simp only [hmain, Bool.false_eq_true, if_false]
  rw [hnorm, Result.ok_bind]
  simp only [not_eligible_of_creat oflag hcreat, Bool.false_eq_true, and_false, if_false]
  rw [hlook, Result.ok_bind]
  simp only [ne_eq, hct, not_false_eq_true, or_true, and_self, if_true, hcreat]
  cases hstat : env.stat handler resolved with
  | error e =>
    simp only
    have hd := deny_modify env { initializeHandler env s handler with errno := e }
      (GetDirNameInPlace resolved) handler
    refine ⟨_, ?_, hd.2.2.2.1.trans hi.2.2.1, hd.2.2.1.trans hi.1,
      hd.2.2.2.2.trans hi.2.2.2.1, hd.2.1⟩
    unfold DenyAccessForCreateLocked
    congr 1
    exact Prod.ext hd.1 rfl
  | ok st_mode =>
    simp only
    by_cases hdir : S_ISDIR st_mode = true
    · simp only [hdir, if_true]
      exact ⟨_, rfl, hi.2.2.1, hi.1, hi.2.2.2.1, rfl⟩
    · simp only [hdir, Bool.false_eq_true, if_false]
      by_cases hex : (oflag &&& O_EXCL) = 0
      · simp only [hex, not_true_eq_false, if_false]
        have hd := deny_modify env (initializeHandler env s handler)
          (GetDirNameInPlace resolved) handler
        refine ⟨_, ?_, hd.2.2.2.1.trans hi.2.2.1, hd.2.2.1.trans hi.1,
          hd.2.2.2.2.trans hi.2.2.2.1, hd.2.1⟩
        unfold DenyAccessForCreateLocked
        congr 1
        exact Prod.ext hd.1 rfl
      · simp only [hex, not_false_eq_true, if_true]
        exact ⟨_, rfl, hi.2.2.1, hi.1, hi.2.2.2.1, rfl⟩

/-- C11, as amended. For `open` with `O_CREAT` on a path that is not writable, whose target
exists (the handler's `stat` succeeds): the call returns -1 with `EISDIR` if the target is a
directory (with or without `O_EXCL`), with `EEXIST` if it is not a directory and `O_EXCL` is
set, and otherwise with the error computed for the parent directory of the target: `EACCES`
when the handler's `stat` of the parent succeeds, and the error that `stat` reports when it
fails. In all cases the descriptor table is unchanged (no descriptor is allocated) and no
handler call is logged (the handler's `open` is not called). -/
theorem open_create_on_existing_read_only_target (env : Env) (fuel : Nat)
    (s : VirtualFileSystem) (pathname resolved : Str)
    (oflag cmode handler owner st_mode : Nat)
    (hmain : env.IsMainThread = false)
    (hnorm : GetNormalizedPathLocked env s.cwd fuel pathname .kResolveSymlinks = .ok resolved)
    (hm : env.GetFileSystemHandler resolved = some (handler, owner))
    (hw : ¬ IsWritableTo env handler owner resolved)
    (hcreat : (oflag &&& O_CREAT) ≠ 0)
    (hstat : env.stat handler resolved = .ok st_mode) :
    ∃ s1, vfs_open env fuel s pathname oflag cmode = .ok (-1, s1) ∧
      s1.fd_to_stream_ = s.fd_to_stream_ ∧
      s1.handler_calls = s.handler_calls ∧
      (S_ISDIR st_mode = true → s1.errno = EISDIR) ∧
      (S_ISDIR st_mode = false → (oflag &&& O_EXCL) ≠ 0 → s1.errno = EEXIST) ∧
      (S_ISDIR st_mode = false → (oflag &&& O_EXCL) = 0 →
        s1.errno = denyErrno env handler (GetDirNameInPlace resolved) ∧
        ((∃ st, env.stat handler (GetDirNameInPlace resolved) = .ok st) →
          s1.errno = EACCES) ∧
        (∀ e, env.stat handler (GetDirNameInPlace resolved) = .error e → s1.errno = e)) := by
  obtain ⟨s1, h1, h2, h3, _, h5⟩ := open_create_denied env fuel s pathname resolved oflag
    cmode handler owner hmain hnorm hm hw hcreat
  rw [hstat] at h5
  simp only at h5
  refine ⟨s1, h1, h2, h3, ?_, ?_, ?_⟩
  · intro hd
    rw [h5, if_pos hd]
  · intro hd hx
    rw [h5, if_neg (by simp [hd]), if_pos hx]
  · intro hd hx
    have h6 : s1.errno = denyErrno env handler (GetDirNameInPlace resolved) := by
      rw [h5, if_neg (by simp [hd]), if_neg (by simp [hx])]
    refine ⟨h6, ?_, ?_⟩
    · rintro ⟨st, hst⟩
      rw [h6, denyErrno, hst]
    · intro e he
      rw [h6, denyErrno, he]

/-- C11, at a concrete input: an app opens "/ro/f" with `O_WRONLY | O_CREAT` on a root-owned
mount where "/ro/f" is a regular file in the directory "/ro": -1 with `EACCES`. -/
theorem open_create_on_existing_read_only_target_witness :
    ∃ s1, vfs_open existingFileEnv 1 (VirtualFileSystem.new 3 1023 false) "/ro/f".toList
        (O_WRONLY ||| O_CREAT) 0 = .ok (-1, s1) ∧
      s1.handler_calls = [] ∧ s1.errno = EACCES := by
  obtain ⟨s1, h1, _, h3, _, _, h6⟩ :=
    open_create_on_existing_read_only_target existingFileEnv 1
      (VirtualFileSystem.new 3 1023 false) "/ro/f".toList "/ro/f".toList
      (O_WRONLY ||| O_CREAT) 0 1 0 S_IFREG (by decide) (by decide) (by decide)
      (by decide) (by decide) rfl
  exact ⟨s1, h1, h3, (h6 (by decide) (by decide)).2.1 ⟨S_IFDIR, rfl⟩⟩

/-- C11, refuted as stated: an app opens "/solo/f" with `O_WRONLY | O_CREAT` on a root-owned
mount whose handler knows the regular file "/solo/f" (its `stat` succeeds) but not the
directory "/solo" (its `stat` fails with `ENOENT`). The target exists, it is not a directory
and `O_EXCL` is not set, and `errno` is `ENOENT`, not `EACCES`. -/
theorem open_create_when_parent_stat_fails :
    orphanFileEnv.stat 1 "/solo/f".toList = .ok S_IFREG ∧
    createErrnoOnExistingTarget S_IFREG (O_WRONLY ||| O_CREAT) = EACCES ∧
    (vfs_open orphanFileEnv 1 (VirtualFileSystem.new 3 1023 false) "/solo/f".toList
      (O_WRONLY ||| O_CREAT) 0).bind (fun r => Result.ok (r.1, r.2.errno)) =
        .ok (-1, ENOENT) ∧
    ¬ ∃ s1, vfs_open orphanFileEnv 1 (VirtualFileSystem.new 3 1023 false)
        "/solo/f".toList (O_WRONLY ||| O_CREAT) 0 = .ok (-1, s1) ∧
      s1.errno = createErrnoOnExistingTarget S_IFREG (O_WRONLY ||| O_CREAT) := by
  have hev : (vfs_open orphanFileEnv 1 (VirtualFileSystem.new 3 1023 false)
      "/solo/f".toList (O_WRONLY ||| O_CREAT) 0).bind
      (fun r => Result.ok (r.1, r.2.errno)) = .ok (-1, ENOENT) := by decide
  refine ⟨rfl, by decide, hev, ?_⟩
  rintro ⟨s1, h, he⟩
  rw [h, Result.ok_bind] at hev
  simp only [Result.ok.injEq, Prod.mk.injEq, true_and] at hev
  rw [hev] at he
  exact absurd he (by decide)

/-- C12, as amended. For `open` with `O_CREAT | O_EXCL` on a path that is not writable, the
call returns -1, allocating no descriptor and calling no handler `open`, with `EEXIST` when
the target exists and is not a directory, with `EISDIR` when it is a directory, and, when
the target does not exist, with the error computed for its parent directory: `EACCES` when
the handler's `stat` of the parent succeeds, and otherwise the error that `stat` reports
(`ENOENT` or `ENOTDIR`). -/
theorem open_exclusive_create_on_read_only_path (env : Env) (fuel : Nat)
    (s : VirtualFileSystem) (pathname resolved : Str) (oflag cmode handler owner : Nat)
    (hmain : env.IsMainThread = false)
    (hnorm : GetNormalizedPathLocked env s.cwd fuel pathname .kResolveSymlinks = .ok resolved)
    (hm : env.GetFileSystemHandler resolved = some (handler, owner))
    (hw : ¬ IsWritableTo env handler owner resolved)
    (hcreat : (oflag &&& O_CREAT) ≠ 0) (hexcl : (oflag &&& O_EXCL) ≠ 0) :
    ∃ s1, vfs_open env fuel s pathname oflag cmode = .ok (-1, s1) ∧
      s1.fd_to_stream_ = s.fd_to_stream_ ∧
      s1.handler_calls = s.handler_calls ∧
      (∀ st_mode, env.stat handler resolved = .ok st_mode → S_ISDIR st_mode = false →
        s1.errno = EEXIST) ∧
      (∀ st_mode, env.stat handler resolved = .ok st_mode → S_ISDIR st_mode = true →
        s1.errno = EISDIR) ∧
      (∀ e, env.stat handler resolved = .error e →
        s1.errno = denyErrno env handler (GetDirNameInPlace resolved) ∧
        ((∃ st, env.stat handler (GetDirNameInPlace resolved) = .ok st) →
          s1.errno = EACCES) ∧
        (∀ e1, env.stat handler (GetDirNameInPlace resolved) = .error e1 →
          s1.errno = e1)) := by
  obtain ⟨s1, h1, h2, h3, _, h5⟩ := open_create_denied env fuel s pathname resolved oflag
    cmode handler owner hmain hnorm hm hw hcreat
  refine ⟨s1, h1, h2, h3, ?_, ?_, ?_⟩
  · intro st_mode hst hd
    rw [hst] at h5
    simp only at h5
    rw [h5, if_neg (by simp [hd]), if_pos hexcl]
  · intro st_mode hst hd
    rw [hst] at h5
    simp only at h5
    rw [h5, if_pos hd]
  · intro e hst
    rw [hst] at h5
    simp only at h5
    refine ⟨h5, ?_, ?_⟩
    · rintro ⟨st, hp⟩
      rw [h5, denyErrno, hp]
    · intro e1 hp
      rw [h5, denyErrno, hp]

/-- C12, at a concrete input: an app opens "/ro/new" (which does not exist, in the existing
directory "/ro") with `O_WRONLY | O_CREAT | O_EXCL` on a root-owned mount: `EACCES`. -/
theorem open_exclusive_create_on_read_only_path_witness :
    ∃ s1, vfs_open existingFileEnv 1 (VirtualFileSystem.new 3 1023 false) "/ro/new".toList
        (O_WRONLY ||| O_CREAT ||| O_EXCL) 0 = .ok (-1, s1) ∧
      s1.handler_calls = [] ∧ s1.errno = EACCES := by
  obtain ⟨s1, h1, _, h3, _, _, h6⟩ :=
    open_exclusive_create_on_read_only_path existingFileEnv 1
      (VirtualFileSystem.new 3 1023 false) "/ro/new".toList "/ro/new".toList
      (O_WRONLY ||| O_CREAT ||| O_EXCL) 0 1 0 (by decide) (by decide) (by decide)
      (by decide) (by decide) (by decide)
  exact ⟨s1, h1, h3, (h6 ENOENT rfl).2.1 ⟨S_IFDIR, rfl⟩⟩

/-- C12, refuted as stated: an app opens "/missing/new" with
`O_WRONLY | O_CREAT | O_EXCL` on a root-owned mount in which the directory "/missing" does
not exist. The target does not exist, and `errno` is `ENOENT`, not `EACCES`. -/
theorem open_exclusive_create_in_missing_directory :
    exclusiveCreateErrno existingFileEnv 1 "/missing/new".toList = EACCES ∧
    (vfs_open existingFileEnv 1 (VirtualFileSystem.new 3 1023 false) "/missing/new".toList
      (O_WRONLY ||| O_CREAT ||| O_EXCL) 0).bind (fun r => Result.ok (r.1, r.2.errno)) =
        .ok (-1, ENOENT) ∧
    ¬ ∃ s1, vfs_open existingFileEnv 1 (VirtualFileSystem.new 3 1023 false)
        "/missing/new".toList (O_WRONLY ||| O_CREAT ||| O_EXCL) 0 = .ok (-1, s1) ∧
      s1.errno = exclusiveCreateErrno existingFileEnv 1 "/missing/new".toList := by
  have hev : (vfs_open existingFileEnv 1 (VirtualFileSystem.new 3 1023 false)
      "/missing/new".toList (O_WRONLY ||| O_CREAT ||| O_EXCL) 0).bind
      (fun r => Result.ok (r.1, r.2.errno)) = .ok (-1, ENOENT) := by decide
  refine ⟨by decide, hev, ?_⟩
  rintro ⟨s1, h, he⟩
  rw [h, Result.ok_bind] at hev
  simp only [Result.ok.injEq, Prod.mk.injEq, true_and] at hev
  rw [hev] at he
  exact absurd he (by decide)

/-! ## The preopen cache: C17, C19 and C20 -/

theorem find_none_of_absent (l : List (Str × Int)) (resolved : Str)
    (h : ∀ kv ∈ l, kv.1 ≠ resolved) :
    l.find? (fun kv => decide (kv.1 = resolved)) = none := by
  rw [List.find?_eq_none]
  intro kv hkv
  simpa using h kv hkv

theorem open_uncached (env : Env) (fuel : Nat) (s : VirtualFileSystem)
    (pathname resolved : Str) (oflag cmode : Nat)
    (hnorm : GetNormalizedPathLocked env s.cwd fuel pathname .kResolveSymlinks = .ok resolved)
    (hcache : IsEligibleForPreopen oflag = false ∨ ∀ kv ∈ s.preopened_fds_, kv.1 ≠ resolved) :
    vfs_open env fuel s pathname oflag cmode =
      OpenLocked env fuel s pathname oflag cmode false := by
  unfold vfs_open OpenLocked
  split
  · rfl
  · simp only [hnorm, Result.ok_bind]
    rcases hcache with h | h
    · simp only [h, Bool.false_eq_true, and_false, false_and, if_false]
    · simp only [find_none_of_absent _ _ h, ite_self]

theorem find_first_entry (l1 l2 : List (Str × Int)) (resolved : Str) (v : Int)
    (h : ∀ kv ∈ l1, kv.1 ≠ resolved) :
    (l1 ++ (resolved, v) :: l2).find? (fun kv => decide (kv.1 = resolved)) =
      some (resolved, v) ∧
    eraseFirst resolved (l1 ++ (resolved, v) :: l2) = l1 ++ l2 := by
  induction l1 with
  | nil => simp [eraseFirst]
  | cons kv rest ih =>
    have hkv : kv.1 ≠ resolved := h kv (List.mem_cons_self _ _)
    have ih1 := ih (fun x hx => h x (List.mem_cons_of_mem _ hx))
    constructor
    · rw [List.cons_append, List.find?_cons]
      simp only [hkv, decide_False]
      exact ih1.1
    · rw [List.cons_append, eraseFirst, if_neg hkv, ih1.2]
      rfl

theorem lowest_unused_unique (m : FdToFileStreamMap) (a b : Int)
    (ha : IsLowestUnused m a) (hb : IsLowestUnused m b) : a = b := by
  by_contra hne
  rcases lt_or_gt_of_ne hne with h | h
  · have := hb.2.2.2 a ha.1 h
    rw [ha.2.2.1] at this
    cases this
  · have := ha.2.2.2 b hb.1 h
    rw [hb.2.2.1] at this
    cases this

theorem GetFirstUnusedDescriptorLocked_of_full (s : VirtualFileSystem)
    (h : NoUnusedDescriptor s.fd_to_stream_) : GetFirstUnusedDescriptorLocked s = (-1, s) := by
  unfold GetFirstUnusedDescriptorLocked
  rcases GetFirstUnusedDescriptor_cases s.fd_to_stream_ with ⟨hlow, _⟩ | ⟨hret, htab, _⟩
  · have := h _ hlow.1 hlow.2.1
    rw [hlow.2.2.1] at this
    cases this
  · simp only
    rw [hret, htab]

theorem GetFirstUnusedDescriptorLocked_of_lowest (s : VirtualFileSystem) (fd : Int)
    (h : IsLowestUnused s.fd_to_stream_ fd) :
    GetFirstUnusedDescriptorLocked s =
      (fd, { s with fd_to_stream_ := s.fd_to_stream_.reserve fd }) := by
  unfold GetFirstUnusedDescriptorLocked
  rcases GetFirstUnusedDescriptor_cases s.fd_to_stream_ with ⟨hlow, htab⟩ | ⟨_, _, hfull⟩
  · have e := lowest_unused_unique _ _ _ hlow h
    simp only
    rw [htab, e]
    rfl
  · have := hfull fd h.1 h.2.1
    rw [h.2.2.1] at this
    cases this

theorem CloseLocked_spec (s : VirtualFileSystem) (fd : Int) :
    (CloseLocked s fd).2.preopened_fds_ = s.preopened_fds_ ∧
    (CloseLocked s fd).2.handler_calls = s.handler_calls ∧
    (CloseLocked s fd).2.errno = s.errno ∧
    (CloseLocked s fd).2.cwd = s.cwd ∧
    (CloseLocked s fd).2.fd_to_stream_.GetStream fd = none ∧
    (∀ x, s.fd_to_stream_.GetStream x = none →
      (CloseLocked s fd).2.fd_to_stream_.GetStream x = none) := by
  unfold CloseLocked
  cases h : s.fd_to_stream_.GetStream fd with
  | none => exact ⟨rfl, rfl, rfl, rfl, h, fun x hx => hx⟩
  | some st =>
    refine ⟨rfl, rfl, rfl, rfl, ?_, ?_⟩
    · simp [FdToFileStreamMap.GetStream, FdToFileStreamMap.RemoveFileStream]
    · intro x hx
      simp only [FdToFileStreamMap.GetStream, FdToFileStreamMap.RemoveFileStream] at hx ⊢
      by_cases hxf : x = fd
      · simp [hxf]
      · simp only [hxf, if_false]
        exact hx

theorem closePreopened_spec (l : List (Str × Int)) :
    ∀ s : VirtualFileSystem,
      (closePreopened s l).preopened_fds_ = s.preopened_fds_ ∧
      (closePreopened s l).handler_calls = s.handler_calls ∧
      (closePreopened s l).errno = s.errno ∧
      (closePreopened s l).cwd = s.cwd ∧
      (∀ kv ∈ l, 0 ≤ kv.2 → (closePreopened s l).fd_to_stream_.GetStream kv.2 = none) ∧
      (∀ x, s.fd_to_stream_.GetStream x = none →
        (closePreopened s l).fd_to_stream_.GetStream x = none) := by
  induction l with
  | nil =>
    intro s
    exact ⟨rfl, rfl, rfl, rfl, fun kv hkv => absurd hkv (List.not_mem_nil _), fun x hx => hx⟩
  | cons kv rest ih =>
    intro s
    obtain ⟨k, fd⟩ := kv
    unfold closePreopened
    by_cases hfd : 0 ≤ fd
    · rw [if_pos hfd]
      have hc := CloseLocked_spec s fd
      have hr := ih (CloseLocked s fd).2
      refine ⟨hr.1.trans hc.1, hr.2.1.trans hc.2.1, hr.2.2.1.trans hc.2.2.1,
        hr.2.2.2.1.trans hc.2.2.2.1, ?_, fun x hx => hr.2.2.2.2.2 x (hc.2.2.2.2.2 x hx)⟩
      intro kv hkv hnn
      rcases List.mem_cons.1 hkv with h | h
      · rw [h]
        exact hr.2.2.2.2.2 fd hc.2.2.2.2.1
      · exact hr.2.2.2.2.1 kv h hnn
    · rw [if_neg hfd]
      have hr := ih s
      refine ⟨hr.1, hr.2.1, hr.2.2.1, hr.2.2.2.1, ?_, hr.2.2.2.2.2⟩
      intro kv hkv hnn
      rcases List.mem_cons.1 hkv with h | h
      · rw [h] at hnn
        exact absurd hnn hfd
      · exact hr.2.2.2.2.1 kv h hnn

theorem ClosePreopened_spec (s : VirtualFileSystem) (p : Str) :
    (ClosePreopenedFilesWithResolvedPathLocked s p).preopened_fds_ =
      s.preopened_fds_.filter (fun kv => decide (kv.1 ≠ p)) ∧
    (ClosePreopenedFilesWithResolvedPathLocked s p).handler_calls = s.handler_calls ∧
    (ClosePreopenedFilesWithResolvedPathLocked s p).errno = s.errno ∧
    (ClosePreopenedFilesWithResolvedPathLocked s p).cwd = s.cwd ∧
    (∀ fd, 0 ≤ fd → (p, fd) ∈ s.preopened_fds_ →
      (ClosePreopenedFilesWithResolvedPathLocked s p).fd_to_stream_.GetStream fd = none) ∧
    (∀ x, s.fd_to_stream_.GetStream x = none →
      (ClosePreopenedFilesWithResolvedPathLocked s p).fd_to_stream_.GetStream x = none) := by
  have hr := closePreopened_spec (s.preopened_fds_.filter (fun kv => decide (kv.1 = p))) s
  unfold ClosePreopenedFilesWithResolvedPathLocked
  refine ⟨?_, hr.2.1, hr.2.2.1, hr.2.2.2.1, ?_, hr.2.2.2.2.2⟩
  · simp only [hr.1]
  · intro fd hfd hmem
    exact hr.2.2.2.2.1 (p, fd) (by simp [List.mem_filter, hmem]) hfd

theorem invalidated_single (s s1 : VirtualFileSystem) (p : Str)
    (hc : s1.preopened_fds_ = s.preopened_fds_.filter (fun kv => decide (kv.1 ≠ p)))
    (hf : ∀ fd, 0 ≤ fd → (p, fd) ∈ s.preopened_fds_ → s1.fd_to_stream_.GetStream fd = none) :
    PreopenInvalidated s s1 [p] := by
  have hfun : (fun kv : Str × Int => decide (kv.1 ∉ [p])) = fun kv => decide (kv.1 ≠ p) := by
    funext kv
    simp
  refine ⟨by rw [hc, hfun], ?_, ?_⟩
  · intro kv hkv
    rw [hc, List.mem_filter] at hkv
    simpa using hkv.2
  · intro q hq fd hfd hmem
    rw [List.mem_singleton] at hq
    subst hq
    exact hf fd hfd hmem

theorem invalidated_pair (s s1 s2 : VirtualFileSystem) (p q : Str)
    (hc1 : s1.preopened_fds_ = s.preopened_fds_.filter (fun kv => decide (kv.1 ≠ p)))
    (hf1 : ∀ fd, 0 ≤ fd → (p, fd) ∈ s.preopened_fds_ → s1.fd_to_stream_.GetStream fd = none)
    (hc2 : s2.preopened_fds_ = s1.preopened_fds_.filter (fun kv => decide (kv.1 ≠ q)))
    (hf2 : ∀ fd, 0 ≤ fd → (q, fd) ∈ s1.preopened_fds_ → s2.fd_to_stream_.GetStream fd = none)
    (hm2 : ∀ x, s1.fd_to_stream_.GetStream x = none → s2.fd_to_stream_.GetStream x = none) :
    PreopenInvalidated s s2 [p, q] := by
  have hc : s2.preopened_fds_ =
      s.preopened_fds_.filter (fun kv => decide (kv.1 ∉ [p, q])) := by
    rw [hc2, hc1, List.filter_filter]
    congr 1
    funext kv
    simp [Bool.and_comm]
  refine ⟨hc, ?_, ?_⟩
  · intro kv hkv
    rw [hc, List.mem_filter] at hkv
    simpa using hkv.2
  · intro r hr fd hfd hmem
    simp only [List.mem_cons, List.mem_singleton, List.not_mem_nil, or_false] at hr
    by_cases hrp : r = p
    · subst hrp
      exact hm2 fd (hf1 fd hfd hmem)
    · have hrq : r = q := by
        rcases hr with h | h
        · exact absurd h hrp
        · exact h
      subst hrq
      refine hf2 fd hfd ?_
      rw [hc1, List.mem_filter]
      exact ⟨hmem, by simpa using hrp⟩


theorem eligible_read_only (oflag : Nat) (h : IsEligibleForPreopen oflag = true) :
    (oflag &&& O_ACCMODE) = O_RDONLY ∧ (oflag &&& (O_CREAT ||| O_TRUNC)) = 0 := by
  unfold IsEligibleForPreopen at h
  rw [beq_iff_eq] at h
  exact ⟨land_eq_zero_of_sub oflag _ O_ACCMODE h (by decide),
    land_eq_zero_of_sub oflag _ (O_CREAT ||| O_TRUNC) h (by decide)⟩

theorem not_eligible_of_mutating (oflag : Nat)
    (h : (oflag &&& O_ACCMODE) ≠ O_RDONLY ∨ (oflag &&& (O_CREAT ||| O_TRUNC)) ≠ 0) :
    IsEligibleForPreopen oflag = false := by
  cases he : IsEligibleForPreopen oflag with
  | false => rfl
  | true =>
    exfalso
    have hr := eligible_read_only oflag he
    rcases h with h | h
    · exact h hr.1
    · exact h hr.2

theorem open_through_handler (env : Env) (fuel : Nat) (s : VirtualFileSystem)
    (pathname resolved : Str) (oflag cmode handler owner : Nat) (fd : Int)
    (hmain : env.IsMainThread = false)
    (hmin : 0 ≤ s.fd_to_stream_.min_file_id)
    (hnorm : GetNormalizedPathLocked env s.cwd fuel pathname .kResolveSymlinks = .ok resolved)
    (hm : env.GetFileSystemHandler resolved = some (handler, owner))
    (hperm : ((oflag &&& O_ACCMODE) = O_RDONLY ∧ (oflag &&& (O_CREAT ||| O_TRUNC)) = 0) ∨
      IsWritableTo env handler owner resolved)
    (hfd : IsLowestUnused s.fd_to_stream_ fd) :
    ∃ (perm : PermissionInfo) (s2 : VirtualFileSystem),
      s2.handler_calls =
        s.handler_calls ++ [HandlerCall.open handler fd resolved oflag cmode] ∧
      s2.preopened_fds_ = s.preopened_fds_ ∧
      s2.fd_to_stream_ = s.fd_to_stream_.reserve fd ∧
      OpenLocked env fuel s pathname oflag cmode false =
        (match env.handlerOpen handler fd resolved oflag cmode with
        | .error e =>
          .ok (-1, { s2 with
            fd_to_stream_ := s2.fd_to_stream_.RemoveFileStream fd
            errno := e })
        | .ok ident =>
          .ok (fd,
            if IsEligibleForPreopen oflag = false then
              ClosePreopenedFilesWithResolvedPathLocked
                { s2 with fd_to_stream_ :=
                    s2.fd_to_stream_.AddFileStream fd ⟨.handler, ident, some perm⟩ } resolved
            else
              { s2 with fd_to_stream_ :=
                  s2.fd_to_stream_.AddFileStream fd ⟨.handler, ident, some perm⟩ })) := by
  have hi := initializeHandler_fields env s handler
  obtain ⟨perm, hlook, _, hpw⟩ := lookup_permission env s resolved handler owner hmain hm
  have hnodeny : ¬ (((oflag &&& O_ACCMODE) ≠ O_RDONLY ∨ (oflag &&& (O_CREAT ||| O_TRUNC)) ≠ 0) ∧
      perm.is_writable = false) := by
    rintro ⟨h1, h2⟩
    rcases hperm with h | h
    · rcases h1 with h1 | h1
      · exact h1 h.1
      · exact h1 h.2
    · rw [hpw.2 h] at h2
      cases h2
  have hfd1 : IsLowestUnused (initializeHandler env s handler).fd_to_stream_ fd := by
    rw [hi.2.2.1]
    exact hfd
  have hg := GetFirstUnusedDescriptorLocked_of_lowest (initializeHandler env s handler) fd hfd1
  refine ⟨perm, { initializeHandler env s handler with
    fd_to_stream_ := (initializeHandler env s handler).fd_to_stream_.reserve fd
    handler_calls := (initializeHandler env s handler).handler_calls ++
      [HandlerCall.open handler fd resolved oflag cmode] }, ?_, hi.2.2.2.1, ?_, ?_⟩
  · simp only [hi.1]
  · simp only [hi.2.2.1]
  · unfold OpenLocked
    simp only [hmain, Bool.false_eq_true, if_false, false_and]
    rw [hnorm, Result.ok_bind]
    simp only [hlook, Result.ok_bind, if_neg hnodeny, hg,
      if_neg (lowest_unused_nonneg_of _ fd hmin hfd)]

/-- C17. A preopen hit is single-shot. When `open` is called with preopen-eligible flags
for a path whose normalized form `resolved` has, as its first entry in the cache, the value
`v`, not pending, `open` returns `v` and the state differs only in that this one entry is
erased: the other entries, the descriptor table and the log of handler calls are unchanged.
Once no entry of the path remains, the next `open` of the path is the open without preopen
consultation: the handler's `open` is called for the smallest unused descriptor, which is
returned with the handler's stream bound to it (or -1 with the handler's `errno`). -/
theorem preopen_hit_is_single_shot (env : Env) (fuel : Nat) (s : VirtualFileSystem)
    (pathname resolved : Str) (oflag cmode : Nat) (v : Int) (l1 l2 : List (Str × Int))
    (hmain : env.IsMainThread = false)
    (hnorm : GetNormalizedPathLocked env s.cwd fuel pathname .kResolveSymlinks = .ok resolved)
    (helig : IsEligibleForPreopen oflag = true)
    (hcache : s.preopened_fds_ = l1 ++ (resolved, v) :: l2)
    (hfirst : ∀ kv ∈ l1, kv.1 ≠ resolved)
    (hv : v ≠ kPreopenPendingFd) :
    vfs_open env fuel s pathname oflag cmode =
      .ok (v, { s with preopened_fds_ := l1 ++ l2 }) ∧
    ((∀ kv ∈ l2, kv.1 ≠ resolved) →
      vfs_open env fuel { s with preopened_fds_ := l1 ++ l2 } pathname oflag cmode =
        OpenLocked env fuel { s with preopened_fds_ := l1 ++ l2 } pathname oflag cmode false ∧
      ∀ handler owner fd, env.GetFileSystemHandler resolved = some (handler, owner) →
        0 ≤ s.fd_to_stream_.min_file_id → IsLowestUnused s.fd_to_stream_ fd →
        ∃ ret s2,
          vfs_open env fuel { s with preopened_fds_ := l1 ++ l2 } pathname oflag cmode =
            .ok (ret, s2) ∧
          s2.handler_calls =
            s.handler_calls ++ [HandlerCall.open handler fd resolved oflag cmode] ∧
          (∀ ident, env.handlerOpen handler fd resolved oflag cmode = .ok ident →
            ret = fd ∧
            ∃ perm, s2.fd_to_stream_.GetStream fd = some ⟨.handler, ident, some perm⟩) ∧
          (∀ e, env.handlerOpen handler fd resolved oflag cmode = .error e →
            ret = -1 ∧ s2.errno = e)) := by
  constructor
  · have hf := find_first_entry l1 l2 resolved v hfirst
    unfold vfs_open OpenLocked
    simp only [hmain, Bool.false_eq_true, if_false]
    rw [hnorm, Result.ok_bind]
    simp only [helig, and_self, if_true, hcache, hf.1, hf.2, ne_eq, hv, not_false_eq_true]
  · intro hl2
    have hno : ∀ kv ∈ l1 ++ l2, kv.1 ≠ resolved := by
      intro kv hkv
      rcases List.mem_append.1 hkv with h | h
      · exact hfirst kv h
      · exact hl2 kv h
    have hun := open_uncached env fuel { s with preopened_fds_ := l1 ++ l2 } pathname resolved
      oflag cmode hnorm (Or.inr hno)
    refine ⟨hun, ?_⟩
    intro handler owner fd hm hmin hfd
    obtain ⟨perm, s2, hc, _, ht, ho⟩ := open_through_handler env fuel
      { s with preopened_fds_ := l1 ++ l2 } pathname resolved oflag cmode handler owner fd
      hmain hmin hnorm hm (Or.inl (eligible_read_only oflag helig)) hfd
    rw [hun, ho]
    cases hopen : env.handlerOpen handler fd resolved oflag cmode with
    | error e =>
      refine ⟨_, _, rfl, hc, ?_, ?_⟩
      · intro ident hid
        cases hid
      · intro e1 he1
        cases he1
        exact ⟨rfl, rfl⟩
    | ok ident =>
      simp only [helig, Bool.true_eq_false, if_false]
      refine ⟨_, _, rfl, hc, ?_, ?_⟩
      · intro ident1 hid
        cases hid
        exact ⟨rfl, perm, by simp [FdToFileStreamMap.GetStream, FdToFileStreamMap.AddFileStream]⟩
      · intro e1 he1
        cases he1

/-- C17, at a concrete input, the scenario of the spec: after `SchedulePreopen("/etc/passwd")`
and the run of the preopen thread, which cached the descriptor 3, `open("/etc/passwd",
O_RDONLY)` returns 3 and empties the cache; the second `open` calls the handler for the
descriptor 4 and returns 4. -/
theorem preopen_hit_is_single_shot_witness :
    (preopenedState openableEnv "/etc/passwd".toList).preopened_fds_ =
      [("/etc/passwd".toList, 3)] ∧
    vfs_open openableEnv 1 (preopenedState openableEnv "/etc/passwd".toList)
      "/etc/passwd".toList O_RDONLY 0 =
        .ok (3, { preopenedState openableEnv "/etc/passwd".toList with
          preopened_fds_ := [] }) ∧
    ∃ s2, vfs_open openableEnv 1
        { preopenedState openableEnv "/etc/passwd".toList with preopened_fds_ := [] }
        "/etc/passwd".toList O_RDONLY 0 = .ok (4, s2) ∧
      s2.handler_calls =
        [HandlerCall.open 1 3 "/etc/passwd".toList 0 0,
         HandlerCall.open 1 4 "/etc/passwd".toList O_RDONLY 0] := by
  have hc : (preopenedState openableEnv "/etc/passwd".toList).preopened_fds_ =
      [] ++ ("/etc/passwd".toList, 3) :: [] := by decide
  have hcalls : (preopenedState openableEnv "/etc/passwd".toList).handler_calls =
      [HandlerCall.open 1 3 "/etc/passwd".toList 0 0] := by decide
  have hmin : (preopenedState openableEnv "/etc/passwd".toList).fd_to_stream_.min_file_id = 3 := by
    decide
  have hlow : IsLowestUnused (preopenedState openableEnv "/etc/passwd".toList).fd_to_stream_
      4 := by
    refine ⟨by decide, by decide, by decide, ?_⟩
    intro y h1 h2
    rw [hmin] at h1
    have hy : y = 3 := by omega
    subst hy
    decide
  have h := preopen_hit_is_single_shot openableEnv 1
    (preopenedState openableEnv "/etc/passwd".toList) "/etc/passwd".toList
    "/etc/passwd".toList O_RDONLY 0 3 [] [] (by decide) (by decide) (by decide) hc
    (by simp) (by decide)
  refine ⟨hc, h.1, ?_⟩
  obtain ⟨ret, s2, h1, h2, h3, _⟩ := (h.2 (by simp)).2 1 0 4 rfl (by decide) hlow
  have hret := (h3 104 rfl).1
  subst hret
  exact ⟨s2, h1, by rw [h2, hcalls]; rfl⟩


theorem modifyPath_invalidates (env : Env) (fuel : Nat) (s : VirtualFileSystem)
    (pathname resolved : Str) (option : NormalizeOption)
    (call : Nat → Str → HandlerCall) (method : Nat → Str → Except Nat Int)
    (handler owner : Nat)
    (hmain : env.IsMainThread = false)
    (hnorm : GetNormalizedPathLocked env s.cwd fuel pathname option = .ok resolved)
    (hm : env.GetFileSystemHandler resolved = some (handler, owner))
    (hw : IsWritableTo env handler owner resolved) :
    ∃ ret s1, modifyPath env fuel s pathname option true call method = .ok (ret, s1) ∧
      PreopenInvalidated s s1 [resolved] := by
  have hi := initializeHandler_fields env s handler
  obtain ⟨perm, hlook, _, hpw⟩ := lookup_permission env s resolved handler owner hmain hm
  have hpt : perm.is_writable = true := hpw.2 hw
  have hcl := ClosePreopened_spec (initializeHandler env s handler) resolved
  unfold modifyPath
  rw [hnorm, Result.ok_bind, hlook, Result.ok_bind]
  simp only [hpt, Bool.true_eq_false, if_false, if_true]
  cases method handler resolved with
  | ok v =>
    refine ⟨_, _, rfl, invalidated_single s _ resolved ?_ ?_⟩
    · simp only [hcl.1, hi.2.2.2.1]
    · intro fd hfd hmem
      exact hcl.2.2.2.2.1 fd hfd (by rw [hi.2.2.2.1]; exact hmem)
  | error e =>
    refine ⟨_, _, rfl, invalidated_single s _ resolved ?_ ?_⟩
    · simp only [hcl.1, hi.2.2.2.1]
    · intro fd hfd hmem
      exact hcl.2.2.2.2.1 fd hfd (by rw [hi.2.2.2.1]; exact hmem)

theorem rename_invalidates (env : Env) (fuel : Nat) (s : VirtualFileSystem)
    (oldpath newpath ro rn : Str) (handler owner_old owner_new : Nat)
    (hmain : env.IsMainThread = false)
    (hno : GetNormalizedPathLocked env s.cwd fuel oldpath .kResolveSymlinks = .ok ro)
    (hnn : GetNormalizedPathLocked env s.cwd fuel newpath .kResolveSymlinks = .ok rn)
    (hmo : env.GetFileSystemHandler ro = some (handler, owner_old))
    (hmn : env.GetFileSystemHandler rn = some (handler, owner_new))
    (hne : rn ≠ ro)
    (hwo : IsWritableTo env handler owner_old ro)
    (hwn : IsWritableTo env handler owner_new rn) :
    ∃ ret s1, rename env fuel s oldpath newpath = .ok (ret, s1) ∧
      PreopenInvalidated s s1 [ro, rn] := by
  have hi := initializeHandler_fields env s handler
  have hi2 := initializeHandler_fields env (initializeHandler env s handler) handler
  obtain ⟨po, hlo, _, hpo⟩ := lookup_permission env s ro handler owner_old hmain hmo
  obtain ⟨pn, hln, _, hpn⟩ := lookup_permission env (initializeHandler env s handler) rn
    handler owner_new hmain hmn
  have hpot : po.is_writable = true := hpo.2 hwo
  have hpnt : pn.is_writable = true := hpn.2 hwn
  generalize hs0 : initializeHandler env (initializeHandler env s handler) handler = s0
    at hi2 hln
  have hc0 : s0.preopened_fds_ = s.preopened_fds_ := hi2.2.2.2.1.trans hi.2.2.2.1
  have hc1 := ClosePreopened_spec s0 ro
  have hc2 := ClosePreopened_spec (ClosePreopenedFilesWithResolvedPathLocked s0 ro) rn
  have hinv : ∀ s2 : VirtualFileSystem,
      s2.preopened_fds_ = (ClosePreopenedFilesWithResolvedPathLocked
        (ClosePreopenedFilesWithResolvedPathLocked s0 ro) rn).preopened_fds_ →
      s2.fd_to_stream_ = (ClosePreopenedFilesWithResolvedPathLocked
        (ClosePreopenedFilesWithResolvedPathLocked s0 ro) rn).fd_to_stream_ →
      PreopenInvalidated s s2 [ro, rn] := by
    intro s2 h1 h2
    refine invalidated_pair s (ClosePreopenedFilesWithResolvedPathLocked s0 ro) s2 ro rn
      ?_ ?_ ?_ ?_ ?_
    · rw [hc1.1, hc0]
    · intro fd hfd hmem
      exact hc1.2.2.2.2.1 fd hfd (by rw [hc0]; exact hmem)
    · rw [h1, hc2.1]
    · intro fd hfd hmem
      rw [h2]
      exact hc2.2.2.2.2.1 fd hfd hmem
    · intro x hx
      rw [h2]
      exact hc2.2.2.2.2.2 x hx
  unfold rename
  rw [hno, Result.ok_bind, hlo, Result.ok_bind]
  simp only []
  rw [hnn, Result.ok_bind, hln, Result.ok_bind]
  simp only [ne_eq, not_true_eq_false, if_false, hne, hpot, hpnt, Bool.true_eq_false, or_self]
  cases env.rename handler ro rn with
  | ok v => exact ⟨_, _, rfl, hinv _ rfl rfl⟩
  | error e => exact ⟨_, _, rfl, hinv _ rfl rfl⟩

theorem open_invalidates (env : Env) (fuel : Nat) (s : VirtualFileSystem)
    (pathname resolved : Str) (oflag cmode handler owner : Nat) (fd : Int) (ident : Nat)
    (hmain : env.IsMainThread = false)
    (hmin : 0 ≤ s.fd_to_stream_.min_file_id)
    (hnorm : GetNormalizedPathLocked env s.cwd fuel pathname .kResolveSymlinks = .ok resolved)
    (hm : env.GetFileSystemHandler resolved = some (handler, owner))
    (helig : IsEligibleForPreopen oflag = false)
    (hperm : ((oflag &&& O_ACCMODE) = O_RDONLY ∧ (oflag &&& (O_CREAT ||| O_TRUNC)) = 0) ∨
      IsWritableTo env handler owner resolved)
    (hfd : IsLowestUnused s.fd_to_stream_ fd)
    (hopen : env.handlerOpen handler fd resolved oflag cmode = .ok ident) :
    ∃ s1, vfs_open env fuel s pathname oflag cmode = .ok (fd, s1) ∧
      PreopenInvalidated s s1 [resolved] := by
  obtain ⟨perm, s2, _, hc, _, ho⟩ := open_through_handler env fuel s pathname resolved oflag
    cmode handler owner fd hmain hmin hnorm hm hperm hfd
  rw [open_uncached env fuel s pathname resolved oflag cmode hnorm (Or.inl helig), ho, hopen]
  simp only [helig, if_true]
  have hcl := ClosePreopened_spec
    ({ s2 with
      fd_to_stream_ := s2.fd_to_stream_.AddFileStream fd ⟨.handler, ident, some perm⟩ })
    resolved
  refine ⟨_, rfl, invalidated_single s _ resolved ?_ ?_⟩
  · rw [hcl.1]
    simp only [hc]
  · intro x hx hmem
    exact hcl.2.2.2.2.1 x hx (by simpa only [hc] using hmem)

theorem lookup_none (env : Env) (s : VirtualFileSystem) (path : Str)
    (hm : env.GetFileSystemHandler path = none) :
    GetFileSystemHandlerLocked env s path = .ok (none, s) := by
  unfold GetFileSystemHandlerLocked
  rw [hm]

theorem cache_kept_of_fields (s s1 : VirtualFileSystem)
    (h1 : s1.preopened_fds_ = s.preopened_fds_) (h2 : s1.fd_to_stream_ = s.fd_to_stream_) :
    PreopenCacheKept s s1 :=
  ⟨h1, fun fd => by rw [h2]⟩

theorem modifyPath_no_handler (env : Env) (fuel : Nat) (s : VirtualFileSystem)
    (pathname resolved : Str) (option : NormalizeOption) (invalidate : Bool)
    (call : Nat → Str → HandlerCall) (method : Nat → Str → Except Nat Int)
    (hn : GetNormalizedPathLocked env s.cwd fuel pathname option = .ok resolved)
    (hm : env.GetFileSystemHandler resolved = none) :
    ∃ s1, modifyPath env fuel s pathname option invalidate call method = .ok (-1, s1) ∧
      s1.errno = ENOENT ∧ s1.handler_calls = s.handler_calls ∧ PreopenCacheKept s s1 := by
  refine ⟨{ s with errno := ENOENT }, ?_, rfl, rfl, cache_kept_of_fields _ _ rfl rfl⟩
  unfold modifyPath
  rw [hn, Result.ok_bind, lookup_none env s resolved hm, Result.ok_bind]

theorem modifyPath_keeps_cache (env : Env) (fuel : Nat) (s : VirtualFileSystem)
    (pathname resolved : Str) (option : NormalizeOption) (invalidate : Bool)
    (call : Nat → Str → HandlerCall) (method : Nat → Str → Except Nat Int)
    (handler owner : Nat) (hmain : env.IsMainThread = false)
    (hn : GetNormalizedPathLocked env s.cwd fuel pathname option = .ok resolved)
    (hm : env.GetFileSystemHandler resolved = some (handler, owner))
    (hw : ¬ IsWritableTo env handler owner resolved) :
    ∃ s1, modifyPath env fuel s pathname option invalidate call method = .ok (-1, s1) ∧
      s1.errno = denyErrno env handler resolved ∧ s1.handler_calls = s.handler_calls ∧
      PreopenCacheKept s s1 := by
  obtain ⟨s1, h1, h2, h3, h4, h5⟩ := modifyPath_refused env fuel s pathname resolved option
    invalidate call method handler owner hmain hn hm hw
  exact ⟨s1, h1, h2, h3, cache_kept_of_fields _ _ h5 h4⟩

theorem rename_no_handler (env : Env) (fuel : Nat) (s : VirtualFileSystem)
    (oldpath newpath ro rn : Str) (hmain : env.IsMainThread = false)
    (hno : GetNormalizedPathLocked env s.cwd fuel oldpath .kResolveSymlinks = .ok ro)
    (hnn : GetNormalizedPathLocked env s.cwd fuel newpath .kResolveSymlinks = .ok rn)
    (hm : env.GetFileSystemHandler ro = none ∨ env.GetFileSystemHandler rn = none) :
    ∃ s1, rename env fuel s oldpath newpath = .ok (-1, s1) ∧
      s1.errno = ENOENT ∧ s1.handler_calls = s.handler_calls ∧ PreopenCacheKept s s1 := by
  cases hmo : env.GetFileSystemHandler ro with
  | none =>
    refine ⟨{ s with errno := ENOENT }, ?_, rfl, rfl, cache_kept_of_fields _ _ rfl rfl⟩
    unfold rename
    rw [hno, Result.ok_bind, lookup_none env s ro hmo, Result.ok_bind]
  | some ho =>
    obtain ⟨handler, owner⟩ := ho
    have hmn : env.GetFileSystemHandler rn = none := by
      rcases hm with h | h
      · rw [hmo] at h
        cases h
      · exact h
    have hi := initializeHandler_fields env s handler
    obtain ⟨po, hlo, _, _⟩ := lookup_permission env s ro handler owner hmain hmo
    refine ⟨{ initializeHandler env s handler with errno := ENOENT }, ?_, rfl, hi.1,
      cache_kept_of_fields _ _ hi.2.2.2.1 hi.2.2.1⟩
    unfold rename
    rw [hno, Result.ok_bind, hlo, Result.ok_bind]
    simp only []
    rw [hnn, Result.ok_bind, lookup_none env _ rn hmn, Result.ok_bind]

theorem rename_across_handlers (env : Env) (fuel : Nat) (s : VirtualFileSystem)
    (oldpath newpath ro rn : Str) (handler_old owner_old handler_new owner_new : Nat)
    (hmain : env.IsMainThread = false)
    (hno : GetNormalizedPathLocked env s.cwd fuel oldpath .kResolveSymlinks = .ok ro)
    (hnn : GetNormalizedPathLocked env s.cwd fuel newpath .kResolveSymlinks = .ok rn)
    (hmo : env.GetFileSystemHandler ro = some (handler_old, owner_old))
    (hmn : env.GetFileSystemHandler rn = some (handler_new, owner_new))
    (hne : handler_old ≠ handler_new) :
    ∃ s1, rename env fuel s oldpath newpath = .ok (-1, s1) ∧
      s1.errno = EXDEV ∧ s1.handler_calls = s.handler_calls ∧ PreopenCacheKept s s1 := by
  have hi := initializeHandler_fields env s handler_old
  have hi2 := initializeHandler_fields env (initializeHandler env s handler_old) handler_new
  obtain ⟨po, hlo, _, _⟩ := lookup_permission env s ro handler_old owner_old hmain hmo
  obtain ⟨pn, hln, _, _⟩ := lookup_permission env (initializeHandler env s handler_old) rn
    handler_new owner_new hmain hmn
  refine ⟨{ initializeHandler env (initializeHandler env s handler_old) handler_new with
    errno := EXDEV }, ?_, rfl, hi2.1.trans hi.1,
    cache_kept_of_fields _ _ (hi2.2.2.2.1.trans hi.2.2.2.1) (hi2.2.2.1.trans hi.2.2.1)⟩
  unfold rename
  rw [hno, Result.ok_bind, hlo, Result.ok_bind]
  simp only []
  rw [hnn, Result.ok_bind, hln, Result.ok_bind]
  simp only [ne_eq, hne, not_false_eq_true, if_true]

theorem rename_keeps_cache (env : Env) (fuel : Nat) (s : VirtualFileSystem)
    (oldpath newpath ro rn : Str) (handler owner_old owner_new : Nat)
    (hmain : env.IsMainThread = false)
    (hno : GetNormalizedPathLocked env s.cwd fuel oldpath .kResolveSymlinks = .ok ro)
    (hnn : GetNormalizedPathLocked env s.cwd fuel newpath .kResolveSymlinks = .ok rn)
    (hmo : env.GetFileSystemHandler ro = some (handler, owner_old))
    (hmn : env.GetFileSystemHandler rn = some (handler, owner_new))
    (hne : rn ≠ ro)
    (hw : ¬ IsWritableTo env handler owner_old ro ∨ ¬ IsWritableTo env handler owner_new rn) :
    ∃ s1, rename env fuel s oldpath newpath = .ok (-1, s1) ∧
      s1.handler_calls = s.handler_calls ∧ PreopenCacheKept s s1 := by
  have hi := initializeHandler_fields env s handler
  have hi2 := initializeHandler_fields env (initializeHandler env s handler) handler
  obtain ⟨po, hlo, _, hpo⟩ := lookup_permission env s ro handler owner_old hmain hmo
  obtain ⟨pn, hln, _, hpn⟩ := lookup_permission env (initializeHandler env s handler) rn
    handler owner_new hmain hmn
  generalize hs0 : initializeHandler env (initializeHandler env s handler) handler = s0
    at hi2 hln
  have hden : po.is_writable = false ∨ pn.is_writable = false := by
    rcases hw with h | h
    · left
      cases hb : po.is_writable with
      | false => rfl
      | true => exact absurd (hpo.1 hb) h
    · right
      cases hb : pn.is_writable with
      | false => rfl
      | true => exact absurd (hpn.1 hb) h
  have hd1 := deny_modify env s0 ro handler
  have hd2 := deny_modify env (DenyAccessForModifyLocked env s0 ro handler).2
    (GetDirNameInPlace rn) handler
  have hcalls : (DenyAccessForModifyLocked env (DenyAccessForModifyLocked env s0 ro handler).2
      (GetDirNameInPlace rn) handler).2.handler_calls = s.handler_calls := by
    rw [hd2.2.2.1, hd1.2.2.1, hi2.1, hi.1]
  have htab : (DenyAccessForModifyLocked env (DenyAccessForModifyLocked env s0 ro handler).2
      (GetDirNameInPlace rn) handler).2.fd_to_stream_ = s.fd_to_stream_ := by
    rw [hd2.2.2.2.1, hd1.2.2.2.1, hi2.2.2.1, hi.2.2.1]
  have hcache : (DenyAccessForModifyLocked env (DenyAccessForModifyLocked env s0 ro handler).2
      (GetDirNameInPlace rn) handler).2.preopened_fds_ = s.preopened_fds_ := by
    rw [hd2.2.2.2.2, hd1.2.2.2.2, hi2.2.2.2.1, hi.2.2.2.1]
  unfold rename
  rw [hno, Result.ok_bind, hlo, Result.ok_bind]
  simp only []
  rw [hnn, Result.ok_bind, hln, Result.ok_bind]
  simp only [ne_eq, not_true_eq_false, if_false, if_neg hne, if_pos hden]
  unfold DenyAccessForCreateLocked
  split
  · exact ⟨_, rfl, hcalls, cache_kept_of_fields _ _ hcache htab⟩
  · split
    · exact ⟨_, rfl, hcalls, cache_kept_of_fields _ _ hcache htab⟩
    · exact ⟨_, rfl, hcalls, cache_kept_of_fields _ _ hcache htab⟩

theorem open_no_handler (env : Env) (fuel : Nat) (s : VirtualFileSystem)
    (pathname resolved : Str) (oflag cmode : Nat) (hmain : env.IsMainThread = false)
    (hnorm : GetNormalizedPathLocked env s.cwd fuel pathname .kResolveSymlinks = .ok resolved)
    (helig : IsEligibleForPreopen oflag = false)
    (hm : env.GetFileSystemHandler resolved = none) :
    ∃ s1, vfs_open env fuel s pathname oflag cmode = .ok (-1, s1) ∧
      s1.errno = ENOENT ∧ s1.handler_calls = s.handler_calls ∧ PreopenCacheKept s s1 := by
  refine ⟨{ s with errno := ENOENT }, ?_, rfl, rfl, cache_kept_of_fields _ _ rfl rfl⟩
  rw [open_uncached env fuel s pathname resolved oflag cmode hnorm (Or.inl helig)]
  unfold OpenLocked
  simp only [hmain, Bool.false_eq_true, if_false, false_and]
  rw [hnorm, Result.ok_bind, lookup_none env s resolved hm, Result.ok_bind]

theorem open_keeps_cache (env : Env) (fuel : Nat) (s : VirtualFileSystem)
    (pathname resolved : Str) (oflag cmode handler owner : Nat)
    (hmain : env.IsMainThread = false)
    (hnorm : GetNormalizedPathLocked env s.cwd fuel pathname .kResolveSymlinks = .ok resolved)
    (hm : env.GetFileSystemHandler resolved = some (handler, owner))
    (helig : IsEligibleForPreopen oflag = false)
    (hmut : (oflag &&& O_ACCMODE) ≠ O_RDONLY ∨ (oflag &&& (O_CREAT ||| O_TRUNC)) ≠ 0)
    (hw : ¬ IsWritableTo env handler owner resolved) :
    ∃ s1, vfs_open env fuel s pathname oflag cmode = .ok (-1, s1) ∧
      s1.handler_calls = s.handler_calls ∧ PreopenCacheKept s s1 := by
  by_cases hcreat : (oflag &&& O_CREAT) ≠ 0
  · obtain ⟨s1, h1, h2, h3, h4, _⟩ := open_create_denied env fuel s pathname resolved oflag
      cmode handler owner hmain hnorm hm hw hcreat
    exact ⟨s1, h1, h3, cache_kept_of_fields _ _ h4 h2⟩
  · have hi := initializeHandler_fields env s handler
    have hlook := lookup_not_writable env s resolved handler owner hmain hm hw
    have hd := deny_modify env (initializeHandler env s handler) resolved handler
    refine ⟨(DenyAccessForModifyLocked env (initializeHandler env s handler) resolved
      handler).2, ?_, hd.2.2.1.trans hi.1,
      cache_kept_of_fields _ _ (hd.2.2.2.2.trans hi.2.2.2.1) (hd.2.2.2.1.trans hi.2.2.1)⟩
    rw [open_uncached env fuel s pathname resolved oflag cmode hnorm (Or.inl helig)]
    unfold OpenLocked
    simp only [hmain, Bool.false_eq_true, if_false, false_and]
    rw [hnorm, Result.ok_bind, hlook, Result.ok_bind]
    simp only []
    rw [if_pos ⟨hmut, trivial⟩, if_neg hcreat]
    congr 1
    exact Prod.ext hd.1 rfl

theorem open_out_of_descriptors (env : Env) (fuel : Nat) (s : VirtualFileSystem)
    (pathname resolved : Str) (oflag cmode handler owner : Nat)
    (hmain : env.IsMainThread = false)
    (hnorm : GetNormalizedPathLocked env s.cwd fuel pathname .kResolveSymlinks = .ok resolved)
    (hm : env.GetFileSystemHandler resolved = some (handler, owner))
    (helig : IsEligibleForPreopen oflag = false)
    (hperm : ((oflag &&& O_ACCMODE) = O_RDONLY ∧ (oflag &&& (O_CREAT ||| O_TRUNC)) = 0) ∨
      IsWritableTo env handler owner resolved)
    (hfull : NoUnusedDescriptor s.fd_to_stream_) :
    ∃ s1, vfs_open env fuel s pathname oflag cmode = .ok (-1, s1) ∧
      s1.errno = EMFILE ∧ s1.handler_calls = s.handler_calls ∧ PreopenCacheKept s s1 := by
  have hi := initializeHandler_fields env s handler
  obtain ⟨perm, hlook, _, hpw⟩ := lookup_permission env s resolved handler owner hmain hm
  have hnodeny : ¬ (((oflag &&& O_ACCMODE) ≠ O_RDONLY ∨ (oflag &&& (O_CREAT ||| O_TRUNC)) ≠ 0) ∧
      perm.is_writable = false) := by
    rintro ⟨h1, h2⟩
    rcases hperm with h | h
    · rcases h1 with h1 | h1
      · exact h1 h.1
      · exact h1 h.2
    · rw [hpw.2 h] at h2
      cases h2
  have hfull1 : NoUnusedDescriptor (initializeHandler env s handler).fd_to_stream_ := by
    rw [hi.2.2.1]
    exact hfull
  have hg := GetFirstUnusedDescriptorLocked_of_full (initializeHandler env s handler) hfull1
  refine ⟨{ initializeHandler env s handler with errno := EMFILE }, ?_, rfl, hi.1,
    cache_kept_of_fields _ _ hi.2.2.2.1 hi.2.2.1⟩
  rw [open_uncached env fuel s pathname resolved oflag cmode hnorm (Or.inl helig)]
  unfold OpenLocked
  simp only [hmain, Bool.false_eq_true, if_false, false_and]
  rw [hnorm, Result.ok_bind]
  simp only [hlook, Result.ok_bind, if_neg hnodeny, hg]
  rfl

theorem open_handler_fails (env : Env) (fuel : Nat) (s : VirtualFileSystem)
    (pathname resolved : Str) (oflag cmode handler owner : Nat) (fd : Int) (e : Nat)
    (hmain : env.IsMainThread = false)
    (hmin : 0 ≤ s.fd_to_stream_.min_file_id)
    (hnorm : GetNormalizedPathLocked env s.cwd fuel pathname .kResolveSymlinks = .ok resolved)
    (hm : env.GetFileSystemHandler resolved = some (handler, owner))
    (helig : IsEligibleForPreopen oflag = false)
    (hperm : ((oflag &&& O_ACCMODE) = O_RDONLY ∧ (oflag &&& (O_CREAT ||| O_TRUNC)) = 0) ∨
      IsWritableTo env handler owner resolved)
    (hfd : IsLowestUnused s.fd_to_stream_ fd)
    (hopen : env.handlerOpen handler fd resolved oflag cmode = .error e) :
    ∃ s1, vfs_open env fuel s pathname oflag cmode = .ok (-1, s1) ∧
      s1.errno = e ∧ PreopenCacheKept s s1 := by
  obtain ⟨perm, s2, _, hc, ht, ho⟩ := open_through_handler env fuel s pathname resolved oflag
    cmode handler owner fd hmain hmin hnorm hm hperm hfd
  rw [open_uncached env fuel s pathname resolved oflag cmode hnorm (Or.inl helig), ho, hopen]
  refine ⟨_, rfl, rfl, hc, ?_⟩
  intro x
  have hunused : s.fd_to_stream_.entries fd = .unused := by
    have h := hfd.2.2.1
    unfold FdToFileStreamMap.IsKnownDescriptor at h
    cases hent : s.fd_to_stream_.entries fd with
    | unused => rfl
    | reserved => rw [hent] at h; cases h
    | bound st => rw [hent] at h; cases h
  show (s2.fd_to_stream_.RemoveFileStream fd).GetStream x = s.fd_to_stream_.GetStream x
  rw [ht]
  unfold FdToFileStreamMap.GetStream FdToFileStreamMap.RemoveFileStream
    FdToFileStreamMap.reserve
  simp only []
  by_cases hx : x = fd
  · subst hx
    simp only [if_true, hunused]
  · simp only [if_neg hx]

/-- C19, as amended. A mutating operation invalidates the preopen cache for its path when it
is carried out, and leaves the cache alone when it is refused. Carried out:
* `unlink` and `remove` of a path that a handler serves and that is writable,
* `rename` between two different paths that the same handler serves and that are both
  writable, for the source and for the destination,
* `open` with flags that are not preopen-eligible (any write access mode, `O_CREAT` and
  `O_TRUNC` are such flags), when the access is permitted and the handler's `open` succeeds
  for the smallest unused descriptor.
After such a call no entry of the normalized path remains in the cache, every cached
descriptor (a value that is not negative) held for it is closed, and the entries of the
other paths are unchanged. Refused, with the return value -1, the cache as it was and every
descriptor bound as before:
* `unlink` and `remove` of a path that is not writable, or that no handler serves (`ENOENT`),
* `rename` between two different paths of one handler of which one is not writable,
  between paths of different handlers (`EXDEV`), or with a path that no handler serves
  (`ENOENT`),
* `open` with flags that are not preopen-eligible, when no handler serves the path
  (`ENOENT`), when the flags ask for a modification of a path that is not writable, when the
  access is permitted and no descriptor is unused (`EMFILE`), and when the handler's `open`
  fails for the smallest unused descriptor (its error). -/
theorem mutating_operations_invalidate_preopen_cache (env : Env) (fuel : Nat)
    (s : VirtualFileSystem) (hmain : env.IsMainThread = false) :
    (∀ pathname resolved handler owner,
      GetNormalizedPathLocked env s.cwd fuel pathname .kResolveParentSymlinks = .ok resolved →
      env.GetFileSystemHandler resolved = some (handler, owner) →
      IsWritableTo env handler owner resolved →
      (∃ ret s1, unlink env fuel s pathname = .ok (ret, s1) ∧
        PreopenInvalidated s s1 [resolved]) ∧
      (∃ ret s1, remove env fuel s pathname = .ok (ret, s1) ∧
        PreopenInvalidated s s1 [resolved])) ∧
    (∀ oldpath newpath ro rn handler owner_old owner_new,
      GetNormalizedPathLocked env s.cwd fuel oldpath .kResolveSymlinks = .ok ro →
      GetNormalizedPathLocked env s.cwd fuel newpath .kResolveSymlinks = .ok rn →
      env.GetFileSystemHandler ro = some (handler, owner_old) →
      env.GetFileSystemHandler rn = some (handler, owner_new) →
      rn ≠ ro →
      IsWritableTo env handler owner_old ro → IsWritableTo env handler owner_new rn →
      ∃ ret s1, rename env fuel s oldpath newpath = .ok (ret, s1) ∧
        PreopenInvalidated s s1 [ro, rn]) ∧
    (∀ pathname resolved oflag cmode handler owner fd ident,
      0 ≤ s.fd_to_stream_.min_file_id →
      GetNormalizedPathLocked env s.cwd fuel pathname .kResolveSymlinks = .ok resolved →
      env.GetFileSystemHandler resolved = some (handler, owner) →
      IsEligibleForPreopen oflag = false →
      (((oflag &&& O_ACCMODE) = O_RDONLY ∧ (oflag &&& (O_CREAT ||| O_TRUNC)) = 0) ∨
        IsWritableTo env handler owner resolved) →
      IsLowestUnused s.fd_to_stream_ fd →
      env.handlerOpen handler fd resolved oflag cmode = .ok ident →
      ∃ s1, vfs_open env fuel s pathname oflag cmode = .ok (fd, s1) ∧
        PreopenInvalidated s s1 [resolved]) ∧
    (∀ oflag, ((oflag &&& O_ACCMODE) ≠ O_RDONLY ∨ (oflag &&& (O_CREAT ||| O_TRUNC)) ≠ 0) →
      IsEligibleForPreopen oflag = false) ∧
    (∀ pathname resolved,
      GetNormalizedPathLocked env s.cwd fuel pathname .kResolveParentSymlinks = .ok resolved →
      (∀ handler owner, env.GetFileSystemHandler resolved = some (handler, owner) →
        ¬ IsWritableTo env handler owner resolved →
        (∃ s1, unlink env fuel s pathname = .ok (-1, s1) ∧
          s1.handler_calls = s.handler_calls ∧ PreopenCacheKept s s1) ∧
        (∃ s1, remove env fuel s pathname = .ok (-1, s1) ∧
          s1.handler_calls = s.handler_calls ∧ PreopenCacheKept s s1)) ∧
      (env.GetFileSystemHandler resolved = none →
        (∃ s1, unlink env fuel s pathname = .ok (-1, s1) ∧ s1.errno = ENOENT ∧
          s1.handler_calls = s.handler_calls ∧ PreopenCacheKept s s1) ∧
        (∃ s1, remove env fuel s pathname = .ok (-1, s1) ∧ s1.errno = ENOENT ∧
          s1.handler_calls = s.handler_calls ∧ PreopenCacheKept s s1))) ∧
    (∀ oldpath newpath ro rn,
      GetNormalizedPathLocked env s.cwd fuel oldpath .kResolveSymlinks = .ok ro →
      GetNormalizedPathLocked env s.cwd fuel newpath .kResolveSymlinks = .ok rn →
      (∀ handler owner_old owner_new,
        env.GetFileSystemHandler ro = some (handler, owner_old) →
        env.GetFileSystemHandler rn = some (handler, owner_new) →
        rn ≠ ro →
        (¬ IsWritableTo env handler owner_old ro ∨ ¬ IsWritableTo env handler owner_new rn) →
        ∃ s1, rename env fuel s oldpath newpath = .ok (-1, s1) ∧
          s1.handler_calls = s.handler_calls ∧ PreopenCacheKept s s1) ∧
      (∀ handler_old owner_old handler_new owner_new,
        env.GetFileSystemHandler ro = some (handler_old, owner_old) →
        env.GetFileSystemHandler rn = some (handler_new, owner_new) →
        handler_old ≠ handler_new →
        ∃ s1, rename env fuel s oldpath newpath = .ok (-1, s1) ∧ s1.errno = EXDEV ∧
          s1.handler_calls = s.handler_calls ∧ PreopenCacheKept s s1) ∧
      ((env.GetFileSystemHandler ro = none ∨ env.GetFileSystemHandler rn = none) →
        ∃ s1, rename env fuel s oldpath newpath = .ok (-1, s1) ∧ s1.errno = ENOENT ∧
          s1.handler_calls = s.handler_calls ∧ PreopenCacheKept s s1)) ∧
    (∀ pathname resolved oflag cmode,
      GetNormalizedPathLocked env s.cwd fuel pathname .kResolveSymlinks = .ok resolved →
      IsEligibleForPreopen oflag = false →
      (env.GetFileSystemHandler resolved = none →
        ∃ s1, vfs_open env fuel s pathname oflag cmode = .ok (-1, s1) ∧ s1.errno = ENOENT ∧
          s1.handler_calls = s.handler_calls ∧ PreopenCacheKept s s1) ∧
      (∀ handler owner, env.GetFileSystemHandler resolved = some (handler, owner) →
        (((oflag &&& O_ACCMODE) ≠ O_RDONLY ∨ (oflag &&& (O_CREAT ||| O_TRUNC)) ≠ 0) →
          ¬ IsWritableTo env handler owner resolved →
          ∃ s1, vfs_open env fuel s pathname oflag cmode = .ok (-1, s1) ∧
            s1.handler_calls = s.handler_calls ∧ PreopenCacheKept s s1) ∧
        ((((oflag &&& O_ACCMODE) = O_RDONLY ∧ (oflag &&& (O_CREAT ||| O_TRUNC)) = 0) ∨
            IsWritableTo env handler owner resolved) →
          (NoUnusedDescriptor s.fd_to_stream_ →
            ∃ s1, vfs_open env fuel s pathname oflag cmode = .ok (-1, s1) ∧
              s1.errno = EMFILE ∧ s1.handler_calls = s.handler_calls ∧
              PreopenCacheKept s s1) ∧
          (∀ fd e, 0 ≤ s.fd_to_stream_.min_file_id → IsLowestUnused s.fd_to_stream_ fd →
            env.handlerOpen handler fd resolved oflag cmode = .error e →
            ∃ s1, vfs_open env fuel s pathname oflag cmode = .ok (-1, s1) ∧
              s1.errno = e ∧ PreopenCacheKept s s1)))) := by
  refine ⟨?_, ?_, ?_, not_eligible_of_mutating, ?_, ?_, ?_⟩
  · intro pathname resolved handler owner hnorm hm hw
    exact ⟨modifyPath_invalidates env fuel s pathname resolved _ _ _ handler owner hmain hnorm
        hm hw,
      modifyPath_invalidates env fuel s pathname resolved _ _ _ handler owner hmain hnorm
        hm hw⟩
  · intro oldpath newpath ro rn handler owner_old owner_new hno hnn hmo hmn hne hwo hwn
    exact rename_invalidates env fuel s oldpath newpath ro rn handler owner_old owner_new
      hmain hno hnn hmo hmn hne hwo hwn
  · intro pathname resolved oflag cmode handler owner fd ident hmin hnorm hm helig hperm hfd
      hopen
    exact open_invalidates env fuel s pathname resolved oflag cmode handler owner fd ident
      hmain hmin hnorm hm helig hperm hfd hopen
  · intro pathname resolved hnorm
    refine ⟨?_, ?_⟩
    · intro handler owner hm hw
      refine ⟨?_, ?_⟩
      · obtain ⟨s1, h1, _, h3, h4⟩ := modifyPath_keeps_cache env fuel s pathname resolved
          .kResolveParentSymlinks true HandlerCall.unlink env.unlink handler owner hmain hnorm
          hm hw
        exact ⟨s1, h1, h3, h4⟩
      · obtain ⟨s1, h1, _, h3, h4⟩ := modifyPath_keeps_cache env fuel s pathname resolved
          .kResolveParentSymlinks true HandlerCall.remove env.remove handler owner hmain hnorm
          hm hw
        exact ⟨s1, h1, h3, h4⟩
    · intro hm
      exact ⟨modifyPath_no_handler env fuel s pathname resolved _ _ _ _ hnorm hm,
        modifyPath_no_handler env fuel s pathname resolved _ _ _ _ hnorm hm⟩
  · intro oldpath newpath ro rn hno hnn
    refine ⟨?_, ?_, ?_⟩
    · intro handler owner_old owner_new hmo hmn hne hw
      exact rename_keeps_cache env fuel s oldpath newpath ro rn handler owner_old owner_new
        hmain hno hnn hmo hmn hne hw
    · intro handler_old owner_old handler_new owner_new hmo hmn hne
      exact rename_across_handlers env fuel s oldpath newpath ro rn handler_old owner_old
        handler_new owner_new hmain hno hnn hmo hmn hne
    · intro hm
      exact rename_no_handler env fuel s oldpath newpath ro rn hmain hno hnn hm
  · intro pathname resolved oflag cmode hnorm helig
    refine ⟨?_, ?_⟩
    · intro hm
      exact open_no_handler env fuel s pathname resolved oflag cmode hmain hnorm helig hm
    · intro handler owner hm
      refine ⟨?_, ?_⟩
      · intro hmut hw
        exact open_keeps_cache env fuel s pathname resolved oflag cmode handler owner hmain
          hnorm hm helig hmut hw
      · intro hperm
        refine ⟨?_, ?_⟩
        · intro hfull
          exact open_out_of_descriptors env fuel s pathname resolved oflag cmode handler owner
            hmain hnorm hm helig hperm hfull
        · intro fd e hmin hfd hopen
          exact open_handler_fails env fuel s pathname resolved oflag cmode handler owner fd e
            hmain hmin hnorm hm helig hperm hfd hopen

/-- C19, at a concrete input: the preopen thread cached the descriptor 3 for "/tmp/x";
`unlink("/tmp/x")` by a caller that may write empties the cache and closes descriptor 3. -/
theorem mutating_operations_invalidate_preopen_cache_witness :
    (preopenedState openableEnv "/tmp/x".toList).preopened_fds_ = [("/tmp/x".toList, 3)] ∧
    ∃ ret s1, unlink openableEnv 1 (preopenedState openableEnv "/tmp/x".toList)
        "/tmp/x".toList = .ok (ret, s1) ∧
      PreopenInvalidated (preopenedState openableEnv "/tmp/x".toList) s1 ["/tmp/x".toList] ∧
      s1.preopened_fds_ = [] ∧ s1.fd_to_stream_.GetStream 3 = none := by
  have hc : (preopenedState openableEnv "/tmp/x".toList).preopened_fds_ =
      [("/tmp/x".toList, 3)] := by decide
  obtain ⟨ret, s1, h1, h2⟩ :=
    ((mutating_operations_invalidate_preopen_cache openableEnv 1
      (preopenedState openableEnv "/tmp/x".toList) (by decide)).1
      "/tmp/x".toList "/tmp/x".toList 1 0 (by decide) rfl (by decide)).1
  refine ⟨hc, ret, s1, h1, h2, ?_, ?_⟩
  · rw [h2.1, hc]
    decide
  · exact h2.2.2 "/tmp/x".toList (by simp) 3 (by decide) (by rw [hc]; simp)

/-- C19, refuted as stated. The preopen thread cached the descriptor 3 for "/etc/passwd" on
a mount that the caller may not write. `unlink("/etc/passwd")` is called and refused with
`EACCES`, and `open("/etc/passwd", O_WRONLY)` is called and refused with `EACCES`: after
either call the cache still holds the entry, and descriptor 3 is still open. -/
theorem refused_operations_keep_preopen_entry :
    (preopenedState systemEnv "/etc/passwd".toList).preopened_fds_ =
      [("/etc/passwd".toList, 3)] ∧
    (∃ s1, unlink systemEnv 1 (preopenedState systemEnv "/etc/passwd".toList)
        "/etc/passwd".toList = .ok (-1, s1) ∧ s1.errno = EACCES ∧
      s1.preopened_fds_ = [("/etc/passwd".toList, 3)] ∧
      s1.fd_to_stream_.GetStream 3 ≠ none ∧
      ¬ PreopenInvalidated (preopenedState systemEnv "/etc/passwd".toList) s1
        ["/etc/passwd".toList]) ∧
    (∃ s1, vfs_open systemEnv 1 (preopenedState systemEnv "/etc/passwd".toList)
        "/etc/passwd".toList O_WRONLY 0 = .ok (-1, s1) ∧ s1.errno = EACCES ∧
      s1.preopened_fds_ = [("/etc/passwd".toList, 3)] ∧
      s1.fd_to_stream_.GetStream 3 ≠ none ∧
      ¬ PreopenInvalidated (preopenedState systemEnv "/etc/passwd".toList) s1
        ["/etc/passwd".toList]) := by
  have hnot : ∀ s s1 : VirtualFileSystem,
      s1.preopened_fds_ = [("/etc/passwd".toList, 3)] →
      ¬ PreopenInvalidated s s1 ["/etc/passwd".toList] := by
    intro s s1 hc hinv
    exact hinv.2.1 ("/etc/passwd".toList, 3) (by rw [hc]; simp) (by simp)
  refine ⟨by decide, ?_, ?_⟩
  · have hev : (unlink systemEnv 1 (preopenedState systemEnv "/etc/passwd".toList)
        "/etc/passwd".toList).bind (fun r => Result.ok (r.1, r.2.errno,
          decide (r.2.preopened_fds_ = [("/etc/passwd".toList, 3)]),
          (r.2.fd_to_stream_.GetStream 3).isSome)) =
        .ok (-1, EACCES, true, true) := by decide
    obtain ⟨r, hr, hev1⟩ := Result.bind_eq_ok _ _ _ hev
    simp only [Result.ok.injEq, Prod.mk.injEq, decide_eq_true_eq] at hev1
    obtain ⟨ret, s1⟩ := r
    simp only at hev1
    obtain ⟨h1, h2, h3, h4⟩ := hev1
    subst h1
    refine ⟨s1, hr, h2, h3, ?_, hnot _ s1 h3⟩
    intro hn
    rw [hn] at h4
    cases h4
  · have hev : (vfs_open systemEnv 1 (preopenedState systemEnv "/etc/passwd".toList)
        "/etc/passwd".toList O_WRONLY 0).bind (fun r => Result.ok (r.1, r.2.errno,
          decide (r.2.preopened_fds_ = [("/etc/passwd".toList, 3)]),
          (r.2.fd_to_stream_.GetStream 3).isSome)) =
        .ok (-1, EACCES, true, true) := by decide
    obtain ⟨r, hr, hev1⟩ := Result.bind_eq_ok _ _ _ hev
    simp only [Result.ok.injEq, Prod.mk.injEq, decide_eq_true_eq] at hev1
    obtain ⟨ret, s1⟩ := r
    simp only at hev1
    obtain ⟨h1, h2, h3, h4⟩ := hev1
    subst h1
    refine ⟨s1, hr, h2, h3, ?_, hnot _ s1 h3⟩
    intro hn
    rw [hn] at h4
    cases h4


theorem inodeTableSound_run (s : VirtualFileSystem) (op : InodeOp)
    (hinv : InodeTableSound s) (hlow : 128 ≤ s.next_inode_)
    (hb : s.next_inode_ + 1 < 2 ^ kInodeBits) :
    InodeTableSound (op.run s) ∧ s.next_inode_ ≤ (op.run s).next_inode_ ∧
      (op.run s).next_inode_ ≤ s.next_inode_ + 1 := by
  obtain ⟨hinj, hrange⟩ := hinv
  cases op with
  | lookup path =>
    cases hp : s.inodes_ path with
    | some n =>
      have hrun : InodeOp.run s (.lookup path) = s := by
        simp [InodeOp.run, GetInodeUncheckedLocked, hp]
      rw [hrun]
      exact ⟨⟨hinj, hrange⟩, le_refl _, by omega⟩
    | none =>
      have hnext : (InodeOp.run s (.lookup path)).next_inode_ = s.next_inode_ + 1 := by
        simp only [InodeOp.run, GetInodeUncheckedLocked, hp]
        exact Nat.mod_eq_of_lt hb
      have hmap : ∀ p, (InodeOp.run s (.lookup path)).inodes_ p =
          if p = path then some s.next_inode_ else s.inodes_ p := by
        intro p
        simp [InodeOp.run, GetInodeUncheckedLocked, hp]
      refine ⟨⟨?_, ?_⟩, by omega, by omega⟩
      · intro p q n h1 h2
        rw [hmap] at h1 h2
        by_cases hpp : p = path
        · by_cases hqp : q = path
          · rw [hpp, hqp]
          · rw [if_pos hpp] at h1
            rw [if_neg hqp] at h2
            simp only [Option.some.injEq] at h1
            have := (hrange q n h2).2
            omega
        · by_cases hqp : q = path
          · rw [if_neg hpp] at h1
            rw [if_pos hqp] at h2
            simp only [Option.some.injEq] at h2
            have := (hrange p n h1).2
            omega
          · rw [if_neg hpp] at h1
            rw [if_neg hqp] at h2
            exact hinj p q n h1 h2
      · intro p n h1
        rw [hmap] at h1
        rw [hnext]
        by_cases hpp : p = path
        · rw [if_pos hpp] at h1
          simp only [Option.some.injEq] at h1
          omega
        · rw [if_neg hpp] at h1
          have := hrange p n h1
          omega
  | remove path =>
    have hmap : ∀ p, (InodeOp.run s (.remove path)).inodes_ p =
        if p = path then none else s.inodes_ p := fun _ => rfl
    have hnext : (InodeOp.run s (.remove path)).next_inode_ = s.next_inode_ := rfl
    have hsub : ∀ p n, (InodeOp.run s (.remove path)).inodes_ p = some n →
        s.inodes_ p = some n := by
      intro p n h
      rw [hmap] at h
      split at h
      · cases h
      · exact h
    refine ⟨⟨?_, ?_⟩, by omega, by omega⟩
    · intro p q n h1 h2
      exact hinj p q n (hsub p n h1) (hsub q n h2)
    · intro p n h1
      rw [hnext]
      exact hrange p n (hsub p n h1)
  | reassign a b =>
    cases ha : s.inodes_ a with
    | none =>
      have hmap : ∀ p, (InodeOp.run s (.reassign a b)).inodes_ p =
          if p = b then none else s.inodes_ p := by
        intro p
        simp [InodeOp.run, ReassignInodeLocked, ha]
      have hnext : (InodeOp.run s (.reassign a b)).next_inode_ = s.next_inode_ := by
        simp [InodeOp.run, ReassignInodeLocked, ha]
      have hsub : ∀ p n, (InodeOp.run s (.reassign a b)).inodes_ p = some n →
          s.inodes_ p = some n := by
        intro p n h
        rw [hmap] at h
        split at h
        · cases h
        · exact h
      refine ⟨⟨?_, ?_⟩, by omega, by omega⟩
      · intro p q n h1 h2
        exact hinj p q n (hsub p n h1) (hsub q n h2)
      · intro p n h1
        rw [hnext]
        exact hrange p n (hsub p n h1)
    | some ino =>
      have hmap : ∀ p, (InodeOp.run s (.reassign a b)).inodes_ p =
          if p = a then none else if p = b then some ino else s.inodes_ p := by
        intro p
        simp [InodeOp.run, ReassignInodeLocked, ha]
      have hnext : (InodeOp.run s (.reassign a b)).next_inode_ = s.next_inode_ := by
        simp [InodeOp.run, ReassignInodeLocked, ha]
      have hcases : ∀ p n, (InodeOp.run s (.reassign a b)).inodes_ p = some n →
          p ≠ a ∧ ((p = b ∧ n = ino) ∨ (p ≠ b ∧ s.inodes_ p = some n)) := by
        intro p n h
        rw [hmap] at h
        by_cases hpa : p = a
        · rw [if_pos hpa] at h
          cases h
        · rw [if_neg hpa] at h
          by_cases hpb : p = b
          · rw [if_pos hpb] at h
            simp only [Option.some.injEq] at h
            exact ⟨hpa, Or.inl ⟨hpb, h.symm⟩⟩
          · rw [if_neg hpb] at h
            exact ⟨hpa, Or.inr ⟨hpb, h⟩⟩
      refine ⟨⟨?_, ?_⟩, by omega, by omega⟩
      · intro p q n h1 h2
        obtain ⟨hpa, hp⟩ := hcases p n h1
        obtain ⟨hqa, hq⟩ := hcases q n h2
        rcases hp with ⟨hpb, hn⟩ | ⟨_, hps⟩
        · rcases hq with ⟨hqb, _⟩ | ⟨_, hqs⟩
          · rw [hpb, hqb]
          · rw [hn] at hqs
            exact absurd (hinj q a ino hqs ha) hqa
        · rcases hq with ⟨_, hn⟩ | ⟨_, hqs⟩
          · rw [hn] at hps
            exact absurd (hinj p a ino hps ha) hpa
          · exact hinj p q n hps hqs
      · intro p n h1
        rw [hnext]
        obtain ⟨_, hp⟩ := hcases p n h1
        rcases hp with ⟨_, hn⟩ | ⟨_, hps⟩
        · rw [hn]
          exact hrange a ino ha
        · exact hrange p n hps

theorem inodeTableSound_runs (ops : List InodeOp) :
    ∀ s : VirtualFileSystem, InodeTableSound s → 128 ≤ s.next_inode_ →
      s.next_inode_ + ops.length < 2 ^ kInodeBits →
      InodeTableSound (runInodeOps ops s) ∧
      ∀ l1 x l2, lookupResults ops s = l1 ++ x :: l2 → x.2 = true →
        s.next_inode_ ≤ x.1 ∧ ∀ y ∈ l1, y.1 < x.1 := by
  induction ops with
  | nil =>
    intro s hinv _ _
    refine ⟨hinv, ?_⟩
    intro l1 x l2 h
    simp [lookupResults] at h
  | cons op ops ih =>
    intro s hinv hlow hb
    simp only [List.length_cons] at hb
    obtain ⟨hinv1, hge, hle⟩ := inodeTableSound_run s op hinv hlow (by omega)
    obtain ⟨hfin, hres⟩ := ih (op.run s) hinv1 (by omega) (by omega)
    refine ⟨hfin, ?_⟩
    have hlift : ∀ l1 x l2, lookupResults ops (op.run s) = l1 ++ x :: l2 → x.2 = true →
        s.next_inode_ ≤ x.1 ∧ ∀ y ∈ l1, y.1 < x.1 := by
      intro l1 x l2 h hx
      obtain ⟨h1, h2⟩ := hres l1 x l2 h hx
      exact ⟨by omega, h2⟩
    cases op with
    | lookup path =>
      intro l1 x l2 h hx
      simp only [lookupResults] at h
      cases l1 with
      | nil =>
        simp only [List.nil_append, List.cons.injEq] at h
        obtain ⟨hx1, _⟩ := h
        rw [← hx1] at hx ⊢
        simp only [Option.isNone_iff_eq_none] at hx
        refine ⟨?_, fun y hy => absurd hy (List.not_mem_nil _)⟩
        simp [GetInodeUncheckedLocked, hx]
      | cons y0 l1 =>
        simp only [List.cons_append, List.cons.injEq] at h
        obtain ⟨hy0, hrest⟩ := h
        obtain ⟨h1, h2⟩ := hres l1 x l2 hrest hx
        refine ⟨by omega, ?_⟩
        intro y hy
        rcases List.mem_cons.1 hy with hy | hy
        · rw [hy, ← hy0]
          simp only
          cases hp : s.inodes_ path with
          | some n =>
            have hrun : InodeOp.run s (.lookup path) = s := by
              simp [InodeOp.run, GetInodeUncheckedLocked, hp]
            rw [hrun] at h1
            have := (hinv.2 path n hp).2
            simp only [GetInodeUncheckedLocked, hp]
            omega
          | none =>
            have hnext : (InodeOp.run s (.lookup path)).next_inode_ = s.next_inode_ + 1 := by
              simp only [InodeOp.run, GetInodeUncheckedLocked, hp]
              exact Nat.mod_eq_of_lt (by omega)
            rw [hnext] at h1
            simp only [GetInodeUncheckedLocked, hp]
            omega
        · exact h2 y hy
    | remove path => exact hlift
    | reassign a b => exact hlift

/-- C28. Inode numbers are never shared or reused. In every state reached from a fresh VFS
by lookups (`GetInodeLocked`, `GetInodeUncheckedLocked`), `RemoveInodeLocked` and
`ReassignInodeLocked` calls, as long as the counter has not run through the width of
`ino_t`: no two paths of the inode table have the same number, every stored number `n`
satisfies `128 ≤ n < next_inode_`, and a number returned for a newly assigned path is
greater than every number returned by an earlier lookup. -/
theorem inode_numbers_never_shared (ops : List InodeOp) (min_fd max_fd : Int) (logs : Bool)
    (hbound : 128 + ops.length < 2 ^ kInodeBits) :
    (∀ p q n, (runInodeOps ops (VirtualFileSystem.new min_fd max_fd logs)).inodes_ p = some n →
      (runInodeOps ops (VirtualFileSystem.new min_fd max_fd logs)).inodes_ q = some n →
      p = q) ∧
    (∀ p n, (runInodeOps ops (VirtualFileSystem.new min_fd max_fd logs)).inodes_ p = some n →
      128 ≤ n ∧ n < (runInodeOps ops (VirtualFileSystem.new min_fd max_fd logs)).next_inode_) ∧
    (∀ l1 x l2, lookupResults ops (VirtualFileSystem.new min_fd max_fd logs) = l1 ++ x :: l2 →
      x.2 = true → ∀ y ∈ l1, y.1 < x.1) := by
  have hnew : InodeTableSound (VirtualFileSystem.new min_fd max_fd logs) := by
    constructor
    · intro p q n h
      simp [VirtualFileSystem.new] at h
    · intro p n h
      simp [VirtualFileSystem.new] at h
  obtain ⟨h1, h2⟩ := inodeTableSound_runs ops (VirtualFileSystem.new min_fd max_fd logs) hnew
    (le_refl _) hbound
  exact ⟨h1.1, h1.2, fun l1 x l2 h hx => (h2 l1 x l2 h hx).2⟩

/-- C28, at a concrete input: "/a" and "/b" are looked up, "/a" is removed and looked up
again, "/b" is renamed to "/c", and "/b" and "/c" are looked up. The lookups return 128,
129, 130 (new), 131 (new) and 129 (stored); the numbers in the table are distinct. -/
theorem inode_numbers_never_shared_witness :
    lookupResults [.lookup "/a".toList, .lookup "/b".toList, .remove "/a".toList,
        .lookup "/a".toList, .reassign "/b".toList "/c".toList, .lookup "/b".toList,
        .lookup "/c".toList] (VirtualFileSystem.new 3 1023 false) =
      [(128, true), (129, true), (130, true), (131, true), (129, false)] ∧
    ∀ p q n,
      (runInodeOps [.lookup "/a".toList, .lookup "/b".toList, .remove "/a".toList,
        .lookup "/a".toList, .reassign "/b".toList "/c".toList, .lookup "/b".toList,
        .lookup "/c".toList] (VirtualFileSystem.new 3 1023 false)).inodes_ p = some n →
      (runInodeOps [.lookup "/a".toList, .lookup "/b".toList, .remove "/a".toList,
        .lookup "/a".toList, .reassign "/b".toList "/c".toList, .lookup "/b".toList,
        .lookup "/c".toList] (VirtualFileSystem.new 3 1023 false)).inodes_ q = some n →
      p = q :=
  ⟨by decide,
    (inode_numbers_never_shared [.lookup "/a".toList, .lookup "/b".toList,
      .remove "/a".toList, .lookup "/a".toList, .reassign "/b".toList "/c".toList,
      .lookup "/b".toList, .lookup "/c".toList] 3 1023 false (by decide)).1⟩

/-! ## C29: the logd socket namespace -/

theorem logd_bind_spec (ns : LogdSocketNamespace) (name : Str) (errno : Nat) :
    (IsNameAccepted name = false → ∀ stream,
      ns.Bind name stream errno = (-1, ns, EOPNOTSUPP)) ∧
    (IsNameAccepted name = true → ∀ s,
      (ns.map_ name = none →
        (ns.Bind name (some s) errno).1 = 0 ∧
        (ns.Bind name (some s) errno).2.2 = errno ∧
        (ns.Bind name (some s) errno).2.1.GetByName name = some s ∧
        ∀ n, n ≠ name →
          (ns.Bind name (some s) errno).2.1.map_ n = ns.map_ n) ∧
      ((ns.map_ name).isSome = true →
        ns.Bind name (some s) errno = (-1, ns, EADDRINUSE)) ∧
      (ns.Bind name none errno).1 = 0 ∧
      (ns.Bind name none errno).2.1.GetByName name = none ∧
      (ns.Bind name none errno).2.1.map_ name = some none) := by
  constructor
  · intro h stream
    simp [LogdSocketNamespace.Bind, h]
  · intro h s
    refine ⟨?_, ?_, ?_, ?_, ?_⟩
    · intro hn
      simp [LogdSocketNamespace.Bind, LogdSocketNamespace.GetByName, h, hn]
      intro n hne
      simp [hne]
    · intro hs
      simp [LogdSocketNamespace.Bind, h, hs]
    · simp [LogdSocketNamespace.Bind, h]
    · simp [LogdSocketNamespace.Bind, LogdSocketNamespace.GetByName, h]
    · simp [LogdSocketNamespace.Bind, h]

/-- C29, refuted by the code. `Bind("/dev/socket/logd", s1)` succeeds on a new namespace;
`Bind("/dev/socket/logd", NULL)` releases the name and succeeds, and `GetByName` then
returns `NULL`: no socket is bound to the name. Yet `Bind("/dev/socket/logd", s2)` fails
with `EADDRINUSE`: the release stores a null pointer under the name instead of erasing the
entry, and `Bind` tests the presence of the entry. -/
theorem released_logd_name_cannot_be_bound_again :
    IsNameAccepted "/dev/socket/logd".toList = true ∧
    (LogdSocketNamespace.new.Bind "/dev/socket/logd".toList (some 1) 0).1 = 0 ∧
    ((LogdSocketNamespace.new.Bind "/dev/socket/logd".toList (some 1) 0).2.1.Bind
      "/dev/socket/logd".toList none 0).1 = 0 ∧
    ((LogdSocketNamespace.new.Bind "/dev/socket/logd".toList (some 1) 0).2.1.Bind
      "/dev/socket/logd".toList none 0).2.1.GetByName "/dev/socket/logd".toList = none ∧
    (((LogdSocketNamespace.new.Bind "/dev/socket/logd".toList (some 1) 0).2.1.Bind
      "/dev/socket/logd".toList none 0).2.1.Bind "/dev/socket/logd".toList (some 2) 0).1
        = -1 ∧
    (((LogdSocketNamespace.new.Bind "/dev/socket/logd".toList (some 1) 0).2.1.Bind
      "/dev/socket/logd".toList none 0).2.1.Bind "/dev/socket/logd".toList (some 2) 0).2.2
        = EADDRINUSE ∧
    ¬ BindSucceedsIffUnbound
      ((LogdSocketNamespace.new.Bind "/dev/socket/logd".toList (some 1) 0).2.1.Bind
        "/dev/socket/logd".toList none 0).2.1 "/dev/socket/logd".toList 2 := by
  refine ⟨by decide, by decide, by decide, by decide, by decide, by decide, ?_⟩
  unfold BindSucceedsIffUnbound
  decide

/-! ## C30: `GetMedian` -/

/-- C30, refuted by the code. For the samples 1, 3, 5, 7, which `std::nth_element` may
leave (and libstdc++ does leave) in this order, `GetMedian` returns 3, while the median,
the truncating average of the two middle elements 3 and 5, is 4:
`std::max_element(begin, begin + mid_index - 1)` leaves the element at `mid_index - 1` out
of the range it searches. -/
theorem GetMedian_misses_the_lower_middle_element :
    IsNthElementArrangement [1, 3, 5, 7] 2 [1, 3, 5, 7] ∧
    GetMedian (fun v _ => v) [1, 3, 5, 7] = 3 ∧
    medianOf [1, 3, 5, 7] = 4 ∧
    GetMedian (fun v _ => v) [1, 3, 5, 7] ≠ medianOf [1, 3, 5, 7] := by
  refine ⟨⟨List.Perm.refl _, by decide, by decide⟩, by decide, by decide, by decide⟩

/-! ## C23 and C24: the symlink tables of the redirect handler -/

theorem lookup_filter_ne (l : List (Str × Str)) (link q : Str) :
    (l.filter (fun kv => decide (kv.1 ≠ link))).lookup q =
      if q = link then none else l.lookup q := by
  induction l with
  | nil => simp
  | cons kv rest ih =>
    obtain ⟨k, v⟩ := kv
    rw [List.filter_cons]
    by_cases hk : k = link
    · have hd : decide ((k, v).1 ≠ link) = false := by simpa using hk
      rw [hd]
      simp only [Bool.false_eq_true, if_false]
      rw [ih]
      by_cases hq : q = link
      · rw [if_pos hq, if_pos hq]
      · have hqk : (q == k) = false := by
          rw [hk]
          simpa using hq
        rw [if_neg hq, if_neg hq]
        simp only [List.lookup, hqk]
    · have hd : decide ((k, v).1 ≠ link) = true := by simpa using hk
      rw [hd]
      simp only [if_true]
      by_cases hqk : q = k
      · have hq : ¬ q = link := by rw [hqk]; exact hk
        have hb : (q == k) = true := by simpa using hqk
        rw [if_neg hq]
        simp only [List.lookup, hb]
      · have hb : (q == k) = false := by simpa using hqk
        simp only [List.lookup, hb]
        exact ih

theorem lookup_mem (l : List (Str × Str)) (q t : Str) (h : l.lookup q = some t) :
    (q, t) ∈ l := by
  induction l with
  | nil => simp at h
  | cons kv rest ih =>
    obtain ⟨k, v⟩ := kv
    by_cases hqk : q = k
    · subst hqk
      simp only [List.lookup, beq_self_eq_true, Option.some.injEq] at h
      subst h
      exact List.mem_cons_self _ _
    · have : (q == k) = false := by simpa using hqk
      simp only [List.lookup, this] at h
      exact List.mem_cons_of_mem _ (ih h)

theorem symlink_ok_cases (h : RedirectHandler) (u : Underlying) (target link : Str)
    (errno : Nat) (hok : (h.symlink u target link errno).1 = 0) :
    h.GetSymlinkTarget link = [] ∧
    h.symlink u target link errno = (0, h.AddSymlink target link, errno) := by
  unfold RedirectHandler.symlink at hok ⊢
  simp only at hok ⊢
  split at hok
  · simp at hok
  · rename_i hc
    rw [if_neg hc]
    simp only [not_or, not_not] at hc
    exact ⟨hc.1, rfl⟩

/-- C23, the part that holds. Overlay symlink round trip, for a target that is not the empty
string and a handler none of whose links has the empty target: after `symlink(target, link)`
returns 0, `readlink(link)` yields `target` and returns its length, and the other links keep
their targets. After `unlink(link)` or `remove(link)` on a registered link, the call returns
0 whatever the underlying handler is (it is not consulted), `readlink(link)` fails with -1
and `EINVAL`, and the other links keep their targets. `readlink` of a path that is not
registered fails with `EINVAL`. -/
theorem overlay_symlink_round_trip (h : RedirectHandler) (u : Underlying)
    (target link : Str) (errno : Nat)
    (hinv : NoEmptyTarget h) (ht : target ≠ []) :
    ((h.symlink u target link errno).1 = 0 →
      (∀ r e, (h.symlink u target link errno).2.1.readlink link r e =
        ((target.length : Int), target, e)) ∧
      (∀ q, q ≠ link →
        (h.symlink u target link errno).2.1.GetSymlinkTarget q = h.GetSymlinkTarget q) ∧
      NoEmptyTarget (h.symlink u target link errno).2.1) ∧
    ((h.symlinks_.lookup link).isSome = true → ∀ u1 : Underlying,
      h.unlink u1 link errno = (0, (h.RemoveSymlinkTarget link).2, errno) ∧
      h.remove u1 link errno = (0, (h.RemoveSymlinkTarget link).2, errno) ∧
      (∀ r e, (h.RemoveSymlinkTarget link).2.readlink link r e = (-1, r, EINVAL)) ∧
      (∀ q, q ≠ link →
        (h.RemoveSymlinkTarget link).2.GetSymlinkTarget q = h.GetSymlinkTarget q) ∧
      NoEmptyTarget (h.RemoveSymlinkTarget link).2) ∧
    (h.symlinks_.lookup link = none → ∀ r e, h.readlink link r e = (-1, r, EINVAL)) := by
  refine ⟨?_, ?_, ?_⟩
  · intro hok
    obtain ⟨hget, heq⟩ := symlink_ok_cases h u target link errno hok
    have hnone : h.symlinks_.lookup link = none := by
      cases hl : h.symlinks_.lookup link with
      | none => rfl
      | some t =>
        exfalso
        unfold RedirectHandler.GetSymlinkTarget at hget
        rw [hl] at hget
        simp only at hget
        exact hinv (link, t) (lookup_mem _ _ _ hl) hget
    have hmap : (h.AddSymlink target link).symlinks_ = (link, target) :: h.symlinks_ := by
      simp [RedirectHandler.AddSymlink, hnone]
    rw [heq]
    simp only
    refine ⟨?_, ?_, ?_⟩
    · intro r e
      simp [RedirectHandler.readlink, RedirectHandler.GetSymlinkTarget, hmap, List.lookup, ht]
    · intro q hq
      have : (q == link) = false := by simpa using hq
      simp [RedirectHandler.GetSymlinkTarget, hmap, List.lookup, this]
    · intro kv hkv
      rw [hmap] at hkv
      rcases List.mem_cons.1 hkv with hk | hk
      · rw [hk]
        exact ht
      · exact hinv kv hk
  · intro hreg u1
    obtain ⟨t, hl⟩ := Option.isSome_iff_exists.1 hreg
    have hrem : h.RemoveSymlinkTarget link =
        (true, { h with symlinks_ := h.symlinks_.filter (fun kv => decide (kv.1 ≠ link)) }) := by
      simp [RedirectHandler.RemoveSymlinkTarget, hl]
    refine ⟨?_, ?_, ?_, ?_, ?_⟩
    · simp [RedirectHandler.unlink, hrem]
    · simp [RedirectHandler.remove, hrem]
    · intro r e
      rw [hrem]
      simp only [RedirectHandler.readlink, RedirectHandler.GetSymlinkTarget, lookup_filter_ne,
        if_true]
    · intro q hq
      rw [hrem]
      simp only [RedirectHandler.GetSymlinkTarget, lookup_filter_ne, if_neg hq]
    · intro kv hkv
      rw [hrem] at hkv
      simp only [List.mem_filter] at hkv
      exact hinv kv hkv.1
  · intro hnone r e
    simp [RedirectHandler.readlink, RedirectHandler.GetSymlinkTarget, hnone]

/-- C23, the part that holds, at a concrete input: `symlink("/system/lib", "/lib")` on a
handler without links
returns 0, and `readlink("/lib")` then returns 11 with "/system/lib". -/
theorem overlay_symlink_round_trip_witness :
    (RedirectHandler.new.symlink Underlying.empty "/system/lib".toList "/lib".toList 0).1
      = 0 ∧
    (RedirectHandler.new.symlink Underlying.empty "/system/lib".toList
      "/lib".toList 0).2.1.readlink "/lib".toList [] 0 = (11, "/system/lib".toList, 0) :=
  ⟨by decide,
    ((overlay_symlink_round_trip RedirectHandler.new Underlying.empty "/system/lib".toList
      "/lib".toList 0 (by intro kv hkv; cases hkv) (by decide)).1 (by decide)).1 [] 0⟩

/-- C23, refuted by the code. `symlink("", "/l")` on a handler without links returns 0 and
registers the link, but `readlink("/l")` then fails with -1 and `EINVAL` instead of
yielding the target and its length 0: `GetSymlinkTarget` returns the empty string for "not a
link", so `readlink` takes the registered link for no link. The test for `EEXIST` in
`symlink` misses the link for the same reason: `symlink("/t", "/l")` returns 0 as well,
although the insertion into `symlinks_` fails (the target stays empty, `readlink("/l")`
still fails) and the name is listed a second time under its directory. -/
theorem symlink_with_empty_target_cannot_be_read :
    (RedirectHandler.new.symlink Underlying.empty [] "/l".toList 0).1 = 0 ∧
    (RedirectHandler.new.symlink Underlying.empty [] "/l".toList 0).2.1.symlinks_ =
      [("/l".toList, [])] ∧
    (RedirectHandler.new.symlink Underlying.empty [] "/l".toList 0).2.1.readlink
      "/l".toList [] 0 = (-1, [], EINVAL) ∧
    ((RedirectHandler.new.symlink Underlying.empty [] "/l".toList 0).2.1.symlink
      Underlying.empty "/t".toList "/l".toList 0).1 = 0 ∧
    ((RedirectHandler.new.symlink Underlying.empty [] "/l".toList 0).2.1.symlink
      Underlying.empty "/t".toList "/l".toList 0).2.1.symlinks_ = [("/l".toList, [])] ∧
    ((RedirectHandler.new.symlink Underlying.empty [] "/l".toList 0).2.1.symlink
      Underlying.empty "/t".toList "/l".toList 0).2.1.readlink "/l".toList [] 0 =
        (-1, [], EINVAL) ∧
    ((RedirectHandler.new.symlink Underlying.empty [] "/l".toList 0).2.1.symlink
      Underlying.empty "/t".toList "/l".toList 0).2.1.OnDirectoryContentsNeeded
        (GetDirName "/l".toList) = ["l".toList, "l".toList] := by
  refine ⟨by decide, by decide, by decide, by decide, by decide, by decide, by decide⟩

/-- C24, refuted by the code. `symlink("/t", "/d/l")` registers the link and lists the name
"l" under "/d". `unlink("/d/l")` returns 0 and the link is no longer registered, yet
`OnDirectoryContentsNeeded("/d")` still adds the entry "l": `RemoveSymlinkTarget` erases
from `symlinks_` only, never from `dir_to_symlinks_`. After the link is created again the
entry is added twice. -/
theorem unlinked_symlink_stays_in_directory_listing :
    (RedirectHandler.new.symlink Underlying.empty "/t".toList "/d/l".toList 0).1 = 0 ∧
    ListedOncePerLink
      (RedirectHandler.new.symlink Underlying.empty "/t".toList "/d/l".toList 0).2.1
      "/d".toList "l".toList "/d/l".toList ∧
    ((RedirectHandler.new.symlink Underlying.empty "/t".toList "/d/l".toList 0).2.1.unlink
      Underlying.empty "/d/l".toList 0).1 = 0 ∧
    ((RedirectHandler.new.symlink Underlying.empty "/t".toList "/d/l".toList 0).2.1.unlink
      Underlying.empty "/d/l".toList 0).2.1.symlinks_ = [] ∧
    ((RedirectHandler.new.symlink Underlying.empty "/t".toList "/d/l".toList 0).2.1.unlink
      Underlying.empty "/d/l".toList 0).2.1.OnDirectoryContentsNeeded "/d".toList =
        ["l".toList] ∧
    ¬ ListedOncePerLink
      ((RedirectHandler.new.symlink Underlying.empty "/t".toList "/d/l".toList 0).2.1.unlink
        Underlying.empty "/d/l".toList 0).2.1 "/d".toList "l".toList "/d/l".toList ∧
    ((((RedirectHandler.new.symlink Underlying.empty "/t".toList "/d/l".toList 0).2.1.unlink
      Underlying.empty "/d/l".toList 0).2.1.symlink Underlying.empty "/t".toList
        "/d/l".toList 0).2.1.OnDirectoryContentsNeeded "/d".toList) =
          ["l".toList, "l".toList] ∧
    ¬ ListedOncePerLink
      (((RedirectHandler.new.symlink Underlying.empty "/t".toList "/d/l".toList 0).2.1.unlink
        Underlying.empty "/d/l".toList 0).2.1.symlink Underlying.empty "/t".toList
          "/d/l".toList 0).2.1 "/d".toList "l".toList "/d/l".toList := by
  refine ⟨by decide, ?_, by decide, by decide, by decide, ?_, by decide, ?_⟩
  · unfold ListedOncePerLink
    decide
  · unfold ListedOncePerLink
    decide
  · unfold ListedOncePerLink
    decide

/-! ## C21: `errno` after a failed `open` -/

theorem open_preopen_hit (env : Env) (fuel : Nat) (s : VirtualFileSystem)
    (pathname resolved : Str) (oflag cmode : Nat) (v : Int) (l1 l2 : List (Str × Int))
    (hmain : env.IsMainThread = false)
    (hnorm : GetNormalizedPathLocked env s.cwd fuel pathname .kResolveSymlinks = .ok resolved)
    (helig : IsEligibleForPreopen oflag = true)
    (hcache : s.preopened_fds_ = l1 ++ (resolved, v) :: l2)
    (hfirst : ∀ kv ∈ l1, kv.1 ≠ resolved)
    (hv : v ≠ kPreopenPendingFd) :
    vfs_open env fuel s pathname oflag cmode =
      .ok (v, { s with preopened_fds_ := l1 ++ l2 }) := by
  have hf := find_first_entry l1 l2 resolved v hfirst
  unfold vfs_open OpenLocked
  simp only [hmain, Bool.false_eq_true, if_false]
  rw [hnorm, Result.ok_bind]
  simp only [helig, and_self, if_true, hcache, hf.1, hf.2, ne_eq, hv, not_false_eq_true]

/-- C21, refuted by the code. "/tmp/x" is scheduled for preopen on a VFS whose handler has
no such file; the preopen thread's `open` fails (with `ENOENT` in the `errno` of that
thread) and the thread stores -1 in the cache. `open("/tmp/x", O_RDONLY)` then returns -1
from the cache, and the `errno` of the calling thread is the value `e` it had before the
call, whatever `e` is: the call does not set `errno`. -/
theorem preopen_hit_returns_failure_without_errno :
    failedPreopenState.preopened_fds_ = [("/tmp/x".toList, -1)] ∧
    failedPreopenState.errno = 0 ∧
    failedPreopenState.handler_calls = [HandlerCall.open 1 3 "/tmp/x".toList 0 0] ∧
    ∀ e : Nat, ∃ s1,
      vfs_open noFileEnv 1 { failedPreopenState with errno := e } "/tmp/x".toList
        O_RDONLY 0 = .ok (-1, s1) ∧
      s1.errno = e ∧ s1.handler_calls = failedPreopenState.handler_calls := by
  have hc : failedPreopenState.preopened_fds_ = [("/tmp/x".toList, -1)] := by decide
  have hcwd : failedPreopenState.cwd = ['/'] := by decide
  refine ⟨hc, by decide, by decide, ?_⟩
  intro e
  have h := open_preopen_hit noFileEnv 1 { failedPreopenState with errno := e }
    "/tmp/x".toList "/tmp/x".toList O_RDONLY 0 (-1) [] [] (by decide)
    (by simp only [hcwd]; decide) (by decide) hc (by simp) (by decide)
  exact ⟨_, h, rfl, rfl⟩

/-! ## C25: `getcwd` -/

theorem takeWhile_of_not_mem (l : Str) (h : NUL ∉ l) :
    l.takeWhile (fun ch => decide (ch ≠ NUL)) = l := by
  rw [List.takeWhile_eq_self_iff]
  intro ch hch
  have : ch ≠ NUL := fun e => h (e ▸ hch)
  simpa using this

theorem getcwd_path (c0 : Str) (hnul : NUL ∉ c0 ++ ['/']) :
    let c := c0 ++ ['/']
    let n := if c.length > 1 then c.length - 1 else c.length
    n = (cwdWithoutFinalSlash c).length ∧ strncpy c n = cwdWithoutFinalSlash c := by
  intro c n
  have htw := takeWhile_of_not_mem c hnul
  cases c0 with
  | nil =>
    refine ⟨rfl, ?_⟩
    simp only [strncpy, htw]
    rfl
  | cons x xs =>
    have hlen : c.length = xs.length + 2 := by simp [c]
    have hn : n = xs.length + 1 := by
      simp only [n, hlen]
      simp
    have hne : c ≠ ['/'] := by
      intro e
      have := congrArg List.length e
      rw [hlen] at this
      simp at this
    have hP : cwdWithoutFinalSlash c = x :: xs := by
      simp only [cwdWithoutFinalSlash, if_neg hne]
      show ((x :: xs) ++ ['/']).dropLast = x :: xs
      exact List.dropLast_concat
    have htake : c.take n = x :: xs := by
      rw [hn]
      simp [c]
    refine ⟨by rw [hn, hP]; rfl, ?_⟩
    simp only [strncpy, htw, htake, hP]
    rw [hn]
    simp

/-- C25. `getcwd` reports the working directory without its trailing slash. With the stored
directory `C`, which ends in '/' (and is a C string: it has no NUL in it), and `P` the path
`C` without its final '/', or "/" when `C` is "/":
* `getcwd(NULL, 0)` allocates a buffer of exactly `len(P) + 1` bytes, holding `P` and the
  final NUL;
* `getcwd(buf, 0)` with `buf` not null fails with `EINVAL`;
* `getcwd` with `0 < size ≤ len(P)` fails with `ERANGE`;
* in every other case (`size > len(P)`) the result is `P` with the final NUL, in `buf` when
  it is not null, and otherwise in a buffer of the requested size from `malloc`.
The allocations are those that `malloc` grants; when it fails, `getcwd` returns `NULL` with
`ENOMEM`. -/
theorem getcwd_reports_directory_without_trailing_slash (malloc : Nat → Bool)
    (s : VirtualFileSystem) (c0 : Str)
    (hend : s.cwd = c0 ++ ['/']) (hnul : NUL ∉ s.cwd) :
    (malloc ((cwdWithoutFinalSlash s.cwd).length + 1) = true →
      getcwd malloc s false 0 =
        (.inFresh ((cwdWithoutFinalSlash s.cwd).length + 1)
          (cwdWithoutFinalSlash s.cwd ++ [NUL]), s)) ∧
    getcwd malloc s true 0 = (.null, { s with errno := EINVAL }) ∧
    (∀ buf size, 0 < size → size ≤ (cwdWithoutFinalSlash s.cwd).length →
      getcwd malloc s buf size = (.null, { s with errno := ERANGE })) ∧
    (∀ size, (cwdWithoutFinalSlash s.cwd).length < size →
      getcwd malloc s true size = (.inBuf (cwdWithoutFinalSlash s.cwd ++ [NUL]), s) ∧
      (malloc size = true →
        getcwd malloc s false size =
          (.inFresh size (cwdWithoutFinalSlash s.cwd ++ [NUL]), s)) ∧
      (malloc size = false →
        getcwd malloc s false size = (.null, { s with errno := ENOMEM }))) := by
  rw [hend] at hnul
  obtain ⟨hn, hcopy⟩ := getcwd_path c0 hnul
  rw [← hend] at hn hcopy
  rw [hn] at hcopy
  refine ⟨?_, ?_, ?_, ?_⟩
  · intro hm
    unfold getcwd
    simp only [hn]
    simp [hcopy, hm]
  · unfold getcwd
    simp
  · intro buf size h0 hle
    unfold getcwd
    simp only [hn]
    have hs : size ≠ 0 := by omega
    simp [hs, hle]
  · intro size hlt
    have hs : size ≠ 0 := by omega
    have hnle : ¬ size ≤ (cwdWithoutFinalSlash s.cwd).length := by omega
    refine ⟨?_, ?_, ?_⟩
    · unfold getcwd
      simp only [hn]
      simp [hs, hnle, hcopy]
    · intro hm
      unfold getcwd
      simp only [hn]
      simp [hs, hnle, hm, hcopy]
    · intro hm
      unfold getcwd
      simp only [hn]
      simp [hs, hnle, hm, hcopy]

/-- C25, at a concrete input: with the working directory "/data/app/", `getcwd(NULL, 0)`
returns a buffer of 10 bytes holding "/data/app" and the final NUL, and `getcwd(buf, 9)`
fails with `ERANGE`; with the working directory "/", `getcwd(buf, 2)` fills `buf` with "/"
and the final NUL. -/
theorem getcwd_reports_directory_without_trailing_slash_witness :
    getcwd (fun _ => true)
        { VirtualFileSystem.new 3 1023 false with cwd := "/data/app/".toList } false 0 =
      (.inFresh 10 ("/data/app".toList ++ [NUL]),
        { VirtualFileSystem.new 3 1023 false with cwd := "/data/app/".toList }) ∧
    (getcwd (fun _ => true)
        { VirtualFileSystem.new 3 1023 false with cwd := "/data/app/".toList } true 9).1 =
      .null ∧
    (getcwd (fun _ => true) (VirtualFileSystem.new 3 1023 false) true 2).1 =
      .inBuf ['/', NUL] := by
  have h := getcwd_reports_directory_without_trailing_slash (fun _ => true)
    { VirtualFileSystem.new 3 1023 false with cwd := "/data/app/".toList }
    "/data/app".toList rfl (by decide)
  refine ⟨h.1 rfl, ?_, by decide⟩
  rw [h.2.2.1 true 9 (by decide) (by decide)]

/-! ## C26 and C27: `select` -/

theorem selectWait_blocks (w : SelectWorld) (tbl : FdToFileStreamMap) (nfds : Int)
    (timeout : Option (Int × Int)) (hw : ∀ now, w.WaitUntil now timeout = false) :
    ∀ (fuel now : Nat) (passes : List (SelectReadyEvent × Bool)),
      selectWait w tbl nfds none none none timeout fuel now passes = .diverges := by
  intro fuel
  induction fuel with
  | zero => intro now passes; rfl
  | succ n ih =>
    intro now passes
    unfold selectWait
    simp only [IsSelectReadyLocked, ne_eq, not_true_eq_false, if_false, hw,
      Bool.false_eq_true]
    exact ih _ _

theorem select_blocks_without_timeout (w : SelectWorld) (fuel : Nat) (s : VirtualFileSystem)
    (nfds : Int) (hw : ∀ now, w.WaitUntil now none = false) :
    select w fuel s nfds none none none none = .diverges := by
  unfold select
  simp only [reduceCtorEq, decide_False, if_true]
  rw [selectWait_blocks w _ nfds none hw]
  rfl

theorem isSelectReadyLoop_apply (w : SelectWorld) (now : Nat) (tbl : FdToFileStreamMap)
    (event : SelectReadyEvent) (is : List Nat) :
    ∀ (nset : Int) (fds : FdSet),
      isSelectReadyLoop w now tbl event true is nset fds =
        (nset + ((is.filter fun j => fds j &&
            match tbl.GetStream j with
            | some stream => w.IsSelectReady now stream event
            | none => false).length : Nat),
          fun j => if j ∈ is ∧ (fds j &&
              match tbl.GetStream j with
              | some stream => !w.IsSelectReady now stream event
              | none => false) = true then false else fds j) := by
  induction is with
  | nil =>
    intro nset fds
    simp [isSelectReadyLoop]
  | cons i rest ih =>
    intro nset fds
    unfold isSelectReadyLoop
    by_cases hset : fds i = false
    · rw [if_pos hset, ih]
      refine Prod.ext ?_ ?_
      · simp [List.filter_cons, hset]
      · funext j
        by_cases hj : j = i
        · subst hj
          simp [hset]
        · simp [hj]
    · rw [if_neg hset]
      have hset1 : fds i = true := by simpa using hset
      cases hst : tbl.GetStream i with
      | none =>
        simp only
        rw [ih]
        refine Prod.ext ?_ ?_
        · simp [List.filter_cons, hst]
        · funext j
          by_cases hj : j = i
          · subst hj
            simp [hst]
          · simp [hj]
      | some stream =>
        simp only
        by_cases hr : w.IsSelectReady now stream event = true
        · rw [if_pos hr]
          simp only [Bool.true_eq_false, if_false]
          rw [ih]
          refine Prod.ext ?_ ?_
          · simp only [List.filter_cons, hset1, hst, hr, Bool.and_self, if_true,
              List.length_cons]
            push_cast
            ring
          · funext j
            by_cases hj : j = i
            · subst hj
              simp [hst, hr, hset1]
            · simp [hj]
        · rw [if_neg hr]
          have hr1 : w.IsSelectReady now stream event = false := by simpa using hr
          simp only [if_true]
          rw [ih]
          refine Prod.ext ?_ ?_
          · simp only [List.filter_cons, hset1, hst, hr1, Bool.and_false,
              Bool.false_eq_true, if_false]
            congr 3
            apply List.filter_congr
            intro j _
            by_cases hj : j = i
            · subst hj
              simp [FD_CLR, hst, hr1]
            · simp [FD_CLR, hj]
          · funext j
            by_cases hj : j = i
            · subst hj
              simp [FD_CLR, hst, hr1, hset1]
            · simp [FD_CLR, hj]

theorem select_polling_writes_back (w : SelectWorld) (fuel : Nat) (s : VirtualFileSystem)
    (nfds : Int) (readfds : FdSet) :
    ∃ r, select w fuel s nfds (some readfds) none none (some (0, 0)) = .ok r ∧
      0 ≤ r.ret ∧
      r.ret = (((List.range nfds.toNat).filter fun j => readfds j &&
        match s.fd_to_stream_.GetStream j with
        | some stream => w.IsSelectReady 0 stream .SELECT_READY_READ
        | none => false).length : Nat) ∧
      r.readfds = some (fun j =>
        if j ∈ List.range nfds.toNat ∧ (readfds j &&
          match s.fd_to_stream_.GetStream j with
          | some stream => !w.IsSelectReady 0 stream .SELECT_READY_READ
          | none => false) = true then false else readfds j) ∧
      r.writefds = none ∧ r.exceptfds = none := by
  unfold select
  simp only [decide_True, Bool.true_eq_false, if_false]
  unfold selectFinish
  simp only [IsSelectReadyLocked, isSelectReadyLoop_apply, zero_add, add_zero,
    lt_self_iff_false, or_false]
  rw [if_neg (by omega)]
  exact ⟨_, rfl, by simp, rfl, rfl, rfl, rfl⟩

/-- C27, refuted by the code. On a fresh VFS, where descriptor 3 has no stream, `select`
is called with `nfds = 4`, the read set {3}, no write and except sets, and a zero timeout.
It returns 0, and descriptor 3 is still set in the read set: `IsSelectReadyLocked` skips a
descriptor without a stream with `continue`, neither clearing its bit nor counting it, and
never returns the negative value for which `select` would set `EBADF`. The set written back
is not the set of ready descriptors, and the value returned is not the number of
descriptors still set. -/
theorem select_leaves_unbound_descriptor_set :
    (VirtualFileSystem.new 3 1023 false).fd_to_stream_.GetStream 3 = none ∧
    ∃ r, select readyWorld 0 (VirtualFileSystem.new 3 1023 false) 4
        (some (fun i => decide (i = 3))) none none (some (0, 0)) = .ok r ∧
      r.ret = 0 ∧
      (∃ set, r.readfds = some set ∧ set 3 = true) ∧
      countSet 4 r.readfds = 1 ∧
      ¬ SelectReadConsistent readyWorld (VirtualFileSystem.new 3 1023 false) 4
        (fun i => decide (i = 3)) r := by
  refine ⟨by decide, ?_⟩
  obtain ⟨r, hr, _, hret, hread, _, _⟩ := select_polling_writes_back readyWorld 0
    (VirtualFileSystem.new 3 1023 false) 4 (fun i => decide (i = 3))
  have hret0 : r.ret = 0 := by
    rw [hret]
    decide
  have hset : ∃ set, r.readfds = some set ∧ set 3 = true := ⟨_, hread, by decide⟩
  have hcount : countSet 4 r.readfds = 1 := by
    rw [hread]
    decide
  refine ⟨r, hr, hret0, hset, hcount, ?_⟩
  intro hc
  have := hc.2.1
  rw [hret0, hcount] at this
  exact absurd this (by decide)

/-! ## C22: `mmap` rejects invalid arguments -/

theorem and_not_low_bits (x b k : Nat) (hx : x < 2 ^ b) :
    x &&& ((2 ^ b - 1) ^^^ (2 ^ k - 1)) = x - x % 2 ^ k := by
  have h1 : x &&& (2 ^ b - 1) = x := by
    rw [Nat.and_pow_two_sub_one_eq_mod, Nat.mod_eq_of_lt hx]
  have h2 : x &&& (2 ^ k - 1) = x % 2 ^ k := Nat.and_pow_two_sub_one_eq_mod x k
  rw [Nat.and_xor_distrib_left, h1, h2]
  have hsub : x - x % 2 ^ k = 2 ^ k * (x / 2 ^ k) := by
    have := Nat.div_add_mod x (2 ^ k)
    omega
  rw [hsub]
  apply Nat.eq_of_testBit_eq
  intro i
  rw [Nat.testBit_xor, Nat.testBit_mod_two_pow, Nat.testBit_mul_pow_two,
    ← Nat.shiftRight_eq_div_pow, Nat.testBit_shiftRight]
  by_cases hi : i < k
  · have : ¬ k ≤ i := by omega
    simp [hi, this]
  · have hk : k ≤ i := by omega
    have he : k + (i - k) = i := by omega
    simp [hi, hk, he]

theorem offset_cast_mod (w : MmapWorld) (k : Nat) (hpage : w.GetPageSize = 2 ^ k)
    (hk : k ≤ w.pointer_bits) (offset : Int) :
    ((offset % 2 ^ w.pointer_bits).toNat : Int) % (w.GetPageSize : Int) =
      offset % (w.GetPageSize : Int) := by
  have hpos : (0 : Int) < 2 ^ w.pointer_bits := by positivity
  have hnn : 0 ≤ offset % 2 ^ w.pointer_bits := Int.emod_nonneg _ (ne_of_gt hpos)
  rw [Int.toNat_of_nonneg hnn, hpage]
  push_cast
  exact Int.emod_emod_of_dvd _ (pow_dvd_pow 2 hk)

theorem round_ne_of_not_multiple (w : MmapWorld) (c : Nat)
    (h : c % w.GetPageSize ≠ 0) : RoundToPageSize w c ≠ c := by
  intro e
  apply h
  rw [← e]
  unfold RoundToPageSize
  exact Nat.mul_mod_left _ _

theorem round_eq_of_multiple (w : MmapWorld) (k c : Nat) (hpage : w.GetPageSize = 2 ^ k)
    (hk : k ≤ w.pointer_bits) (hc : c < 2 ^ w.pointer_bits) (h : c % w.GetPageSize = 0) :
    RoundToPageSize w c = c := by
  unfold RoundToPageSize
  rw [hpage] at h ⊢
  have hpos : 0 < 2 ^ k := by positivity
  obtain ⟨q, hq⟩ : 2 ^ k ∣ 2 ^ w.pointer_bits := pow_dvd_pow 2 hk
  obtain ⟨a, ha⟩ : 2 ^ k ∣ c := Nat.dvd_of_mod_eq_zero h
  have haq : a < q := by
    rw [ha, hq] at hc
    exact lt_of_mul_lt_mul_left hc (Nat.zero_le _)
  have hlt : c + 2 ^ k - 1 < 2 ^ w.pointer_bits := by
    rw [ha, hq]
    have : 2 ^ k * a + 2 ^ k ≤ 2 ^ k * q := by
      calc 2 ^ k * a + 2 ^ k = 2 ^ k * (a + 1) := by ring
        _ ≤ 2 ^ k * q := Nat.mul_le_mul_left _ haq
    omega
  rw [Nat.mod_eq_of_lt hlt, ha]
  have hdiv : (2 ^ k * a + 2 ^ k - 1) / 2 ^ k = a := by
    have h1 : 2 ^ k * a + 2 ^ k - 1 = 2 ^ k - 1 + 2 ^ k * a := by omega
    rw [h1, Nat.add_mul_div_left _ _ hpos, Nat.div_eq_of_lt (by omega)]
    omega
  rw [hdiv, Nat.mul_comm]

/-- C22. `mmap` rejects invalid arguments before touching any state. With a page size that
is a power of two not above the width of `size_t`:
* it returns `MAP_FAILED` with `EINVAL` when `length` is 0, when `offset` is not a multiple
  of the page size, and when `MAP_FIXED` is set and `addr` is not page-aligned;
* otherwise, when the mapping is not anonymous and `fd` has no stream, it returns
  `MAP_FAILED` with `EBADF`;
* in each of these cases no stream's `mmap` is called and the memory-region map is
  unchanged;
* when `addr` is not aligned and `MAP_FIXED` is not set, the call that reaches the stream
  (anonymous mapping, or `fd` bound to a stream) passes `addr` rounded down to a page
  boundary. -/
theorem mmap_rejects_invalid_arguments (w : MmapWorld) (s : VirtualFileSystem)
    (m : MemoryRegion) (addr length prot flags : Nat) (fd : Int) (offset : Int) (k : Nat)
    (hpage : w.GetPageSize = 2 ^ k) (hk : k ≤ w.pointer_bits)
    (haddr : addr < 2 ^ w.pointer_bits) :
    (length = 0 → mmap w s m addr length prot flags fd offset = ⟨none, EINVAL, m, []⟩) ∧
    (offset % (w.GetPageSize : Int) ≠ 0 →
      mmap w s m addr length prot flags fd offset = ⟨none, EINVAL, m, []⟩) ∧
    ((flags &&& MAP_FIXED) ≠ 0 → addr % w.GetPageSize ≠ 0 →
      mmap w s m addr length prot flags fd offset = ⟨none, EINVAL, m, []⟩) ∧
    (length ≠ 0 → offset % (w.GetPageSize : Int) = 0 →
      ((flags &&& MAP_FIXED) = 0 ∨ addr % w.GetPageSize = 0) →
      (flags &&& (MAP_ANON ||| MAP_ANONYMOUS)) = 0 → s.fd_to_stream_.GetStream fd = none →
      mmap w s m addr length prot flags fd offset = ⟨none, EBADF, m, []⟩) ∧
    (length ≠ 0 → offset % (w.GetPageSize : Int) = 0 → (flags &&& MAP_FIXED) = 0 →
      ∀ st, (((flags &&& (MAP_ANON ||| MAP_ANONYMOUS)) ≠ 0 ∧ st = MappedStream.passthrough) ∨
          ((flags &&& (MAP_ANON ||| MAP_ANONYMOUS)) = 0 ∧
            ∃ stream, s.fd_to_stream_.GetStream fd = some stream ∧
              st = MappedStream.stream stream)) →
        (mmap w s m addr length prot flags fd offset).stream_calls =
          [⟨st, addr - addr % w.GetPageSize, RoundToPageSize w length, prot, flags,
            offset⟩]) := by
  have hpos : 0 < w.GetPageSize := by rw [hpage]; positivity
  have hcast := offset_cast_mod w k hpage hk offset
  have hclt : (offset % 2 ^ w.pointer_bits).toNat < 2 ^ w.pointer_bits := by
    have hp : (0 : Int) < 2 ^ w.pointer_bits := by positivity
    have h1 := Int.emod_lt_of_pos offset hp
    have h2 := Int.emod_nonneg offset (ne_of_gt hp)
    zify
    rw [Int.toNat_of_nonneg h2]
    exact_mod_cast h1
  have hbad : offset % (w.GetPageSize : Int) ≠ 0 →
      RoundToPageSize w (offset % 2 ^ w.pointer_bits).toNat ≠
        (offset % 2 ^ w.pointer_bits).toNat := by
    intro h
    apply round_ne_of_not_multiple w _
    intro h0
    apply h
    rw [← hcast]
    exact_mod_cast h0
  have hgood : offset % (w.GetPageSize : Int) = 0 →
      RoundToPageSize w (offset % 2 ^ w.pointer_bits).toNat =
        (offset % 2 ^ w.pointer_bits).toNat := by
    intro h
    apply round_eq_of_multiple w k _ hpage hk hclt
    rw [← hcast] at h
    exact_mod_cast h
  have halign : ∀ a, IsPageAligned w a = false ↔ a % w.GetPageSize ≠ 0 := by
    intro a
    simp [IsPageAligned]
  refine ⟨?_, ?_, ?_, ?_, ?_⟩
  · intro h
    simp [mmap, h]
  · intro h
    unfold mmap
    split
    · rfl
    · split
      · rfl
      · simp only [ne_eq, hbad h, not_false_eq_true, if_true]
  · intro hf ha
    unfold mmap
    split
    · rfl
    · rw [if_pos ⟨(halign addr).2 ha, hf⟩]
  · intro hl ho hfa hanon hstream
    unfold mmap
    rw [if_neg hl, if_neg]
    · simp only [ne_eq, hgood ho, not_true_eq_false, if_false, hanon, hstream, Option.map_none']
    · rintro ⟨h1, h2⟩
      rcases hfa with h | h
      · exact h2 h
      · exact (halign addr).1 h1 h
  · intro hl ho hf st hst
    have haddr1 : (if IsPageAligned w addr = false then
        addr &&& ((2 ^ w.pointer_bits - 1) ^^^ (w.GetPageSize - 1)) else addr) =
        addr - addr % w.GetPageSize := by
      by_cases ha : addr % w.GetPageSize = 0
      · have : ¬ IsPageAligned w addr = false := fun e => (halign addr).1 e ha
        rw [if_neg this, ha]
        rfl
      · rw [if_pos ((halign addr).2 ha), hpage]
        exact and_not_low_bits addr w.pointer_bits k haddr
    have hstream : (if (flags &&& (MAP_ANON ||| MAP_ANONYMOUS)) ≠ 0 then
        some MappedStream.passthrough
        else (s.fd_to_stream_.GetStream fd).map MappedStream.stream) = some st := by
      rcases hst with ⟨h1, h2⟩ | ⟨h1, stream, h2, h3⟩
      · rw [if_pos h1, h2]
      · rw [if_neg (by simpa using h1), h2, h3]
        rfl
    unfold mmap
    rw [if_neg hl, if_neg (by rintro ⟨_, h2⟩; exact h2 hf)]
    simp only [ne_eq, hgood ho, not_true_eq_false, if_false]
    simp only [ne_eq] at hstream haddr1
    rw [hstream]
    simp only [haddr1]
    split
    · rfl
    · repeat' split
      all_goals rfl

/-- C22, at a concrete input, with pages of 4096 bytes: an anonymous mapping of 100 bytes at
the hint 0x10001 reaches the stream with the address 0x10000 and the length 4096;
`mmap` with `length = 0` and `mmap` of a descriptor without a stream fail with `EINVAL` and
`EBADF`, and leave the memory-region map alone. -/
theorem mmap_rejects_invalid_arguments_witness :
    (mmap pageWorld (VirtualFileSystem.new 3 1023 false) [] 0x10001 100 1 MAP_ANONYMOUS
      (-1) 0).stream_calls =
        [⟨.passthrough, 0x10000, 4096, 1, MAP_ANONYMOUS, 0⟩] ∧
    mmap pageWorld (VirtualFileSystem.new 3 1023 false) [] 0x10001 0 1 MAP_ANONYMOUS (-1) 0 =
      ⟨none, EINVAL, [], []⟩ ∧
    mmap pageWorld (VirtualFileSystem.new 3 1023 false) [] 0 100 1 0 3 0 =
      ⟨none, EBADF, [], []⟩ := by
  have h := mmap_rejects_invalid_arguments pageWorld (VirtualFileSystem.new 3 1023 false) []
    0x10001 100 1 MAP_ANONYMOUS (-1) 0 12 rfl (by decide) (by decide)
  have h2 := mmap_rejects_invalid_arguments pageWorld (VirtualFileSystem.new 3 1023 false) []
    0x10001 0 1 MAP_ANONYMOUS (-1) 0 12 rfl (by decide) (by decide)
  have h3 := mmap_rejects_invalid_arguments pageWorld (VirtualFileSystem.new 3 1023 false) []
    0 100 1 0 3 0 12 rfl (by decide) (by decide)
  refine ⟨?_, h2.1 rfl, h3.2.2.2.1 (by decide) (by decide) (Or.inl (by decide)) (by decide)
    (by decide)⟩
  have := h.2.2.2.2 (by decide) (by decide) (by decide) .passthrough
    (Or.inl ⟨by decide, rfl⟩)
  rw [this]
  decide

/-! ## C30, continued: odd counts -/

theorem sorted_getD_iff (p : Int → Bool) (hp : ∀ a b, a ≤ b → p b = true → p a = true)
    (s : List Int) (hs : s.Sorted (fun a b => a ≤ b)) :
    ∀ i, i < s.length → (p (s.getD i 0) = true ↔ i < (s.filter p).length) := by
  induction s with
  | nil => intro i hi; simp at hi
  | cons h t ih =>
    intro i hi
    rw [List.sorted_cons] at hs
    by_cases hh : p h = true
    · rw [List.filter_cons_of_pos hh]
      cases i with
      | zero => simp [hh]
      | succ j =>
        simp only [List.getD_cons_succ, List.length_cons, Nat.add_lt_add_iff_right]
        exact ih hs.2 j (by simpa using hi)
    · have hnil : t.filter p = [] := by
        rw [List.filter_eq_nil_iff]
        intro y hy hpy
        exact hh (hp h y (hs.1 y hy) hpy)
      rw [List.filter_cons_of_neg hh, hnil]
      simp only [List.length_nil, Nat.not_lt_zero, iff_false]
      cases i with
      | zero => simpa using hh
      | succ j =>
        have hj : j < t.length := by simpa using hi
        simp only [List.getD_cons_succ]
        rw [List.getD_eq_getElem _ _ hj]
        intro hpy
        exact hh (hp h _ (hs.1 _ (List.getElem_mem hj)) hpy)

theorem nth_element_is_order_statistic (samples arranged : List Int) (mid : Nat)
    (hmid : mid < samples.length) (h : IsNthElementArrangement samples mid arranged) :
    (samples.insertionSort (fun a b => a ≤ b)).getD mid 0 = arranged.getD mid 0 := by
  obtain ⟨hperm, hbefore, hafter⟩ := h
  have hlen : arranged.length = samples.length := hperm.length_eq
  have hmid1 : mid < arranged.length := by omega
  have hsorted := List.sorted_insertionSort (fun a b : Int => a ≤ b) samples
  have hsperm : (samples.insertionSort (fun a b => a ≤ b)).Perm arranged :=
    (List.perm_insertionSort _ samples).trans hperm.symm
  have hslen : (samples.insertionSort (fun a b => a ≤ b)).length = arranged.length :=
    hsperm.length_eq
  have hxm : arranged.getD mid 0 = arranged[mid] := List.getD_eq_getElem _ _ hmid1
  generalize arranged.getD mid 0 = x at hbefore hafter hxm ⊢
  have hsplit : ∀ (p : Int → Bool) (k : Nat), List.countP p arranged =
      List.countP p (arranged.take k) + List.countP p (arranged.drop k) := by
    intro p k
    rw [← List.countP_append, List.take_append_drop]
  -- the elements below the selected one are before it, those not above it include it
  have hlt : (arranged.filter (fun y => decide (y < x))).length ≤ mid := by
    rw [← List.countP_eq_length_filter, hsplit _ mid]
    have h0 : List.countP (fun y => decide (y < x)) (arranged.drop mid) = 0 := by
      rw [List.countP_eq_zero]
      intro y hy
      obtain ⟨j, hj, hyj⟩ := List.mem_iff_getElem.1 hy
      rw [List.getElem_drop] at hyj
      rw [List.length_drop] at hj
      have hge : x ≤ y := by
        rw [← hyj]
        by_cases hj0 : j = 0
        · subst hj0
          rw [hxm]
          simp
        · have := hafter (mid + j) (by omega) (by omega)
          rw [List.getD_eq_getElem _ _ (by omega : mid + j < arranged.length)] at this
          exact this
      simpa using hge
    rw [h0, Nat.add_zero]
    exact (List.countP_le_length _).trans (by rw [List.length_take]; omega)
  have hle : mid < (arranged.filter (fun y => decide (y ≤ x))).length := by
    rw [← List.countP_eq_length_filter, hsplit _ (mid + 1)]
    have h1 : List.countP (fun y => decide (y ≤ x)) (arranged.take (mid + 1)) =
        (arranged.take (mid + 1)).length := by
      rw [List.countP_eq_length]
      intro y hy
      obtain ⟨j, hj, hyj⟩ := List.mem_iff_getElem.1 hy
      rw [List.getElem_take] at hyj
      rw [List.length_take] at hj
      have hjm : j ≤ mid := by omega
      have hyle : y ≤ x := by
        rw [← hyj]
        by_cases hje : j = mid
        · subst hje
          rw [hxm]
        · have := hbefore j (by omega)
          rw [List.getD_eq_getElem _ _ (by omega : j < arranged.length)] at this
          exact this
      simpa using hyle
    rw [h1, List.length_take]
    omega
  have hcl : ((samples.insertionSort (fun a b => a ≤ b)).filter
      (fun y => decide (y < x))).length =
      (arranged.filter (fun y => decide (y < x))).length := by
    rw [← List.countP_eq_length_filter, ← List.countP_eq_length_filter]
    exact hsperm.countP_eq _
  have hce : ((samples.insertionSort (fun a b => a ≤ b)).filter
      (fun y => decide (y ≤ x))).length =
      (arranged.filter (fun y => decide (y ≤ x))).length := by
    rw [← List.countP_eq_length_filter, ← List.countP_eq_length_filter]
    exact hsperm.countP_eq _
  have h1 := sorted_getD_iff (fun y => decide (y < x))
    (by intro a b hab hb; simp only [decide_eq_true_eq] at hb ⊢; omega)
    _ hsorted mid (by omega)
  have h2 := sorted_getD_iff (fun y => decide (y ≤ x))
    (by intro a b hab hb; simp only [decide_eq_true_eq] at hb ⊢; omega)
    _ hsorted mid (by omega)
  simp only [decide_eq_true_eq] at h1 h2
  rw [hcl] at h1
  rw [hce] at h2
  have ha : ¬ (samples.insertionSort (fun a b => a ≤ b)).getD mid 0 < x :=
    fun hx => absurd (h1.1 hx) (by omega)
  have hb := h2.2 hle
  omega

theorem GetMedian_of_odd_count (nth_element : List Int → Nat → List Int)
    (samples : List Int) (hodd : samples.length % 2 = 1)
    (hnth : IsNthElementArrangement samples (samples.length / 2)
      (nth_element samples (samples.length / 2))) :
    GetMedian nth_element samples = medianOf samples := by
  have hmid : samples.length / 2 < samples.length := by omega
  have h := nth_element_is_order_statistic samples _ _ hmid hnth
  unfold GetMedian medianOf
  simp only [hodd, ne_eq, one_ne_zero, not_false_eq_true, if_true]
  exact h.symm

/-! ## C24, continued: what the two tables do keep -/

theorem lookup_pushBackAt (m : List (Str × List Str)) (d n d1 : Str) :
    (pushBackAt m d n).lookup d1 =
      if d1 = d then some ((m.lookup d).getD [] ++ [n]) else m.lookup d1 := by
  induction m with
  | nil =>
    by_cases h : d1 = d
    · subst h
      simp [pushBackAt, List.lookup]
    · have hb : (d1 == d) = false := by simpa using h
      simp [pushBackAt, List.lookup, hb, h]
  | cons kv rest ih =>
    obtain ⟨k, names⟩ := kv
    unfold pushBackAt
    by_cases hk : k = d
    · subst hk
      rw [if_pos rfl]
      by_cases h : d1 = k
      · subst h
        simp [List.lookup]
      · have hb : (d1 == k) = false := by simpa using h
        simp [List.lookup, hb, h]
    · rw [if_neg hk]
      by_cases h1 : d1 = k
      · subst h1
        have hd : (d == d1) = false := by simpa using fun e : d = d1 => hk e.symm
        simp [List.lookup, hk, hd]
      · have hb : (d1 == k) = false := by simpa using h1
        have hdk : (d == k) = false := by simpa using fun e : d = k => hk e.symm
        simp only [List.lookup, hb, hdk]
        exact ih

theorem listed_after_AddSymlink (h : RedirectHandler) (dest src : Str)
    (hinv : RegisteredLinksListed h) : RegisteredLinksListed (h.AddSymlink dest src) := by
  have hlist : ∀ d n, n ∈ h.OnDirectoryContentsNeeded d →
      n ∈ (h.AddSymlink dest src).OnDirectoryContentsNeeded d := by
    intro d n hn
    simp only [RedirectHandler.OnDirectoryContentsNeeded, RedirectHandler.AddSymlink,
      lookup_pushBackAt] at hn ⊢
    by_cases hd : d = GetDirName src
    · subst hd
      rw [if_pos rfl]
      cases hl : h.dir_to_symlinks_.lookup (GetDirName src) with
      | none => rw [hl] at hn; simp at hn
      | some names =>
        rw [hl] at hn
        simp only at hn
        simp [hn]
    · rw [if_neg hd]
      exact hn
  have hnew : GetBaseName src ∈
      (h.AddSymlink dest src).OnDirectoryContentsNeeded (GetDirName src) := by
    simp [RedirectHandler.OnDirectoryContentsNeeded, RedirectHandler.AddSymlink,
      lookup_pushBackAt]
  intro kv hkv
  have hmem : kv ∈ h.symlinks_ ∨ kv = (src, dest) := by
    simp only [RedirectHandler.AddSymlink] at hkv
    split at hkv
    · exact Or.inl hkv
    · rcases List.mem_cons.1 hkv with e | e
      · exact Or.inr e
      · exact Or.inl e
  rcases hmem with hm | hm
  · exact hlist _ _ (hinv kv hm)
  · rw [hm]
    exact hnew

theorem listed_after_RemoveSymlinkTarget (h : RedirectHandler) (src : Str)
    (hinv : RegisteredLinksListed h) : RegisteredLinksListed (h.RemoveSymlinkTarget src).2 := by
  unfold RedirectHandler.RemoveSymlinkTarget
  split
  · exact hinv
  · intro kv hkv
    simp only [List.mem_filter] at hkv
    exact hinv kv hkv.1

theorem registered_links_are_listed (h : RedirectHandler) (u : Underlying)
    (a b : Str) (errno : Nat) (hinv : RegisteredLinksListed h) :
    RegisteredLinksListed RedirectHandler.new ∧
    RegisteredLinksListed (h.symlink u a b errno).2.1 ∧
    RegisteredLinksListed (h.unlink u a errno).2.1 ∧
    RegisteredLinksListed (h.remove u a errno).2.1 := by
  refine ⟨?_, ?_, ?_, ?_⟩
  · intro kv hkv
    cases hkv
  · unfold RedirectHandler.symlink
    simp only
    split
    · exact hinv
    · exact listed_after_AddSymlink h a b hinv
  · unfold RedirectHandler.unlink
    simp only
    split
    · exact listed_after_RemoveSymlinkTarget h a hinv
    · split <;> exact listed_after_RemoveSymlinkTarget h a hinv
  · unfold RedirectHandler.remove
    simp only
    split
    · exact listed_after_RemoveSymlinkTarget h a hinv
    · split <;> exact listed_after_RemoveSymlinkTarget h a hinv

/-! ## C13: `dup2` -/

/-- C13, as amended. `dup2(old, new)` hands `new` to `DupLocked` unchecked.
* When `new` is not negative and `old` is bound to a stream, `dup2` returns `new`; afterwards
  `new` is bound to the same stream as `old`, and the entry of every other descriptor is
  unchanged (what was bound to `new` is dropped); when `old = new` the state is unchanged.
* When `new` is negative and `old` is bound to a stream, `dup2` does what `dup(old)` does:
  it returns the smallest unused descriptor, bound to the stream of `old` with every other
  entry unchanged, or -1 with `EMFILE` when no descriptor is unused; it does not return `new`.
* When `old` has no stream, `dup2` returns -1 with `EBADF` and the descriptor table is
  unchanged, whatever `new` is. -/
theorem dup2_binds_the_same_stream (s : VirtualFileSystem) (old new : Int) :
    (0 ≤ new → ∀ stream, s.fd_to_stream_.GetStream old = some stream →
      (dup2 s old new).1 = new ∧
      (dup2 s old new).2.fd_to_stream_.GetStream new = some stream ∧
      (dup2 s old new).2.fd_to_stream_.GetStream old = some stream ∧
      (∀ x, x ≠ new →
        (dup2 s old new).2.fd_to_stream_.entries x = s.fd_to_stream_.entries x) ∧
      (old = new → (dup2 s old new).2 = s)) ∧
    (new < 0 → ∀ stream, s.fd_to_stream_.GetStream old = some stream →
      dup2 s old new = dup s old ∧
      (∀ fd, 0 ≤ s.fd_to_stream_.min_file_id → IsLowestUnused s.fd_to_stream_ fd →
        (dup2 s old new).1 = fd ∧ fd ≠ new ∧
        (dup2 s old new).2.fd_to_stream_.GetStream fd = some stream ∧
        (dup2 s old new).2.fd_to_stream_.GetStream old = some stream ∧
        (∀ x, x ≠ fd →
          (dup2 s old new).2.fd_to_stream_.entries x = s.fd_to_stream_.entries x)) ∧
      (NoUnusedDescriptor s.fd_to_stream_ →
        (dup2 s old new).1 = -1 ∧ (dup2 s old new).2.errno = EMFILE ∧
        (dup2 s old new).2.fd_to_stream_ = s.fd_to_stream_)) ∧
    (s.fd_to_stream_.GetStream old = none →
      (dup2 s old new).1 = -1 ∧ (dup2 s old new).2.errno = EBADF ∧
      (dup2 s old new).2.fd_to_stream_ = s.fd_to_stream_) := by
  refine ⟨?_, ?_, ?_⟩
  · intro hnew stream hs
    have hn : ¬ new < 0 := not_lt.2 hnew
    by_cases heq : old = new
    · subst heq
      have hd : dup2 s old old = (old, s) := by
        simp [dup2, DupLocked, hs, hn]
      rw [hd]
      exact ⟨rfl, hs, hs, fun _ _ => rfl, fun _ => rfl⟩
    · have hd : dup2 s old new = (new,
          { (CloseLocked s new).2 with
            fd_to_stream_ := (CloseLocked s new).2.fd_to_stream_.AddFileStream new stream }) := by
        simp [dup2, DupLocked, hs, hn, heq]
      rw [hd]
      refine ⟨rfl, ?_, ?_, ?_, fun h => absurd h heq⟩
      · simp [FdToFileStreamMap.GetStream, FdToFileStreamMap.AddFileStream]
      · have hold : (CloseLocked s new).2.fd_to_stream_.entries old =
            s.fd_to_stream_.entries old := by
          unfold CloseLocked
          split
          · rfl
          · simp [FdToFileStreamMap.RemoveFileStream, heq]
        simp only [FdToFileStreamMap.GetStream, FdToFileStreamMap.AddFileStream, if_neg heq,
          hold]
        exact hs
      · intro x hx
        simp only [FdToFileStreamMap.AddFileStream, if_neg hx]
        unfold CloseLocked
        split
        · rfl
        · simp [FdToFileStreamMap.RemoveFileStream, hx]
  · intro hneg stream hs
    have hdup : dup2 s old new = dup s old := by
      simp [dup2, dup, DupLocked, hs, hneg]
    refine ⟨hdup, ?_, ?_⟩
    · intro fd hmin hlow
      have hg := GetFirstUnusedDescriptorLocked_of_lowest s fd hlow
      have hfd : ¬ fd < 0 := lowest_unused_nonneg_of _ fd hmin hlow
      have hunused : s.fd_to_stream_.entries fd = .unused :=
        (known_iff_entries _ _).1 hlow.2.2.1
      have hof : old ≠ fd := by
        intro e
        rw [e] at hs
        simp [FdToFileStreamMap.GetStream, hunused] at hs
      have hnone : (s.fd_to_stream_.reserve fd).GetStream fd = none := by
        simp [FdToFileStreamMap.GetStream, FdToFileStreamMap.reserve]
      have hclose : CloseLocked { s with fd_to_stream_ := s.fd_to_stream_.reserve fd } fd =
          (false, { s with fd_to_stream_ := s.fd_to_stream_.reserve fd }) := by
        simp only [CloseLocked, hnone]
      have hd : dup2 s old new = (fd,
          { s with fd_to_stream_ :=
              (s.fd_to_stream_.reserve fd).AddFileStream fd stream }) := by
        simp only [dup2, DupLocked, hs, hneg, if_true, hg, if_neg hfd, if_neg hof, hclose]
      have hnf : new ≠ fd := by
        intro e
        rw [e] at hneg
        exact hfd hneg
      rw [hd]
      refine ⟨rfl, fun e => hnf e.symm, ?_, ?_, ?_⟩
      · simp [FdToFileStreamMap.GetStream, FdToFileStreamMap.AddFileStream]
      · simp only [FdToFileStreamMap.GetStream, FdToFileStreamMap.AddFileStream,
          FdToFileStreamMap.reserve, if_neg hof]
        exact hs
      · intro x hx
        simp [FdToFileStreamMap.AddFileStream, FdToFileStreamMap.reserve, hx]
    · intro hfull
      have hg := GetFirstUnusedDescriptorLocked_of_full s hfull
      have hd : dup2 s old new = (-1, { s with errno := EMFILE }) := by
        simp [dup2, DupLocked, hs, hneg, hg]
      rw [hd]
      exact ⟨rfl, rfl, rfl⟩
  · intro hs
    have hd : dup2 s old new = (-1, { s with errno := EBADF }) := by
      simp [dup2, DupLocked, hs]
    rw [hd]
    exact ⟨rfl, rfl, rfl⟩

/-- C13, at a concrete input: after two opens (descriptors 3 and 4), `dup2(3, 4)` returns 4
and binds 4 to the stream of 3 (the object 103); `dup2(3, 3)` returns 3. -/
theorem dup2_binds_the_same_stream_witness :
    ((vfs_open openableEnv 1 (VirtualFileSystem.new 3 1023 false) "/a".toList O_RDONLY 0).bind
      fun r1 => (vfs_open openableEnv 1 r1.2 "/b".toList O_RDONLY 0).bind
      fun r2 => Result.ok ((dup2 r2.2 3 4).1,
        (dup2 r2.2 3 4).2.fd_to_stream_.GetStream 4,
        r2.2.fd_to_stream_.GetStream 3, (dup2 r2.2 3 3).1)) =
      .ok (4, some ⟨.handler, 103, some ⟨0, true⟩⟩, some ⟨.handler, 103, some ⟨0, true⟩⟩, 3) ∧
    ∀ s : VirtualFileSystem, ∀ stream, s.fd_to_stream_.GetStream 3 = some stream →
      (dup2 s 3 4).1 = 4 ∧ (dup2 s 3 4).2.fd_to_stream_.GetStream 4 = some stream :=
  ⟨by decide, fun s stream h =>
    ⟨((dup2_binds_the_same_stream s 3 4).1 (by decide) stream h).1,
      ((dup2_binds_the_same_stream s 3 4).1 (by decide) stream h).2.1⟩⟩

/-- C13, refuted as stated: with descriptor 3 bound (to the object 103) and 4 the smallest
unused descriptor, `dup2(3, -7)` does not return -7 with -7 bound to the stream of 3: it
returns 4 and binds 4, as `dup(3)` does. -/
theorem dup2_with_negative_descriptor_allocates :
    oneOpenState.fd_to_stream_.GetStream 3 = some ⟨.handler, 103, some ⟨0, true⟩⟩ ∧
    (dup2 oneOpenState 3 (-7)).1 = 4 ∧
    (dup2 oneOpenState 3 (-7)).2.fd_to_stream_.GetStream 4 =
      some ⟨.handler, 103, some ⟨0, true⟩⟩ ∧
    (dup2 oneOpenState 3 (-7)).2.fd_to_stream_.GetStream (-7) = none ∧
    (dup oneOpenState 3).1 = 4 ∧
    ¬ Dup2BindsNew oneOpenState 3 (-7) := by
  have h3 : oneOpenState.fd_to_stream_.GetStream 3 =
      some ⟨.handler, 103, some ⟨0, true⟩⟩ := by decide
  have hr : (dup2 oneOpenState 3 (-7)).1 = 4 := by decide
  refine ⟨h3, hr, by decide, by decide, by decide, ?_⟩
  intro hc
  have := (hc _ h3).1
  rw [hr] at this
  exact absurd this (by decide)

end posix_translation
